import Mathlib

/-!
# QR symbol generator of RedkaConnect (`src/gui/src/QRCodeWidget.cpp`)

A shallow embedding of `QRCodeWidget`'s generation logic.  C++ `int` values are
`Int` where a sign can matter (indices, the logarithm table) and `Nat` for byte
values; a `QVector` is a `List`; an indexed access that C++ leaves unchecked is
an `Option`-valued read or write, `none` standing for an access outside the
vector or table.
-/

namespace QRCodeWidget

/-! ## Galois field tables -/

/-- The table `GF_EXP[512]`.  The initialiser of the source lists 511 values;
the last entry, index 511, is zero-initialised. -/
def GF_EXP : List Nat := [
  1, 2, 4, 8, 16, 32, 64, 128, 29, 58, 116, 232, 205, 135, 19, 38,
  76, 152, 45, 90, 180, 117, 234, 201, 143, 3, 6, 12, 24, 48, 96, 192,
  157, 39, 78, 156, 37, 74, 148, 53, 106, 212, 181, 119, 238, 193, 159, 35,
  70, 140, 5, 10, 20, 40, 80, 160, 93, 186, 105, 210, 185, 111, 222, 161,
  95, 190, 97, 194, 153, 47, 94, 188, 101, 202, 137, 15, 30, 60, 120, 240,
  253, 231, 211, 187, 107, 214, 177, 127, 254, 225, 223, 163, 91, 182, 113, 226,
  217, 175, 67, 134, 17, 34, 68, 136, 13, 26, 52, 104, 208, 189, 103, 206,
  129, 31, 62, 124, 248, 237, 199, 147, 59, 118, 236, 197, 151, 51, 102, 204,
  133, 23, 46, 92, 184, 109, 218, 169, 79, 158, 33, 66, 132, 21, 42, 84,
  168, 77, 154, 41, 82, 164, 85, 170, 73, 146, 57, 114, 228, 213, 183, 115,
  230, 209, 191, 99, 198, 145, 63, 126, 252, 229, 215, 179, 123, 246, 241, 255,
  227, 219, 171, 75, 150, 49, 98, 196, 149, 55, 110, 220, 165, 87, 174, 65,
  130, 25, 50, 100, 200, 141, 7, 14, 28, 56, 112, 224, 221, 167, 83, 166,
  81, 162, 89, 178, 121, 242, 249, 239, 195, 155, 43, 86, 172, 69, 138, 9,
  18, 36, 72, 144, 61, 122, 244, 245, 247, 243, 251, 235, 203, 139, 11, 22,
  44, 88, 176, 125, 250, 233, 207, 131, 27, 54, 108, 216, 173, 71, 142, 1,
  2, 4, 8, 16, 32, 64, 128, 29, 58, 116, 232, 205, 135, 19, 38, 76,
  152, 45, 90, 180, 117, 234, 201, 143, 3, 6, 12, 24, 48, 96, 192, 157,
  39, 78, 156, 37, 74, 148, 53, 106, 212, 181, 119, 238, 193, 159, 35, 70,
  140, 5, 10, 20, 40, 80, 160, 93, 186, 105, 210, 185, 111, 222, 161, 95,
  190, 97, 194, 153, 47, 94, 188, 101, 202, 137, 15, 30, 60, 120, 240, 253,
  231, 211, 187, 107, 214, 177, 127, 254, 225, 223, 163, 91, 182, 113, 226, 217,
  175, 67, 134, 17, 34, 68, 136, 13, 26, 52, 104, 208, 189, 103, 206, 129,
  31, 62, 124, 248, 237, 199, 147, 59, 118, 236, 197, 151, 51, 102, 204, 133,
  23, 46, 92, 184, 109, 218, 169, 79, 158, 33, 66, 132, 21, 42, 84, 168,
  77, 154, 41, 82, 164, 85, 170, 73, 146, 57, 114, 228, 213, 183, 115, 230,
  209, 191, 99, 198, 145, 63, 126, 252, 229, 215, 179, 123, 246, 241, 255, 227,
  219, 171, 75, 150, 49, 98, 196, 149, 55, 110, 220, 165, 87, 174, 65, 130,
  25, 50, 100, 200, 141, 7, 14, 28, 56, 112, 224, 221, 167, 83, 166, 81,
  162, 89, 178, 121, 242, 249, 239, 195, 155, 43, 86, 172, 69, 138, 9, 18,
  36, 72, 144, 61, 122, 244, 245, 247, 243, 251, 235, 203, 139, 11, 22, 44,
  88, 176, 125, 250, 233, 207, 131, 27, 54, 108, 216, 173, 71, 142, 1, 0]

/-- The table `GF_LOG[256]`. -/
def GF_LOG : List Int := [
  -1, 0, 1, 25, 2, 50, 26, 198, 3, 223, 51, 238, 27, 104, 199, 75,
  4, 100, 224, 14, 52, 141, 239, 129, 28, 193, 105, 248, 200, 8, 76, 113,
  5, 138, 101, 47, 225, 36, 15, 33, 53, 147, 142, 218, 240, 18, 130, 69,
  29, 181, 194, 125, 106, 39, 249, 185, 201, 154, 9, 120, 77, 228, 114, 166,
  6, 191, 139, 98, 102, 221, 48, 253, 226, 152, 37, 179, 16, 145, 34, 136,
  54, 208, 148, 206, 143, 150, 219, 189, 241, 210, 19, 92, 131, 56, 70, 64,
  30, 66, 182, 163, 195, 72, 126, 110, 107, 58, 40, 84, 250, 133, 186, 61,
  202, 94, 155, 159, 10, 21, 121, 43, 78, 212, 229, 172, 115, 243, 167, 87,
  7, 112, 192, 247, 140, 128, 99, 13, 103, 74, 222, 237, 49, 197, 254, 24,
  227, 165, 153, 119, 38, 184, 180, 124, 17, 68, 146, 217, 35, 32, 137, 46,
  55, 63, 209, 91, 149, 188, 207, 205, 144, 135, 151, 178, 220, 252, 190, 97,
  242, 86, 211, 171, 20, 42, 93, 158, 132, 60, 57, 83, 71, 109, 65, 162,
  31, 45, 67, 216, 183, 123, 164, 118, 196, 23, 73, 236, 127, 12, 111, 246,
  108, 161, 59, 82, 41, 157, 85, 170, 251, 96, 134, 177, 187, 204, 62, 90,
  203, 89, 95, 176, 156, 169, 160, 81, 11, 245, 22, 235, 122, 117, 44, 215,
  79, 174, 213, 233, 230, 231, 173, 232, 116, 214, 244, 234, 168, 80, 88, 175]

/-- Read of a table of naturals at a C++ `int` index. -/
def readNat (t : List Nat) (i : Int) : Option Nat :=
  if i < 0 then none else t[i.toNat]?

/-- Read of a table of integers at a C++ `int` index. -/
def readInt (t : List Int) (i : Int) : Option Int :=
  if i < 0 then none else t[i.toNat]?

/-- One row of `generators[][30]`: the listed coefficients, the rest of the 30
entries zero-initialised. -/
def row30 (l : List Nat) : List Nat := l ++ List.replicate (30 - l.length) 0

/-- The table `static const int generators[][30]` of `calculateECC`: 21 rows,
indices 0 to 20. -/
def generators : List (List Nat) := [
  row30 [0], row30 [0], row30 [0], row30 [0], row30 [0], row30 [0], row30 [0],
  row30 [87, 229, 146, 149, 238, 102, 21],
  row30 [0], row30 [0],
  row30 [251, 67, 46, 61, 118, 70, 64, 94, 32, 45],
  row30 [0], row30 [0], row30 [0], row30 [0],
  row30 [8, 183, 61, 91, 202, 37, 51, 58, 58, 237, 140, 124, 5, 99, 105],
  row30 [0], row30 [0], row30 [0], row30 [0],
  row30 [17, 60, 79, 50, 61, 163, 26, 187, 202, 180, 221, 225, 83, 239, 156, 164, 212, 212, 188, 190]]

/-- The read `eccCount < 30 ? generators[eccCount][j] : 0`. -/
def genCoef (eccCount j : Nat) : Option Nat :=
  if eccCount < 30 then (generators[eccCount]?).bind (fun row => row[j]?) else some 0

/-- The value `GF_EXP[(logFactor + GF_LOG[GF_EXP[coef]]) % 255]`; `%` is the
truncating remainder of C++. -/
def gfTerm (logFactor : Int) (coef : Nat) : Option Nat := do
  let e ← GF_EXP[coef]?
  let l ← readInt GF_LOG e
  readNat GF_EXP ((logFactor + l).tmod 255)

/-- Body of the loop `for (j = 0; j < eccCount && j < 30; ++j)`. -/
def eccInner (eccCount : Nat) (logFactor : Int) (result : List Nat) (j : Nat) :
    Option (List Nat) := do
  let coef ← genCoef eccCount j
  if coef ≠ 0 then
    let t ← gfTerm logFactor coef
    let old ← result[j]?
    some (result.set j (old ^^^ t))
  else
    some result

/-- The register shift `result[j] = result[j + 1]` for `j < eccCount - 1`,
then `result[eccCount - 1] = 0`. -/
def eccShift (eccCount : Nat) (result : List Nat) : List Nat :=
  ((List.range (eccCount - 1)).foldl (fun r j => r.set j (r.getD (j + 1) 0)) result).set
    (eccCount - 1) 0

/-- One iteration of the loop over the data bytes in `calculateECC`. -/
def eccStep (eccCount : Nat) (result : List Nat) (d : Nat) : Option (List Nat) := do
  let r0 ← result[0]?
  let factor := d ^^^ r0
  let shifted := eccShift eccCount result
  if factor ≠ 0 then
    let logFactor ← readInt GF_LOG factor
    (List.range (min eccCount 30)).foldlM (eccInner eccCount logFactor) shifted
  else
    some shifted

/-- `QRCodeWidget::calculateECC`; `none` when a table is read outside its
bounds. -/
def calculateECC (data : List Nat) (eccCount : Nat) : Option (List Nat) :=
  data.foldlM (eccStep eccCount) (List.replicate eccCount 0)


/-! ## Symbol state -/

/-- A `QVector<QVector<bool>>`, indexed `[row][column]`. -/
abbrev Grid := List (List Bool)

/-- The members `m_version`, `m_moduleCount`, `m_modules` and `m_isFunction` of
`QRCodeWidget`. -/
structure QRState where
  version : Int
  moduleCount : Int
  modules : Grid
  isFunction : Grid
deriving DecidableEq, Repr

/-- The unchecked read `g[y][x]`. -/
def readCell (g : Grid) (y x : Int) : Option Bool :=
  if y < 0 ∨ x < 0 then none else (g[y.toNat]?).bind (fun row => row[x.toNat]?)

/-- The unchecked write `g[y][x] = v`. -/
def writeCell (g : Grid) (y x : Int) (v : Bool) : Option Grid :=
  if y < 0 ∨ x < 0 then none
  else
    match g[y.toNat]? with
    | none => none
    | some row => if x.toNat < row.length then some (g.set y.toNat (row.set x.toNat v)) else none

/-- `QRCodeWidget::setModule`. -/
def setModule (s : QRState) (x y : Int) (black : Bool) : Option QRState :=
  if x ≥ 0 ∧ x < s.moduleCount ∧ y ≥ 0 ∧ y < s.moduleCount then
    (writeCell s.modules y x black).map (fun m => { s with modules := m })
  else some s

/-- The assignment `m_isFunction[y][x] = true`. -/
def markFunction (s : QRState) (y x : Int) : Option QRState :=
  (writeCell s.isFunction y x true).map (fun f => { s with isFunction := f })

/-- The values of `for (int i = lo; i < hi; ++i)`. -/
def intRange (lo hi : Int) : List Int :=
  (List.range (hi - lo).toNat).map (fun (k : Nat) => lo + (k : Int))

/-! ## Version selection and bit stream -/

/-- `QRCodeWidget::selectVersion`. -/
def selectVersion (dataLength : Int) : Int :=
  if dataLength ≤ 20 then 2
  else if dataLength ≤ 32 then 3
  else if dataLength ≤ 46 then 4
  else 5

/-- The eight bits `(v >> i) & 1` for `i = 7, ..., 0`. -/
def byteBits (v : Nat) : List Bool :=
  [7, 6, 5, 4, 3, 2, 1, 0].map (fun i => (v >>> i) &&& 1 != 0)

/-- The capacity in bits that `encodeData` takes for a version. -/
def capacityOf (version : Int) : Nat :=
  if version = 2 then 272
  else if version = 3 then 440
  else if version = 4 then 640
  else 864

/-- The loop `while (bits.size() % 8 != 0) bits << false`, with fuel. -/
def padToByte : Nat → List Bool → Option (List Bool)
  | 0, _ => none
  | fuel + 1, bits =>
    if bits.length % 8 ≠ 0 then padToByte fuel (bits ++ [false]) else some bits

/-- The loop `while (bits.size() < capacity)` that appends the pad bytes, with
fuel. -/
def padBytes : Nat → Nat → Bool → List Bool → Option (List Bool)
  | 0, _, _, _ => none
  | fuel + 1, capacity, padByte, bits =>
    if bits.length < capacity then
      padBytes fuel capacity (!padByte) (bits ++ byteBits (if padByte then 0xEC else 0x11))
    else some bits

/-- `QRCodeWidget::encodeData`, for the bytes `utf8` of the text and the value
of `m_version`. -/
def encodeData (version : Int) (utf8 : List Nat) : Option (List Bool) := do
  let bits := [false, true, false, false]
  let count := utf8.length
  let bits := bits ++ byteBits count
  let bits := utf8.foldl (fun acc byte => acc ++ byteBits (byte % 256)) bits
  let capacity := capacityOf version
  let terminatorLength : Int := min 4 ((capacity : Int) - (bits.length : Int))
  let bits := bits ++ List.replicate terminatorLength.toNat false
  let bits ← padToByte 8 bits
  padBytes (capacity + 1) capacity true bits

/-- The byte that `addErrorCorrection` reads at bit offset `i`: the loop
`for (j = 0; j < 8 && i + j < dataBits.size(); ++j)`. -/
def byteAt (dataBits : List Bool) (i : Nat) : Nat :=
  ((dataBits.drop i).take 8).foldl (fun byte b => (byte <<< 1) ||| (if b then 1 else 0)) 0

/-- The bytes `addErrorCorrection` reads off the bit stream: the loop
`for (i = 0; i < dataBits.size(); i += 8)`. -/
def bitsToBytes (dataBits : List Bool) : List Nat :=
  (List.range ((dataBits.length + 7) / 8)).map (fun c => byteAt dataBits (8 * c))

/-- The count of ECC codewords that `addErrorCorrection` takes for a version. -/
def eccCountOf (version : Int) : Nat :=
  if version = 2 then 10
  else if version = 3 then 15
  else if version = 4 then 20
  else 26

/-- `QRCodeWidget::addErrorCorrection`, as the stream that it leaves in
`dataBits`; `none` when `calculateECC` reads a table outside its bounds. -/
def addErrorCorrection (version : Int) (dataBits : List Bool) : Option (List Bool) := do
  let dataBytes := bitsToBytes dataBits
  let eccCount := eccCountOf version
  let ecc ← calculateECC dataBytes eccCount
  some (ecc.foldl (fun acc byte => acc ++ byteBits byte) dataBits)

/-! ## Function patterns -/

/-- The offsets `-4, ..., 4` of the loops in `drawFinder`. -/
def finderOffsets : List Int := [-4, -3, -2, -1, 0, 1, 2, 3, 4]

/-- Body of the two loops of the lambda `drawFinder`. -/
def drawFinderCell (cx cy dy : Int) (s : QRState) (dx : Int) : Option QRState :=
  let x := cx + dx
  let y := cy + dy
  if x < 0 ∨ x ≥ s.moduleCount ∨ y < 0 ∨ y ≥ s.moduleCount then some s
  else do
    let dist := max dx.natAbs dy.natAbs
    let black := decide (dist ≤ 3) && decide (dist ≠ 2)
    let s ← setModule s x y black
    markFunction s y x

/-- The lambda `drawFinder` of `addFinderPatterns`. -/
def drawFinder (s : QRState) (cx cy : Int) : Option QRState :=
  finderOffsets.foldlM
    (fun s dy => finderOffsets.foldlM (drawFinderCell cx cy dy) s) s

/-- `QRCodeWidget::addFinderPatterns`. -/
def addFinderPatterns (s : QRState) : Option QRState := do
  let s ← drawFinder s 3 3
  let s ← drawFinder s (s.moduleCount - 4) 3
  drawFinder s 3 (s.moduleCount - 4)

/-- Body of the loop of `addTimingPatterns`. -/
def timingStep (s : QRState) (i : Int) : Option QRState := do
  let black := decide (i % 2 = 0)
  let h ← readCell s.isFunction 6 i
  let s ← if !h then (do
      let s ← setModule s i 6 black
      markFunction s 6 i) else some s
  let v ← readCell s.isFunction i 6
  if !v then (do
    let s ← setModule s 6 i black
    markFunction s i 6) else some s

/-- `QRCodeWidget::addTimingPatterns`. -/
def addTimingPatterns (s : QRState) : Option QRState :=
  (intRange 8 (s.moduleCount - 8)).foldlM timingStep s

/-- The table `positions[][7]` of `addAlignmentPatterns`, the entries that are
not listed zero-initialised. -/
def positions : List (List Int) := [
  [6, 18, 0, 0, 0, 0, 0],
  [6, 22, 0, 0, 0, 0, 0],
  [6, 26, 0, 0, 0, 0, 0],
  [6, 30, 0, 0, 0, 0, 0],
  [6, 34, 0, 0, 0, 0, 0]]

/-- The offsets `-2, ..., 2` of the loops that draw an alignment pattern. -/
def alignOffsets : List Int := [-2, -1, 0, 1, 2]

/-- Body of the two loops that draw one alignment pattern. -/
def alignCell (cx cy dy : Int) (s : QRState) (dx : Int) : Option QRState := do
  let dist := max dx.natAbs dy.natAbs
  let black := decide (dist ≠ 1)
  let s ← setModule s (cx + dx) (cy + dy) black
  markFunction s (cy + dy) (cx + dx)

/-- Body of the loops over `i` and `j` in `addAlignmentPatterns`. -/
def alignAt (pos : List Int) (i : Nat) (s : QRState) (j : Nat) : Option QRState := do
  let cx ← pos[i]?
  let cy ← pos[j]?
  if (cx ≤ 8 ∧ cy ≤ 8) ∨ (cx ≤ 8 ∧ cy ≥ s.moduleCount - 9) ∨
      (cx ≥ s.moduleCount - 9 ∧ cy ≤ 8) then some s
  else
    alignOffsets.foldlM (fun s dy => alignOffsets.foldlM (alignCell cx cy dy) s) s

/-- `QRCodeWidget::addAlignmentPatterns`. -/
def addAlignmentPatterns (s : QRState) : Option QRState :=
  if s.version < 2 ∨ s.version > 6 then some s
  else do
    let pos ← positions[(s.version - 2).toNat]?
    (List.range 2).foldlM (fun s i => (List.range 2).foldlM (alignAt pos i) s) s

/-- The bit `(formatBits >> i) & 1` of `formatBits = 0x77C4`. -/
def formatBit (i : Nat) : Bool := ((0x77C4 : Nat) >>> i) &&& 1 != 0

/-- Body of the first loop of `addFormatInfo`, `i` from 0 to 5. -/
def formatLow (s : QRState) (i : Nat) : Option QRState := do
  let bit := formatBit i
  let s ← setModule s 8 i bit
  let s ← markFunction s i 8
  setModule s (s.moduleCount - 1 - i) 8 bit

/-- Body of the second loop of `addFormatInfo`, `i` from 9 to 14. -/
def formatHigh (s : QRState) (i : Nat) : Option QRState := do
  let bit := formatBit i
  let s ← setModule s (14 - i) 8 bit
  let s ← markFunction s 8 (14 - i)
  setModule s 8 (s.moduleCount - 15 + i) bit

/-- `QRCodeWidget::addFormatInfo`. -/
def addFormatInfo (s : QRState) : Option QRState := do
  let s ← [0, 1, 2, 3, 4, 5].foldlM formatLow s
  let s ← setModule s 8 7 (formatBit 6)
  let s ← markFunction s 7 8
  let s ← setModule s 8 8 (formatBit 7)
  let s ← markFunction s 8 8
  let s ← setModule s 7 8 (formatBit 8)
  let s ← markFunction s 8 7
  let s ← [9, 10, 11, 12, 13, 14].foldlM formatHigh s
  let s ← setModule s 8 (s.moduleCount - 8) true
  markFunction s (s.moduleCount - 8) 8

/-! ## Data placement and mask -/

/-- Body of the loop `for (int c = 0; c < 2; ++c)` of `placeModules`; the
state carries `bitIndex`. -/
def placeCell (data : List Bool) (col actualRow : Int) (st : QRState × Nat) (c : Nat) :
    Option (QRState × Nat) := do
  let x := col - c
  let f ← readCell st.1.isFunction actualRow x
  if !f then
    match data[st.2]? with
    | some b => (setModule st.1 x actualRow b).map (fun s => (s, st.2 + 1))
    | none => some (st.1, st.2 + 1)
  else some st

/-- Body of the loop over `row` of `placeModules`. -/
def placeRow (data : List Bool) (col : Int) (upward : Bool) (st : QRState × Nat) (row : Nat) :
    Option (QRState × Nat) :=
  let actualRow : Int := if upward then st.1.moduleCount - 1 - row else row
  [0, 1].foldlM (placeCell data col actualRow) st

/-- The loop `for (int col = m_moduleCount - 1; col >= 0; col -= 2)` of
`placeModules`, with fuel. -/
def placeColumns (data : List Bool) : Nat → Int → Bool → QRState × Nat → Option (QRState × Nat)
  | 0, _, _, _ => none
  | fuel + 1, col, upward, st =>
    if col ≥ 0 then do
      let col := if col = 6 then 5 else col
      let st ← (List.range st.1.moduleCount.toNat).foldlM (placeRow data col upward) st
      placeColumns data fuel (col - 2) (!upward) st
    else some st

/-- `QRCodeWidget::placeModules`. -/
def placeModules (s : QRState) (data : List Bool) : Option QRState :=
  (placeColumns data (s.moduleCount.toNat + 1) (s.moduleCount - 1) true (s, 0)).map
    (fun st => st.1)

/-- Body of the loops of `applyMask`. -/
def maskCell (y : Nat) (s : QRState) (x : Nat) : Option QRState := do
  let f ← readCell s.isFunction y x
  if !f then
    if (x + y) % 2 = 0 then do
      let old ← readCell s.modules y x
      (writeCell s.modules y x (!old)).map (fun m => { s with modules := m })
    else some s
  else some s

/-- `QRCodeWidget::applyMask`. -/
def applyMask (s : QRState) : Option QRState :=
  (List.range s.moduleCount.toNat).foldlM
    (fun s y => (List.range s.moduleCount.toNat).foldlM (maskCell y) s) s

/-! ## Generation -/

/-- `QVector::resize`: the first `n` entries are kept, missing ones are
default-constructed. -/
def resize {α : Type} (n : Nat) (dflt : α) (l : List α) : List α :=
  (l ++ List.replicate (n - l.length) dflt).take n

/-- `QVector::fill`: every entry becomes `v`, the size stays. -/
def fill {α : Type} (v : α) (l : List α) : List α := List.replicate l.length v

/-- Body of the loop of `generateQRCode` that resizes and clears the rows. -/
def initRow (s : QRState) (i : Nat) : Option QRState := do
  let rowM ← s.modules[i]?
  let rowF ← s.isFunction[i]?
  let n := s.moduleCount.toNat
  some { s with
    modules := s.modules.set i (fill false (resize n false rowM))
    isFunction := s.isFunction.set i (fill false (resize n false rowF)) }

/-- The function patterns that `generateQRCode` stamps before the data. -/
def addPatterns (s : QRState) : Option QRState := do
  let s ← addFinderPatterns s
  let s ← addTimingPatterns s
  if s.version ≥ 2 then addAlignmentPatterns s else some s

/-- `QRCodeWidget::generateQRCode`, for the UTF-8 bytes `text` of `m_data`
(`m_data.isEmpty()` is `text = []`); `none` when a step reads or writes
outside the bounds of a grid or a table. -/
def generateQRCode (text : List Nat) (s : QRState) : Option QRState :=
  if text = [] then some { s with modules := [] }
  else do
    let version := selectVersion text.length
    let s := { s with version := version, moduleCount := 17 + version * 4 }
    let n := s.moduleCount.toNat
    let s := { s with modules := resize n [] s.modules, isFunction := resize n [] s.isFunction }
    let s ← (List.range n).foldlM initRow s
    let s ← addPatterns s
    let dataBits ← encodeData s.version text
    let dataBits ← addErrorCorrection s.version dataBits
    let s ← placeModules s dataBits
    let s ← addFormatInfo s
    applyMask s

/-- Multiplication by `x` modulo `x^8 + x^4 + x^3 + x^2 + 1` (0x11D). -/
def xtime (a : Nat) : Nat := if a < 128 then 2 * a else (2 * a) ^^^ 0x11D

/-- The summand of bit `i` of `a` in the product `a * b`. -/
def gfBit (a b i : Nat) : Nat := if a.testBit i then xtime^[i] b else 0

/-- Carry-less product of two bytes reduced modulo 0x11D. -/
def gfMulRef (a b : Nat) : Nat :=
  gfBit a b 0 ^^^ gfBit a b 1 ^^^ gfBit a b 2 ^^^ gfBit a b 3 ^^^
    gfBit a b 4 ^^^ gfBit a b 5 ^^^ gfBit a b 6 ^^^ gfBit a b 7

/-- The power `a^m` in GF(256). -/
def gfPow (a : Nat) : Nat → Nat
  | 0 => 1
  | m + 1 => gfMulRef (gfPow a m) a

/-- Horner evaluation at `x`, continuing from the accumulator `acc`; the
coefficients come highest degree first. -/
def horner (x acc : Nat) (coeffs : List Nat) : Nat :=
  coeffs.foldl (fun a c => gfMulRef a x ^^^ c) acc

/-- Value at `x` of the polynomial with the given coefficients, highest degree
first. -/
def polyEval (coeffs : List Nat) (x : Nat) : Nat := horner x 0 coeffs

/-! ## Proof-side definitions -/

/-- The stream that `encodeData` builds before the terminator: mode bits,
count field, payload bytes. -/
def headerBits (utf8 : List Nat) : List Bool :=
  [false, true, false, false] ++ byteBits utf8.length ++
    utf8.flatMap (fun byte => byteBits (byte % 256))

/-- The bits of `k` pad bytes, `0xEC` first when `padByte` holds. -/
def padSeq : Bool → Nat → List Bool
  | _, 0 => []
  | padByte, k + 1 => byteBits (if padByte then 0xEC else 0x11) ++ padSeq (!padByte) k

/-- The value of eight bits read most significant bit first. -/
def bitsValue (bits : List Bool) : Nat :=
  bits.foldl (fun acc b => 2 * acc + (if b then 1 else 0)) 0


/-- The power `x^i` of the generator, by repeated `xtime`. -/
def pw (i : Nat) : Nat := xtime^[i] 1

/-- The discrete logarithm that `GF_LOG` holds for a field element. -/
def logOf (f : Nat) : Nat := ((readInt GF_LOG f).getD 0).toNat

/-- Check of `GF_LOG` against `GF_EXP`, in one pass: the table has 256 entries
and the entry `l` of every `f ≠ 0` is in 0..254 with `GF_EXP[l] = f`. -/
def logTableOK : Bool :=
  (GF_LOG.length == 256) &&
    (GF_LOG.zip (List.range 256)).all (fun p =>
      p.2 == 0 || (decide (0 ≤ p.1) && decide (p.1 < 255) && (GF_EXP.getD p.1.toNat 0 == p.2)))

/-- The generator coefficient (an exponent) that `calculateECC` reads. -/
def coefAt (k j : Nat) : Nat := (genCoef k j).getD 0

/-- Check of one generator coefficient: present, non-zero, and an exponent that
the two tables send back to itself. -/
def coefOK (k j : Nat) : Bool :=
  match genCoef k j with
  | some c => (c != 0) && decide (c < 255) &&
      ((GF_EXP[c]?).bind (fun e => readInt GF_LOG e) == some (c : Int))
  | none => false

/-- Check of the row of `generators` for `k` ECC codewords. -/
def genOK (k : Nat) : Bool := decide (0 < k) && decide (k < 30) && (List.range k).all (coefOK k)

/-- The field elements `x^c` for the exponents `c` of row `k` of `generators`:
the coefficients of the generator polynomial below its leading 1. -/
def genPows (k : Nat) : List Nat := (List.range k).map (fun j => pw (coefAt k j))

/-- The product `p(x) * (x - r)` over GF(256), coefficients highest degree
first (subtraction is XOR). -/
def mulLinear (p : List Nat) (r : Nat) : List Nat :=
  List.zipWith (fun a b => a ^^^ b) (p ++ [0]) (0 :: p.map (fun c => gfMulRef c r))

/-- The generator polynomial `(x - 2^0)(x - 2^1)...(x - 2^(k-1))`. -/
def genPoly (k : Nat) : List Nat :=
  (List.range k).foldl (fun p i => mulLinear p (gfPow 2 i)) [1]

/-- The values that one step of `calculateECC` XORs into the shifted register
for the feedback `f`. -/
def rowOf (k f : Nat) : List Nat :=
  if f = 0 then List.replicate k 0
  else (List.range k).map (fun j => pw (logOf f + coefAt k j))

/-- A grid of `n` rows of `n` entries. -/
def Sized (n : Nat) (g : Grid) : Prop := g.length = n ∧ ∀ row ∈ g, row.length = n

/-- The state holds two `n` by `n` grids and `m_moduleCount = n`. -/
def WF (n : Nat) (s : QRState) : Prop :=
  s.moduleCount = (n : Int) ∧ Sized n s.modules ∧ Sized n s.isFunction

/-- The grid of `n` by `n` entries `false`. -/
def blankGrid (n : Nat) : Grid := List.replicate n (List.replicate n false)

/-- The state of `generateQRCode` for a version once the grids are cleared. -/
def freshState (version : Int) : QRState :=
  { version := version
    moduleCount := 17 + version * 4
    modules := blankGrid (17 + version * 4).toNat
    isFunction := blankGrid (17 + version * 4).toNat }

/-- Relation between a state and a later one: version and size stay,
`m_modules` changes only at cells in `W`, and a cell marked in `m_isFunction`
stays marked. -/
def Upd (n : Nat) (W : Int → Int → Prop) (s s' : QRState) : Prop :=
  s'.version = s.version ∧ WF n s' ∧
    (∀ y x, ¬ W y x → readCell s'.modules y x = readCell s.modules y x) ∧
    (∀ y x, readCell s.isFunction y x = some true → readCell s'.isFunction y x = some true)

/-- Decision procedure for `Sized`. -/
def sizedB (n : Nat) (g : Grid) : Bool := g.length == n && g.all (fun r => r.length == n)

/-- Decision procedure for `WF`. -/
def wfB (n : Nat) (s : QRState) : Bool :=
  (s.moduleCount == (n : Int)) && sizedB n s.modules && sizedB n s.isFunction

/-- Centres `(column, row)` of the three finder patterns. -/
def finderCentres (mc : Int) : List (Int × Int) := [(3, 3), (mc - 4, 3), (3, mc - 4)]

/-- Offsets inside the 7 by 7 footprint of a finder pattern. -/
def ringOffsets : List Int := [-3, -2, -1, 0, 1, 2, 3]

/-- Inside the three finder footprints the module at distance `d` of the
centre is dark exactly when `d ≠ 2`, and the cell is marked. -/
def finderB (s : QRState) : Bool :=
  (finderCentres s.moduleCount).all fun c => ringOffsets.all fun dy => ringOffsets.all fun dx =>
    (readCell s.modules (c.2 + dy) (c.1 + dx) == some (decide (max dx.natAbs dy.natAbs ≠ 2))) &&
      (readCell s.isFunction (c.2 + dy) (c.1 + dx) == some true)

/-- Timing cells of row 6 and column 6 are dark exactly at even positions and
are marked. -/
def timingB (s : QRState) : Bool :=
  (intRange 8 (s.moduleCount - 8)).all fun i =>
    (readCell s.modules 6 i == some (decide (i % 2 = 0))) &&
    (readCell s.modules i 6 == some (decide (i % 2 = 0))) &&
    (readCell s.isFunction 6 i == some true) && (readCell s.isFunction i 6 == some true)

/-- The cells `(row, column)` that `addFormatInfo` writes, for a grid of side
`n`. -/
def formatCells (n : Int) : List (Int × Int) :=
  [0, 1, 2, 3, 4, 5].flatMap (fun (i : Int) => [(i, 8), (8, n - 1 - i)]) ++
    [(7, 8), (8, 8), (8, 7)] ++
    [9, 10, 11, 12, 13, 14].flatMap (fun (i : Int) => [(8, 14 - i), (n - 15 + i, 8)]) ++
    [(n - 8, 8)]

/-- No cell that `addFormatInfo` writes is marked yet. -/
def formatFreeB (s : QRState) : Bool :=
  (formatCells s.moduleCount).all fun c => readCell s.isFunction c.1 c.2 == some false

/-- Evaluation of a check on the state that the function patterns leave for a
version. -/
def patCheck (version : Int) (P : QRState → Bool) : Bool :=
  match addPatterns (freshState version) with
  | some sp => P sp
  | none => false

/-- The checks on the pattern state that the frame of the later steps needs. -/
def baseB (n : Nat) (version : Int) (s : QRState) : Bool :=
  wfB n s && (s.version == version) && formatFreeB s

/-- All the checks on the state that the function patterns leave. -/
def patternB (n : Nat) (version : Int) (s : QRState) : Bool :=
  baseB n version s && finderB s && timingB s

/-- The cells that `placeModules` and `applyMask` may write, given the marks
`f`: the cells not marked. -/
def freeCell (f : Grid) (y x : Int) : Prop := readCell f y x = some false

/-- The columns that the loop of `placeModules` reaches, from an odd side. -/
def colOK (col : Int) : Prop :=
  col = -1 ∨ (8 ≤ col ∧ col % 2 = 0) ∨ col = 6 ∨ col = 5 ∨ col = 3 ∨ col = 1

/-- The cells that `addFormatInfo` may write. -/
def formatCell (n : Nat) (y x : Int) : Prop := (y, x) ∈ formatCells n

/-- Body of the read-back of a symbol: the cell of column `col - c` in row
`actualRow`, when it is not marked, is read with mask 0 undone. -/
def readBackCell (s : QRState) (col actualRow : Int) (acc : List Bool) (c : Nat) :
    Option (List Bool) := do
  let x := col - c
  let f ← readCell s.isFunction actualRow x
  if !f then
    let m ← readCell s.modules actualRow x
    some (acc ++ [m != decide ((x + actualRow) % 2 = 0)])
  else some acc

/-- The columns of the read-back, in the order of `placeModules`, with fuel. -/
def readBackColumns (s : QRState) : Nat → Int → Bool → List Bool → Option (List Bool)
  | 0, _, _, _ => none
  | fuel + 1, col, upward, acc =>
    if col ≥ 0 then do
      let col := if col = 6 then 5 else col
      let acc ← (List.range s.moduleCount.toNat).foldlM (fun acc row =>
        let actualRow : Int := if upward then s.moduleCount - 1 - row else row
        [0, 1].foldlM (readBackCell s col actualRow) acc) acc
      readBackColumns s fuel (col - 2) (!upward) acc
    else some acc

/-- Read-back of a finished symbol: the cells that `m_isFunction` does not
mark, in the zig-zag order of `placeModules`, each with mask 0 undone. -/
def readBack (s : QRState) : Option (List Bool) :=
  readBackColumns s (s.moduleCount.toNat + 1) (s.moduleCount - 1) true []

/-- The combined stream of data and ECC bits that `generateQRCode` places. -/
def combinedStream (text : List Nat) : Option (List Bool) :=
  (encodeData (selectVersion text.length) text).bind
    (addErrorCorrection (selectVersion text.length))

/-- The read-back of the symbol of `text` starts with the combined stream. -/
def roundTripB (text : List Nat) (s : QRState) : Bool :=
  match generateQRCode text s, combinedStream text with
  | some s', some bits =>
    (match readBack s' with
     | some r => r.take bits.length == bits
     | none => false)
  | _, _ => false

/-! ## A packed copy of the state, for evaluation

The grids of `QRState` are lists of lists; evaluating `generateQRCode` on them
is costly.  `NState` packs each grid into one number, and every function that
touches the grids has a copy on `NState`, written `...N`, with the same body.
`Rel` relates a state to its packed copy and the copies are proved to follow
the originals step by step, so that a fact computed on the packed copy holds of
the state itself. -/

/-- The state with each grid packed into one number: bit `y * n + x` is the
cell of row `y` and column `x` of a grid of side `n = moduleCount`. -/
structure NState where
  version : Int
  moduleCount : Int
  modules : Nat
  isFunction : Nat
deriving DecidableEq, Repr

/-- Read of a packed grid of side `n`. -/
def readCellN (n : Int) (g : Nat) (y x : Int) : Option Bool :=
  if y < 0 ∨ x < 0 ∨ y ≥ n ∨ x ≥ n then none else some (g.testBit (y * n + x).toNat)

/-- Write into a packed grid of side `n`. -/
def writeCellN (n : Int) (g : Nat) (y x : Int) (v : Bool) : Option Nat :=
  if y < 0 ∨ x < 0 ∨ y ≥ n ∨ x ≥ n then none
  else some (if v then g ||| 2 ^ (y * n + x).toNat else g ^^^ (g &&& 2 ^ (y * n + x).toNat))

/-- Copy of `setModule`. -/
def setModuleN (s : NState) (x y : Int) (black : Bool) : Option NState :=
  if x ≥ 0 ∧ x < s.moduleCount ∧ y ≥ 0 ∧ y < s.moduleCount then
    (writeCellN s.moduleCount s.modules y x black).map (fun m => { s with modules := m })
  else some s

/-- Copy of `markFunction`. -/
def markFunctionN (s : NState) (y x : Int) : Option NState :=
  (writeCellN s.moduleCount s.isFunction y x true).map (fun f => { s with isFunction := f })

/-- Copy of `drawFinderCell`. -/
def drawFinderCellN (cx cy dy : Int) (s : NState) (dx : Int) : Option NState :=
  let x := cx + dx
  let y := cy + dy
  if x < 0 ∨ x ≥ s.moduleCount ∨ y < 0 ∨ y ≥ s.moduleCount then some s
  else do
    let dist := max dx.natAbs dy.natAbs
    let black := decide (dist ≤ 3) && decide (dist ≠ 2)
    let s ← setModuleN s x y black
    markFunctionN s y x

/-- Copy of `drawFinder`. -/
def drawFinderN (s : NState) (cx cy : Int) : Option NState :=
  finderOffsets.foldlM
    (fun s dy => finderOffsets.foldlM (drawFinderCellN cx cy dy) s) s

/-- Copy of `addFinderPatterns`. -/
def addFinderPatternsN (s : NState) : Option NState := do
  let s ← drawFinderN s 3 3
  let s ← drawFinderN s (s.moduleCount - 4) 3
  drawFinderN s 3 (s.moduleCount - 4)

/-- Copy of `timingStep`. -/
def timingStepN (s : NState) (i : Int) : Option NState := do
  let black := decide (i % 2 = 0)
  let h ← readCellN s.moduleCount s.isFunction 6 i
  let s ← if !h then (do
      let s ← setModuleN s i 6 black
      markFunctionN s 6 i) else some s
  let v ← readCellN s.moduleCount s.isFunction i 6
  if !v then (do
    let s ← setModuleN s 6 i black
    markFunctionN s i 6) else some s

/-- Copy of `addTimingPatterns`. -/
def addTimingPatternsN (s : NState) : Option NState :=
  (intRange 8 (s.moduleCount - 8)).foldlM timingStepN s

/-- Copy of `alignCell`. -/
def alignCellN (cx cy dy : Int) (s : NState) (dx : Int) : Option NState := do
  let dist := max dx.natAbs dy.natAbs
  let black := decide (dist ≠ 1)
  let s ← setModuleN s (cx + dx) (cy + dy) black
  markFunctionN s (cy + dy) (cx + dx)

/-- Copy of `alignAt`. -/
def alignAtN (pos : List Int) (i : Nat) (s : NState) (j : Nat) : Option NState := do
  let cx ← pos[i]?
  let cy ← pos[j]?
  if (cx ≤ 8 ∧ cy ≤ 8) ∨ (cx ≤ 8 ∧ cy ≥ s.moduleCount - 9) ∨
      (cx ≥ s.moduleCount - 9 ∧ cy ≤ 8) then some s
  else
    alignOffsets.foldlM (fun s dy => alignOffsets.foldlM (alignCellN cx cy dy) s) s

/-- Copy of `addAlignmentPatterns`. -/
def addAlignmentPatternsN (s : NState) : Option NState :=
  if s.version < 2 ∨ s.version > 6 then some s
  else do
    let pos ← positions[(s.version - 2).toNat]?
    (List.range 2).foldlM (fun s i => (List.range 2).foldlM (alignAtN pos i) s) s

/-- Copy of `addPatterns`. -/
def addPatternsN (s : NState) : Option NState := do
  let s ← addFinderPatternsN s
  let s ← addTimingPatternsN s
  if s.version ≥ 2 then addAlignmentPatternsN s else some s

/-- Copy of `formatLow`. -/
def formatLowN (s : NState) (i : Nat) : Option NState := do
  let bit := formatBit i
  let s ← setModuleN s 8 i bit
  let s ← markFunctionN s i 8
  setModuleN s (s.moduleCount - 1 - i) 8 bit

/-- Copy of `formatHigh`. -/
def formatHighN (s : NState) (i : Nat) : Option NState := do
  let bit := formatBit i
  let s ← setModuleN s (14 - i) 8 bit
  let s ← markFunctionN s 8 (14 - i)
  setModuleN s 8 (s.moduleCount - 15 + i) bit

/-- Copy of `addFormatInfo`. -/
def addFormatInfoN (s : NState) : Option NState := do
  let s ← [0, 1, 2, 3, 4, 5].foldlM formatLowN s
  let s ← setModuleN s 8 7 (formatBit 6)
  let s ← markFunctionN s 7 8
  let s ← setModuleN s 8 8 (formatBit 7)
  let s ← markFunctionN s 8 8
  let s ← setModuleN s 7 8 (formatBit 8)
  let s ← markFunctionN s 8 7
  let s ← [9, 10, 11, 12, 13, 14].foldlM formatHighN s
  let s ← setModuleN s 8 (s.moduleCount - 8) true
  markFunctionN s (s.moduleCount - 8) 8

/-- Copy of `placeCell`; in place of `bitIndex` the state carries the bits of
the stream from `bitIndex` on. -/
def placeCellN (col actualRow : Int) (st : NState × List Bool) (c : Nat) :
    Option (NState × List Bool) := do
  let x := col - c
  let f ← readCellN st.1.moduleCount st.1.isFunction actualRow x
  if !f then
    match st.2 with
    | b :: rest => (setModuleN st.1 x actualRow b).map (fun s => (s, rest))
    | [] => some (st.1, [])
  else some st

/-- Copy of `placeRow`. -/
def placeRowN (col : Int) (upward : Bool) (st : NState × List Bool) (row : Nat) :
    Option (NState × List Bool) :=
  let actualRow : Int := if upward then st.1.moduleCount - 1 - row else row
  [0, 1].foldlM (placeCellN col actualRow) st

/-- Copy of `placeColumns`. -/
def placeColumnsN : Nat → Int → Bool → NState × List Bool → Option (NState × List Bool)
  | 0, _, _, _ => none
  | fuel + 1, col, upward, st =>
    if col ≥ 0 then do
      let col := if col = 6 then 5 else col
      let st ← (List.range st.1.moduleCount.toNat).foldlM (placeRowN col upward) st
      placeColumnsN fuel (col - 2) (!upward) st
    else some st

/-- Copy of `placeModules`. -/
def placeModulesN (s : NState) (data : List Bool) : Option NState :=
  (placeColumnsN (s.moduleCount.toNat + 1) (s.moduleCount - 1) true (s, data)).map
    (fun st => st.1)

/-- Copy of `maskCell`. -/
def maskCellN (y : Nat) (s : NState) (x : Nat) : Option NState := do
  let f ← readCellN s.moduleCount s.isFunction y x
  if !f then
    if (x + y) % 2 = 0 then do
      let old ← readCellN s.moduleCount s.modules y x
      (writeCellN s.moduleCount s.modules y x (!old)).map (fun m => { s with modules := m })
    else some s
  else some s

/-- Copy of `applyMask`. -/
def applyMaskN (s : NState) : Option NState :=
  (List.range s.moduleCount.toNat).foldlM
    (fun s y => (List.range s.moduleCount.toNat).foldlM (maskCellN y) s) s

/-- Packed copy of `freshState`. -/
def freshN (version : Int) : NState :=
  { version := version, moduleCount := 17 + version * 4, modules := 0, isFunction := 0 }

/-- Copy of `generateQRCode` for a non-empty text, from the cleared grids. -/
def generateN (text : List Nat) : Option NState := do
  let s ← addPatternsN (freshN (selectVersion text.length))
  let dataBits ← encodeData s.version text
  let dataBits ← addErrorCorrection s.version dataBits
  let s ← placeModulesN s dataBits
  let s ← addFormatInfoN s
  applyMaskN s

/-- A state and its packed copy: same version, side `n`, two `n` by `n` grids,
and every read gives the same result. -/
def Rel (n : Nat) (s : QRState) (a : NState) : Prop :=
  s.version = a.version ∧ a.moduleCount = (n : Int) ∧ WF n s ∧
    (∀ y x, readCell s.modules y x = readCellN n a.modules y x) ∧
    (∀ y x, readCell s.isFunction y x = readCellN n a.isFunction y x)

/-- Two results in `Option` that are both `none`, or both `some` and
related. -/
def ORel {α β : Type} (R : α → β → Prop) : Option α → Option β → Prop
  | some a, some b => R a b
  | none, none => True
  | _, _ => False

/-- The states of `placeModules` and of its copy: the copy holds the bits of
`data` from `bitIndex` on. -/
def RelP (n : Nat) (data : List Bool) (st : QRState × Nat) (sa : NState × List Bool) : Prop :=
  Rel n st.1 sa.1 ∧ sa.2 = data.drop st.2

/-- Copy of `finderB`. -/
def finderBN (s : NState) : Bool :=
  (finderCentres s.moduleCount).all fun c => ringOffsets.all fun dy => ringOffsets.all fun dx =>
    (readCellN s.moduleCount s.modules (c.2 + dy) (c.1 + dx) ==
        some (decide (max dx.natAbs dy.natAbs ≠ 2))) &&
      (readCellN s.moduleCount s.isFunction (c.2 + dy) (c.1 + dx) == some true)

/-- Copy of `timingB`. -/
def timingBN (s : NState) : Bool :=
  (intRange 8 (s.moduleCount - 8)).all fun i =>
    (readCellN s.moduleCount s.modules 6 i == some (decide (i % 2 = 0))) &&
    (readCellN s.moduleCount s.modules i 6 == some (decide (i % 2 = 0))) &&
    (readCellN s.moduleCount s.isFunction 6 i == some true) &&
    (readCellN s.moduleCount s.isFunction i 6 == some true)

/-- Copy of `formatFreeB`. -/
def formatFreeBN (s : NState) : Bool :=
  (formatCells s.moduleCount).all fun c =>
    readCellN s.moduleCount s.isFunction c.1 c.2 == some false

/-- Copy of `patternB`, without the sizes of the grids. -/
def patternBN (version : Int) (s : NState) : Bool :=
  (s.version == version) && formatFreeBN s && finderBN s && timingBN s

/-- Copy of `patCheck`. -/
def patCheckN (version : Int) (P : NState → Bool) : Bool :=
  match addPatternsN (freshN version) with
  | some sp => P sp
  | none => false

/-- Copy of `readBackCell`. -/
def readBackCellN (s : NState) (col actualRow : Int) (acc : List Bool) (c : Nat) :
    Option (List Bool) := do
  let x := col - c
  let f ← readCellN s.moduleCount s.isFunction actualRow x
  if !f then
    let m ← readCellN s.moduleCount s.modules actualRow x
    some (acc ++ [m != decide ((x + actualRow) % 2 = 0)])
  else some acc

/-- Copy of `readBackColumns`. -/
def readBackColumnsN (s : NState) : Nat → Int → Bool → List Bool → Option (List Bool)
  | 0, _, _, _ => none
  | fuel + 1, col, upward, acc =>
    if col ≥ 0 then do
      let col := if col = 6 then 5 else col
      let acc ← (List.range s.moduleCount.toNat).foldlM (fun acc row =>
        let actualRow : Int := if upward then s.moduleCount - 1 - row else row
        [0, 1].foldlM (readBackCellN s col actualRow) acc) acc
      readBackColumnsN s fuel (col - 2) (!upward) acc
    else some acc

/-- Copy of `readBack`. -/
def readBackN (s : NState) : Option (List Bool) :=
  readBackColumnsN s (s.moduleCount.toNat + 1) (s.moduleCount - 1) true []

/-- The read-back of a packed state starts with `bits`. -/
def checkReadBackN (a : NState) (bits : List Bool) : Bool :=
  match readBackN a with
  | some r => r.take bits.length == bits
  | none => false

/-- Copy of `roundTripB`. -/
def roundTripBN (text : List Nat) : Bool :=
  match generateN text, combinedStream text with
  | some s', some bits => checkReadBackN s' bits
  | _, _ => false
/-! ## Packed states, written out

The packed states that the steps of `generateQRCode` leave, for the four
versions and for the text `A`; the theorems `addPatternsN_eq`,
`addFinderPatternsN_eq`, `placeModulesN_A`, `addFormatInfoN_A`, `applyMaskN_A`
show that the copies of the steps compute them. -/

/-- The packed state that the function patterns leave for a version 2 to 5. -/
def patternStateN (version : Int) : NState :=
  if version = 2 then
    { version := 2, moduleCount := 25,
      modules := 0x7f00002080001740000ba1f005d08802085401fc2200001f0040000000000010000000000004000000000001000000000000400000007f555fe08008374005dba002edd00176080083fc007f,
      isFunction := 0xff00007f80003fc0001fe1f00ff0f807f87c03fc3e01fe1f004000002000001000000800000400000200000100000080000040ff007fffffffffc01fffe00ffff007fff803fffc01fffe00ff }
  else if version = 3 then
    { version := 3, moduleCount := 29,
      modules := 0x7f00000208000017400000ba1f0005d0880020854001fc22000001f0004000000000000010000000000000040000000000000100000000000000400000000000001000000000000004000000007f5555fe0800083740005dba0002edd0001760800083fc0007f,
      isFunction := 0xff000007f800003fc00001fe1f000ff0f8007f87c003fc3e001fe1f00040000002000000100000008000000400000020000001000000080000004000000200000010000000800000040ff0007ffffffffffc001fffe000ffff0007fff8003fffc001fffe000ff }
  else if version = 4 then
    { version := 4, moduleCount := 33,
      modules := 0x7f00000020800000174000000ba1f00005d088000208540001fc220000001f000040000000000000001000000000000000040000000000000001000000000000000040000000000000001000000000000000040000000000000001000000000000000040000000007f55555fe080000837400005dba00002edd000017608000083fc00007f,
      isFunction := 0xff0000007f8000003fc000001fe1f0000ff0f80007f87c0003fc3e0001fe1f000040000000200000001000000008000000040000000200000001000000008000000040000000200000001000000008000000040000000200000001000000008000000040ff00007fffffffffffc0001fffe0000ffff00007fff80003fffc0001fffe0000ff }
  else
    { version := 5, moduleCount := 37,
      modules := 0x7f00000002080000001740000000ba1f000005d08800002085400001fc2200000001f0000040000000000000000010000000000000000004000000000000000001000000000000000000400000000000000000100000000000000000040000000000000000010000000000000000004000000000000000001000000000000000000400000000007f555555fe08000008374000005dba000002edd00000176080000083fc000007f,
      isFunction := 0xff00000007f80000003fc0000001fe1f00000ff0f800007f87c00003fc3e00001fe1f000004000000002000000001000000000800000000400000000200000000100000000080000000040000000020000000010000000008000000004000000002000000001000000000800000000400000000200000000100000000080000000040ff000007ffffffffffffc00001fffe00000ffff000007fff800003fffc00001fffe00000ff }

/-- The packed state that `addFinderPatterns` alone leaves for a version 2 to
5. -/
def finderStateN (version : Int) : NState :=
  if version = 2 then
    { version := 2, moduleCount := 25,
      modules := 0x7f00002080001740000ba00005d00002080001fc000000000000000000000000000000000000000000000000000000000000000000007f001fe08008374005dba002edd00176080083fc007f,
      isFunction := 0xff00007f80003fc0001fe0000ff00007f80003fc0001fe00000000000000000000000000000000000000000000000000000000ff007fff803fffc01fffe00ffff007fff803fffc01fffe00ff }
  else if version = 3 then
    { version := 3, moduleCount := 29,
      modules := 0x7f00000208000017400000ba000005d0000020800001fc0000000000000000000000000000000000000000000000000000000000000000000000000000000000000000000000000000000000007f0001fe0800083740005dba0002edd0001760800083fc0007f,
      isFunction := 0xff000007f800003fc00001fe00000ff000007f800003fc00001fe0000000000000000000000000000000000000000000000000000000000000000000000000000000000000000000000ff0007fff8003fffc001fffe000ffff0007fff8003fffc001fffe000ff }
  else if version = 4 then
    { version := 4, moduleCount := 33,
      modules := 0x7f00000020800000174000000ba0000005d000000208000001fc0000000000000000000000000000000000000000000000000000000000000000000000000000000000000000000000000000000000000000000000000000000000000000000000000000000000007f00001fe080000837400005dba00002edd000017608000083fc00007f,
      isFunction := 0xff0000007f8000003fc000001fe000000ff0000007f8000003fc000001fe00000000000000000000000000000000000000000000000000000000000000000000000000000000000000000000000000000000000000000000000000000000000000000000ff00007fff80003fffc0001fffe0000ffff00007fff80003fffc0001fffe0000ff }
  else
    { version := 5, moduleCount := 37,
      modules := 0x7f00000002080000001740000000ba00000005d00000002080000001fc000000000000000000000000000000000000000000000000000000000000000000000000000000000000000000000000000000000000000000000000000000000000000000000000000000000000000000000000000000000000000000000000000000000000000000007f000001fe08000008374000005dba000002edd00000176080000083fc000007f,
      isFunction := 0xff00000007f80000003fc0000001fe0000000ff00000007f80000003fc0000001fe00000000000000000000000000000000000000000000000000000000000000000000000000000000000000000000000000000000000000000000000000000000000000000000000000000000000000000000000000000000000000000000000000ff000007fff800003fffc00001fffe00000ffff000007fff800003fffc00001fffe00000ff }

/-- The 34 data codewords and 10 ECC codewords of the text `A` (one byte, 65)
in version 2. -/
def codewordsA : List Nat :=
  [64, 20, 16, 236, 17, 236, 17, 236, 17, 236, 17, 236, 17, 236, 17, 236, 17, 236, 17, 236, 17,
    236, 17, 236, 17, 236, 17, 236, 17, 236, 17, 236, 17, 236,
    130, 47, 204, 69, 78, 125, 111, 41, 253, 249]

/-- The combined stream of the text `A`: the bits of `codewordsA`. -/
def streamA : List Bool := codewordsA.flatMap byteBits

/-- The packed state of the text `A` after `placeModules`. -/
def placedA : NState :=
    { version := 2, moduleCount := 25,
      modules := 0xa2457f045020867d574eec0ba5f9c5d78eda0ad435fc222e003f46404e11c801dcf80c4c261c99b70b1ecc86a223c03227603645700011007f555fe0aee8374665dbaccaedd77176091083fd117f,
      isFunction := 0xff00007f80003fc0001fe1f00ff0f807f87c03fc3e01fe1f004000002000001000000800000400000200000100000080000040ff007fffffffffc01fffe00ffff007fff803fffc01fffe00ff }

/-- The packed state of the text `A` after `addFormatInfo`. -/
def formattedA : NState :=
    { version := 2, moduleCount := 25,
      modules := 0xa2457f0450a0867d574eec0ba5f9d5d78eda0ad435fc222e003f46404e11c801dcf80c4c261c99b70b1ecc86a223c03227604645f70011807f555fe0aec8374665dbacc2edd77576091083fd107f,
      isFunction := 0xff00007f80003fc0001fe1f00ff0f807f87c03fc3e03fe1f0040000020000010000008000004000002000001000000800001ffff00ffffffffffc03fffe01ffff00ffff807fffc03fffe01ff }

/-- The packed state of the text `A` that `generateQRCode` returns. -/
def symbolA : NState :=
    { version := 2, moduleCount := 25,
      modules := 0x1f7107f5105a0d328175bb94bb1fc85d28b8a0fd561fd637a017f13551b449d5489bd59197349cce65e4b99d3f777956772351311f70044807f555fe0bb88375325dba992edd22576084483fc447f,
      isFunction := 0xff00007f80003fc0001fe1f00ff0f807f87c03fc3e03fe1f0040000020000010000008000004000002000001000000800001ffff00ffffffffffc03fffe01ffff00ffff807fffc03fffe01ff }

/-! ## Statements of the later claims -/

/-- The value that the mask law gives the cell of row `y` and column `x`: the
old module when the cell is marked, and otherwise the old module XOR
`(x + y) mod 2 == 0`. -/
def maskLaw (s : QRState) (y x : Int) : Option Bool := do
  let f ← readCell s.isFunction y x
  let old ← readCell s.modules y x
  some (if f then old else xor old (decide ((x + y) % 2 = 0)))

/-- The right columns of the column pairs in the order that the
specification gives for an odd side `mc ≥ 9`: `mc - 1`, `mc - 3`, ..., 8, and
then 5, 3, 1. -/
def zigzagColumns (mc : Nat) : List Int :=
  (List.range ((mc - 7) / 2)).map (fun (k : Nat) => (mc : Int) - 1 - 2 * k) ++ [5, 3, 1]

/-- The rows in the direction of one column pair: bottom to top when
`upward`, top to bottom otherwise. -/
def zigzagRows (mc : Nat) (upward : Bool) : List Int :=
  (List.range mc).map (fun (row : Nat) => if upward then (mc : Int) - 1 - row else row)

/-- The cells `(column, row)` of the column pairs with the right columns
`cols`: all rows of the first pair in the direction `upward`, the direction
alternating for each following pair, and at each row the right column before
the left one. -/
def zigzagFrom (mc : Nat) : List Int → Bool → List (Int × Int)
  | [], _ => []
  | col :: rest, upward =>
    (zigzagRows mc upward).flatMap (fun row => [(col, row), (col - 1, row)]) ++
      zigzagFrom mc rest (!upward)

/-- The zig-zag order of the specification: the cells `(column, row)` of a
grid of side `mc`, the first column pair bottom to top. -/
def zigzagOrder (mc : Nat) : List (Int × Int) := zigzagFrom mc (zigzagColumns mc) true

/-- The cells of a sequence that the grid `f` of marks does not mark, in the
order of the sequence: entry `k` is the `k`-th cell not marked as a function
cell. -/
def freeCells (f : Grid) (cells : List (Int × Int)) : List (Int × Int) :=
  cells.filter (fun c => readCell f c.2 c.1 == some false)

/-- Copy of `freeCells` on a packed grid of side `n`. -/
def freeCellsN (n : Int) (f : Nat) (cells : List (Int × Int)) : List (Int × Int) :=
  cells.filter (fun c => readCellN n f c.2 c.1 == some false)

/-- The body of the innermost loop of `placeModules` at the cell
`c = (x, actualRow)`. -/
def placeAt (data : List Bool) (st : QRState × Nat) (c : Int × Int) : Option (QRState × Nat) :=
  placeCell data c.1 c.2 st 0

/-- The right columns that the loop `for (col = ...; col >= 0; col -= 2)` of
`placeModules` takes from `col` on, column 6 replaced by 5, with fuel. -/
def loopColumns : Nat → Int → List Int
  | 0, _ => []
  | fuel + 1, col =>
    if col ≥ 0 then
      (if col = 6 then 5 else col) :: loopColumns fuel ((if col = 6 then 5 else col) - 2)
    else []

/-! ## Field multiplication and format word, for the claims on the tables -/

/-- `QRCodeWidget::gfMultiply`; `none` when a table is read outside its
bounds. -/
def gfMultiply (a b : Int) : Option Nat :=
  if a = 0 ∨ b = 0 then some 0
  else do
    let la ← readInt GF_LOG a
    let lb ← readInt GF_LOG b
    readNat GF_EXP (la + lb)

/-- The summand of bit `i` of `a` in the carry-less product `a * b`: `b`
shifted by `i` places. -/
def clBit (a b i : Nat) : Nat := if a.testBit i then b <<< i else 0

/-- Carry-less product of a byte `a` with `b`: the product of the two
polynomials over GF(2), without reduction. -/
def clmul (a b : Nat) : Nat :=
  clBit a b 0 ^^^ clBit a b 1 ^^^ clBit a b 2 ^^^ clBit a b 3 ^^^
    clBit a b 4 ^^^ clBit a b 5 ^^^ clBit a b 6 ^^^ clBit a b 7

/-- Check of `GF_LOG` on the powers of the generator, in one pass:
`GF_LOG[2^i] = i` for `i` from 0 to 254. -/
def expTableOK : Bool :=
  ((List.iterate xtime 1 255).zip (List.range 255)).all
    (fun p => GF_LOG.getD p.1 (-2) == (p.2 : Int))

/-- One step of the division by the generator 0x537 of the BCH(15,5) code:
the bit of degree `j + 10` is cleared by adding the generator shifted by
`j`. -/
def bchStep (x j : Nat) : Nat := if x.testBit (j + 10) then x ^^^ (0x537 <<< j) else x

/-- The remainder of a polynomial of degree at most 14 over GF(2) modulo
0x537. -/
def bchRemainder (x : Nat) : Nat := [4, 3, 2, 1, 0].foldl bchStep x

/-- The format word of the QR standard for two bits of error-correction
level and three bits of mask: the five data bits, then the ten bits of their
BCH remainder, the whole XORed with 0x5412. -/
def formatWord (level mask : Nat) : Nat :=
  let data := (level <<< 3) ||| mask
  ((data <<< 10) ||| bchRemainder (data <<< 10)) ^^^ 0x5412

/-- The packed state that `addFinderPatterns` and `addTimingPatterns` leave
for a version 2 to 5, before the alignment pattern. -/
def timingStateN (version : Int) : NState :=
  if version = 2 then
    { version := 2, moduleCount := 25,
      modules := 0x7f00002080001740000ba00005d00002080001fc000000000040000000000010000000000004000000000001000000000000400000007f555fe08008374005dba002edd00176080083fc007f,
      isFunction := 0xff00007f80003fc0001fe0000ff00007f80003fc0001fe00004000002000001000000800000400000200000100000080000040ff007fffffffffc01fffe00ffff007fff803fffc01fffe00ff }
  else if version = 3 then
    { version := 3, moduleCount := 29,
      modules := 0x7f00000208000017400000ba000005d0000020800001fc0000000000004000000000000010000000000000040000000000000100000000000000400000000000001000000000000004000000007f5555fe0800083740005dba0002edd0001760800083fc0007f,
      isFunction := 0xff000007f800003fc00001fe00000ff000007f800003fc00001fe0000040000002000000100000008000000400000020000001000000080000004000000200000010000000800000040ff0007ffffffffffc001fffe000ffff0007fff8003fffc001fffe000ff }
  else if version = 4 then
    { version := 4, moduleCount := 33,
      modules := 0x7f00000020800000174000000ba0000005d000000208000001fc0000000000000040000000000000001000000000000000040000000000000001000000000000000040000000000000001000000000000000040000000000000001000000000000000040000000007f55555fe080000837400005dba00002edd000017608000083fc00007f,
      isFunction := 0xff0000007f8000003fc000001fe000000ff0000007f8000003fc000001fe00000040000000200000001000000008000000040000000200000001000000008000000040000000200000001000000008000000040000000200000001000000008000000040ff00007fffffffffffc0001fffe0000ffff00007fff80003fffc0001fffe0000ff }
  else
    { version := 5, moduleCount := 37,
      modules := 0x7f00000002080000001740000000ba00000005d00000002080000001fc000000000000000040000000000000000010000000000000000004000000000000000001000000000000000000400000000000000000100000000000000000040000000000000000010000000000000000004000000000000000001000000000000000000400000000007f555555fe08000008374000005dba000002edd00000176080000083fc000007f,
      isFunction := 0xff00000007f80000003fc0000001fe0000000ff00000007f80000003fc0000001fe00000004000000002000000001000000000800000000400000000200000000100000000080000000040000000020000000010000000008000000004000000002000000001000000000800000000400000000200000000100000000080000000040ff000007ffffffffffffc00001fffe00000ffff000007fff800003fffc00001fffe00000ff }

/-! ## Checks on the packed states, for the claims on the alignment pattern and the zig-zag -/

/-- Copy on the packed state of the property of an alignment pattern centred
at column `cx`, row `cy`: each of the 25 cells is dark unless its Chebyshev
distance from the centre is 1, and is marked. -/
def alignmentBN (cx cy : Int) (s : NState) : Bool :=
  alignOffsets.all fun dy => alignOffsets.all fun dx =>
    (readCellN s.moduleCount s.modules (cy + dy) (cx + dx) ==
        some (decide (max dx.natAbs dy.natAbs ≠ 1))) &&
      (readCellN s.moduleCount s.isFunction (cy + dy) (cx + dx) == some true)

/-- Copy on the packed state of: every cell of column 6 is marked. -/
def column6BN (s : NState) : Bool :=
  (intRange 0 s.moduleCount).all fun y =>
    readCellN s.moduleCount s.isFunction y 6 == some true

/-! ## The writes of `addFormatInfo` as a list -/

/-- One write of `addFormatInfo`: `setModule(col, row, v)`, where `v` is bit
`i` of the constant for `bit = some i` and `true` (the dark module) for
`bit = none`, followed by `m_isFunction[row][col] = true` when `mark` is
set. -/
structure FormatWrite where
  bit : Option Nat
  row : Int
  col : Int
  mark : Bool
deriving DecidableEq, Repr

/-- The module that a write of `addFormatInfo` stores. -/
def formatValue : Option Nat → Bool
  | some i => formatBit i
  | none => true

/-- The writes of `addFormatInfo` in the order of the source, for
`m_moduleCount = mc`: the first loop, the three statements for the bits 6, 7
and 8, the second loop, and the dark module. -/
def formatWrites (mc : Int) : List FormatWrite :=
  [0, 1, 2, 3, 4, 5].flatMap
      (fun (i : Nat) => [⟨some i, i, 8, true⟩, ⟨some i, 8, mc - 1 - i, false⟩]) ++
    [⟨some 6, 7, 8, true⟩, ⟨some 7, 8, 8, true⟩, ⟨some 8, 8, 7, true⟩] ++
    [9, 10, 11, 12, 13, 14].flatMap
      (fun (i : Nat) => [⟨some i, 8, 14 - i, true⟩, ⟨some i, mc - 15 + i, 8, false⟩]) ++
    [⟨none, mc - 8, 8, true⟩]

/-- The effect of one write of `addFormatInfo` on the state. -/
def applyFormatWrite (s : QRState) (w : FormatWrite) : Option QRState := do
  let s ← setModule s w.col w.row (formatValue w.bit)
  if w.mark then markFunction s w.row w.col else some s

/-- The cells `(row, column)` that receive bit `i` of the format constant. -/
def formatBitCells (mc : Int) (i : Nat) : List (Int × Int) :=
  ((formatWrites mc).filter (fun w => w.bit == some i)).map (fun w => (w.row, w.col))

/-- All the cells `(column, row)` of a grid of side `mc`. -/
def gridCells (mc : Nat) : List (Int × Int) :=
  List.product ((List.range mc).map (fun (k : Nat) => (k : Int)))
    ((List.range mc).map (fun (k : Nat) => (k : Int)))

/-- Copy on the packed state of the marks of column 6 after the finder
patterns: marked in the rows 0 to 7 and in the last eight rows, and not
marked between them. -/
def column6FinderBN (s : NState) : Bool :=
  (intRange 0 s.moduleCount).all fun y =>
    readCellN s.moduleCount s.isFunction y 6 ==
      some (decide (y ≤ 7 ∨ s.moduleCount - 8 ≤ y))

/-! ## Lists -/

theorem getElem?_some_getD {α : Type} (l : List α) (i : Nat) (d : α) (h : i < l.length) :
    l[i]? = some ((l[i]?).getD d) := by
  rw [List.getElem?_eq_getElem h]
  rfl


theorem zip_range_mem (l : List Int) (n f : Nat) (hl : l.length = n) (hf : f < n) :
    ((l[f]?).getD 0, f) ∈ l.zip (List.range n) := by
  rw [List.mem_iff_getElem?]
  exact ⟨f, List.getElem?_zip_eq_some.mpr
    ⟨getElem?_some_getD l f 0 (by omega), List.getElem?_range hf⟩⟩

/-! ## The bit stream of `encodeData` -/

theorem byteBits_length (v : Nat) : (byteBits v).length = 8 := by
  simp [byteBits]

theorem byteBits_getElem (v j : Nat) (hj : j < 8) :
    (byteBits v)[j]? = some (v.testBit (7 - j)) := by
  have h : ∀ i : Nat, ((v >>> i) &&& 1 != 0) = v.testBit i := by
    intro i
    simp [Nat.testBit, Nat.and_comm]
  simp only [byteBits, List.map_cons, List.map_nil, h]
  interval_cases j <;> rfl

theorem payload_foldl (utf8 : List Nat) (init : List Bool) :
    utf8.foldl (fun acc byte => acc ++ byteBits (byte % 256)) init =
      init ++ utf8.flatMap (fun byte => byteBits (byte % 256)) := by
  induction utf8 generalizing init with
  | nil => simp
  | cons b rest ih => simp [ih, List.flatMap_cons, List.append_assoc]

theorem payload_length (utf8 : List Nat) :
    (utf8.flatMap (fun byte => byteBits (byte % 256))).length = 8 * utf8.length := by
  induction utf8 with
  | nil => simp
  | cons b rest ih => simp [List.flatMap_cons, ih, byteBits_length]; omega

theorem headerBits_length (utf8 : List Nat) :
    (headerBits utf8).length = 12 + 8 * utf8.length := by
  simp only [headerBits, List.length_append, payload_length, byteBits_length,
    List.length_cons, List.length_nil]

theorem padToByte_spec (fuel : Nat) (bits : List Bool)
    (h : (8 - bits.length % 8) % 8 < fuel) :
    padToByte fuel bits = some (bits ++ List.replicate ((8 - bits.length % 8) % 8) false) := by
  induction fuel generalizing bits with
  | zero => omega
  | succ fuel ih =>
    unfold padToByte
    by_cases hz : bits.length % 8 = 0
    · simp [hz]
    · have hlen : (bits ++ [false]).length = bits.length + 1 := by simp
      have hr : (8 - bits.length % 8) % 8 = (8 - (bits ++ [false]).length % 8) % 8 + 1 := by
        rw [hlen]; omega
      rw [if_pos hz, ih _ (by omega), hr, List.replicate_succ]
      simp

theorem padBytes_spec (capacity k : Nat) :
    ∀ (fuel : Nat) (padByte : Bool) (bits : List Bool),
      bits.length + 8 * k = capacity → k < fuel →
      padBytes fuel capacity padByte bits = some (bits ++ padSeq padByte k) := by
  induction k with
  | zero =>
    intro fuel padByte bits hlen hf
    cases fuel with
    | zero => omega
    | succ fuel =>
      unfold padBytes
      rw [if_neg (by omega)]
      simp [padSeq]
  | succ k ih =>
    intro fuel padByte bits hlen hf
    cases fuel with
    | zero => omega
    | succ fuel =>
      unfold padBytes
      rw [if_pos (by omega), ih fuel (!padByte) _ (by simp [byteBits_length]; omega) (by omega)]
      simp [padSeq, List.append_assoc]

theorem padBytes_total (capacity : Nat) :
    ∀ (fuel : Nat) (padByte : Bool) (bits : List Bool),
      capacity ≤ bits.length + 8 * fuel →
      ∃ tail, padBytes (fuel + 1) capacity padByte bits = some (bits ++ tail) := by
  intro fuel
  induction fuel with
  | zero =>
    intro padByte bits h
    unfold padBytes
    rw [if_neg (by omega)]
    exact ⟨[], by simp⟩
  | succ fuel ih =>
    intro padByte bits h
    unfold padBytes
    by_cases hlt : bits.length < capacity
    · rw [if_pos hlt]
      obtain ⟨tail, ht⟩ := ih (!padByte) (bits ++ byteBits (if padByte then 0xEC else 0x11))
        (by simp only [List.length_append, byteBits_length]; omega)
      exact ⟨_, by rw [ht, List.append_assoc]⟩
    · rw [if_neg hlt]
      exact ⟨[], by simp⟩

/-- For every input `encodeData` returns a stream, and the stream starts with
the mode bits, the count field and the payload. -/
theorem encodeData_header (version : Int) (utf8 : List Nat) :
    ∃ tail, encodeData version utf8 = some (headerBits utf8 ++ tail) := by
  unfold encodeData
  simp only [payload_foldl]
  have hh : [false, true, false, false] ++ byteBits utf8.length ++
      utf8.flatMap (fun byte => byteBits (byte % 256)) = headerBits utf8 := rfl
  rw [hh]
  generalize hT : (min 4 ((capacityOf version : Int) - ((headerBits utf8).length : Int))).toNat = t
  rw [padToByte_spec 8 _ (by omega)]
  generalize hr : (8 - (headerBits utf8 ++ List.replicate t false).length % 8) % 8 = r
  obtain ⟨tail, ht⟩ := padBytes_total (capacityOf version) (capacityOf version) true
    (headerBits utf8 ++ List.replicate t false ++ List.replicate r false) (by omega)
  refine ⟨List.replicate t false ++ List.replicate r false ++ tail, ?_⟩
  simp only [Option.bind_eq_bind, Option.some_bind, Option.pure_def, Option.bind_some] at ht ⊢
  rw [ht]
  simp [List.append_assoc]

/-- The whole stream of a text that fits: header, four terminator bits and the
pad bytes up to the capacity. -/
theorem encodeData_fitting (version : Int) (utf8 : List Nat) (k : Nat)
    (hk : 16 + 8 * utf8.length + 8 * k = capacityOf version) :
    encodeData version utf8 =
      some (headerBits utf8 ++ List.replicate 4 false ++ padSeq true k) := by
  unfold encodeData
  simp only [payload_foldl]
  have hh : [false, true, false, false] ++ byteBits utf8.length ++
      utf8.flatMap (fun byte => byteBits (byte % 256)) = headerBits utf8 := rfl
  rw [hh]
  have hlen := headerBits_length utf8
  have hT : (min 4 ((capacityOf version : Int) - ((headerBits utf8).length : Int))).toNat = 4 := by
    rw [hlen]; omega
  rw [hT]
  have hl2 : (headerBits utf8 ++ List.replicate 4 false).length = 16 + 8 * utf8.length := by
    simp only [List.length_append, List.length_replicate, hlen]
    omega
  rw [padToByte_spec 8 _ (by omega)]
  have hr : (8 - (headerBits utf8 ++ List.replicate 4 false).length % 8) % 8 = 0 := by
    rw [hl2]; omega
  rw [hr]
  simp only [List.replicate_zero, List.append_nil, Option.bind_eq_bind, Option.some_bind]
  exact padBytes_spec (capacityOf version) k _ true _ (by rw [hl2]; omega) (by omega)

theorem padSeq_length (padByte : Bool) (k : Nat) : (padSeq padByte k).length = 8 * k := by
  induction k generalizing padByte with
  | zero => simp [padSeq]
  | succ k ih => simp [padSeq, ih, byteBits_length]; omega

theorem padSeq_eq_flatMap (k : Nat) :
    ∀ (padByte : Bool) (off : Nat), (off % 2 = 0 ↔ padByte = true) →
      padSeq padByte k = (List.range' off k).flatMap
        (fun t => byteBits (if t % 2 = 0 then 0xEC else 0x11)) := by
  induction k with
  | zero => intro padByte off _; simp [padSeq]
  | succ k ih =>
    intro padByte off h
    rw [padSeq, List.range'_succ, List.flatMap_cons, ih (!padByte) (off + 1)]
    · cases padByte <;> simp_all
    · cases padByte <;> simp_all <;> omega

/-- The capacity of the version that `selectVersion` picks leaves room for the
terminator when the text has at most 106 bytes. -/
theorem fitting_room (n : Nat) (hn : n ≤ 106) :
    ∃ k, 16 + 8 * n + 8 * k = capacityOf (selectVersion n) := by
  unfold selectVersion capacityOf
  split_ifs <;> first | omega | exact ⟨(272 - (16 + 8 * n)) / 8, by omega⟩ | exact ⟨(440 - (16 + 8 * n)) / 8, by omega⟩ | exact ⟨(640 - (16 + 8 * n)) / 8, by omega⟩ | exact ⟨(864 - (16 + 8 * n)) / 8, by omega⟩

theorem flatMap_getElem_byte (f : Nat → List Bool) (hf : ∀ v, (f v).length = 8) :
    ∀ (l : List Nat) (i j : Nat) (hi : i < l.length), j < 8 →
      (l.flatMap f)[8 * i + j]? = (f l[i])[j]? := by
  intro l
  induction l with
  | nil => intro i j hi; simp at hi
  | cons a rest ih =>
    intro i j hi hj
    rw [List.flatMap_cons]
    cases i with
    | zero =>
      rw [List.getElem?_append_left (by rw [hf]; omega)]
      simp
    | succ i =>
      rw [List.getElem?_append_right (by rw [hf]; omega), hf]
      have h8 : 8 * (i + 1) + j - 8 = 8 * i + j := by omega
      rw [h8, ih i j (by simpa using hi) hj]
      simp

theorem headerBits_mode (utf8 : List Nat) : (headerBits utf8).take 4 = [false, true, false, false] := by
  simp [headerBits]

theorem headerBits_count (utf8 : List Nat) :
    ((headerBits utf8).drop 4).take 8 = byteBits utf8.length := by
  have h : (byteBits utf8.length).length = 8 := byteBits_length _
  simp [headerBits, List.take_append_eq_append_take, h]

theorem headerBits_payload (utf8 : List Nat) (i j : Nat) (hi : i < utf8.length) (hj : j < 8) :
    (headerBits utf8)[12 + 8 * i + j]? = some (utf8[i].testBit (7 - j)) := by
  unfold headerBits
  rw [List.getElem?_append_right (by simp [byteBits_length]; omega)]
  have hlen : ([false, true, false, false] ++ byteBits utf8.length).length = 12 := by
    simp [byteBits_length]
  have hidx : 12 + 8 * i + j - 12 = 8 * i + j := by omega
  rw [hlen, hidx, flatMap_getElem_byte _ (fun v => byteBits_length _) utf8 i j hi hj,
    byteBits_getElem _ j hj]
  have h256 : (256 : Nat) = 2 ^ 8 := rfl
  rw [h256, Nat.testBit_mod_two_pow]
  have : 7 - j < 8 := by omega
  simp [this]

set_option maxRecDepth 100000 in
theorem bitsValue_byteBits : ∀ n, n < 256 → bitsValue (byteBits n) = n := by
  decide

/-- C4: for a non-empty text of at most 106 bytes, encoded in the version that
`selectVersion` picks, `encodeData` returns a stream and its length is the
capacity of the version: 272, 440, 640 or 864 bits for versions 2, 3, 4, 5. -/
theorem encodeData_length_is_capacity (text : List Nat) (_hne : text ≠ [])
    (hfit : text.length ≤ 106) :
    ∃ bits, encodeData (selectVersion text.length) text = some bits ∧
      bits.length = capacityOf (selectVersion text.length) ∧
      (selectVersion text.length = 2 → bits.length = 272) ∧
      (selectVersion text.length = 3 → bits.length = 440) ∧
      (selectVersion text.length = 4 → bits.length = 640) ∧
      (selectVersion text.length = 5 → bits.length = 864) := by
  obtain ⟨k, hk⟩ := fitting_room text.length hfit
  have hlen : (headerBits text ++ List.replicate 4 false ++ padSeq true k).length =
      capacityOf (selectVersion text.length) := by
    simp only [List.length_append, headerBits_length, List.length_replicate, padSeq_length]
    omega
  refine ⟨_, encodeData_fitting _ text k hk, hlen, ?_, ?_, ?_, ?_⟩ <;>
    intro hv <;> rw [hlen, hv] <;> rfl

theorem encodeData_length_is_capacity_witness :
    ([65] : List Nat) ≠ [] ∧ ([65] : List Nat).length ≤ 106 ∧
    ∃ bits, encodeData (selectVersion ([65] : List Nat).length) [65] = some bits ∧
      bits.length = capacityOf (selectVersion ([65] : List Nat).length) ∧
      (selectVersion ([65] : List Nat).length = 2 → bits.length = 272) ∧
      (selectVersion ([65] : List Nat).length = 3 → bits.length = 440) ∧
      (selectVersion ([65] : List Nat).length = 4 → bits.length = 640) ∧
      (selectVersion ([65] : List Nat).length = 5 → bits.length = 864) :=
  ⟨by decide, by decide, encodeData_length_is_capacity [65] (by decide) (by decide)⟩

/-- C5: for a text of at most 255 bytes, in any version, the stream of
`encodeData` starts with the mode bits 0,1,0,0, then the byte count as an
8-bit big-endian field, then the payload bytes most significant bit first: bit
`12 + 8 i + j` is bit `7 - j` of payload byte `i`.  For "HELLO" the selected
version is 2, the grid side 25, and the stream starts with the bits
0100 00000101 01001000 01000101 01001100 01001100 01001111. -/
theorem encodeData_header_layout (version : Int) (text : List Nat)
    (hn : text.length ≤ 255) :
    (∃ bits, encodeData version text = some bits ∧
      bits.take 4 = [false, true, false, false] ∧
      (∀ j, j < 8 → bits[4 + j]? = some (text.length.testBit (7 - j))) ∧
      bitsValue ((bits.drop 4).take 8) = text.length ∧
      (∀ i j, (hi : i < text.length) → j < 8 →
        bits[12 + 8 * i + j]? = some (text[i].testBit (7 - j)))) ∧
    selectVersion ([72, 69, 76, 76, 79] : List Nat).length = 2 ∧
    17 + selectVersion ([72, 69, 76, 76, 79] : List Nat).length * 4 = 25 ∧
    (∃ bits, encodeData 2 [72, 69, 76, 76, 79] = some bits ∧ bits.take 52 =
      [false, true, false, false,
       false, false, false, false, false, true, false, true,
       false, true, false, false, true, false, false, false,
       false, true, false, false, false, true, false, true,
       false, true, false, false, true, true, false, false,
       false, true, false, false, true, true, false, false,
       false, true, false, false, true, true, true, true]) := by
  refine ⟨?_, by decide, by decide, ?_⟩
  · obtain ⟨tail, ht⟩ := encodeData_header version text
    have hlen := headerBits_length text
    refine ⟨_, ht, ?_, ?_, ?_, ?_⟩
    · rw [List.take_append_of_le_length (by omega)]
      exact headerBits_mode text
    · intro j hj
      rw [List.getElem?_append_left (by omega)]
      have h1 : (headerBits text)[4 + j]? = (((headerBits text).drop 4).take 8)[j]? := by
        rw [List.getElem?_take_of_lt hj, List.getElem?_drop]
      rw [h1, headerBits_count, byteBits_getElem _ j hj]
    · have h2 : ((headerBits text ++ tail).drop 4).take 8 = ((headerBits text).drop 4).take 8 := by
        rw [List.drop_append_of_le_length (by omega),
          List.take_append_of_le_length (by simp; omega)]
      rw [h2, headerBits_count]
      exact bitsValue_byteBits _ (by omega)
    · intro i j hi hj
      rw [List.getElem?_append_left (by omega)]
      exact headerBits_payload text i j hi hj
  · obtain ⟨tail, ht⟩ := encodeData_header 2 [72, 69, 76, 76, 79]
    refine ⟨_, ht, ?_⟩
    rw [List.take_append_of_le_length (by rw [headerBits_length]; decide)]
    decide

theorem encodeData_header_layout_witness :
    ([72, 69, 76, 76, 79] : List Nat).length ≤ 255 ∧
    ((∃ bits, encodeData 2 [72, 69, 76, 76, 79] = some bits ∧
      bits.take 4 = [false, true, false, false] ∧
      (∀ j, j < 8 → bits[4 + j]? = some (([72, 69, 76, 76, 79] : List Nat).length.testBit (7 - j))) ∧
      bitsValue ((bits.drop 4).take 8) = ([72, 69, 76, 76, 79] : List Nat).length ∧
      (∀ i j, (hi : i < ([72, 69, 76, 76, 79] : List Nat).length) → j < 8 →
        bits[12 + 8 * i + j]? = some (([72, 69, 76, 76, 79] : List Nat)[i].testBit (7 - j)))) ∧
    selectVersion ([72, 69, 76, 76, 79] : List Nat).length = 2 ∧
    17 + selectVersion ([72, 69, 76, 76, 79] : List Nat).length * 4 = 25 ∧
    (∃ bits, encodeData 2 [72, 69, 76, 76, 79] = some bits ∧ bits.take 52 =
      [false, true, false, false,
       false, false, false, false, false, true, false, true,
       false, true, false, false, true, false, false, false,
       false, true, false, false, false, true, false, true,
       false, true, false, false, true, true, false, false,
       false, true, false, false, true, true, false, false,
       false, true, false, false, true, true, true, true])) :=
  ⟨by decide, encodeData_header_layout 2 [72, 69, 76, 76, 79] (by decide)⟩

/-- C6: for a non-empty text of `n ≤ 106` bytes in its selected version, the
bits of `encodeData` after the payload are four zero terminator bits at
positions `12 + 8 n` to `15 + 8 n`, no alignment bits (`16 + 8 n` is a multiple
of 8), and then whole pad bytes up to the capacity, 0xEC at the even places
and 0x11 at the odd ones, each most significant bit first. -/
theorem encodeData_terminator_and_pad (text : List Nat) (_hne : text ≠ [])
    (hfit : text.length ≤ 106) :
    ∃ bits, encodeData (selectVersion text.length) text = some bits ∧
      bits.take (12 + 8 * text.length) = headerBits text ∧
      (∀ t, t < 4 → bits[12 + 8 * text.length + t]? = some false) ∧
      (16 + 8 * text.length) % 8 = 0 ∧
      bits.length = capacityOf (selectVersion text.length) ∧
      bits.drop (16 + 8 * text.length) =
        (List.range ((capacityOf (selectVersion text.length) - (16 + 8 * text.length)) / 8)).flatMap
          (fun t => byteBits (if t % 2 = 0 then 0xEC else 0x11)) ∧
      byteBits 0xEC = [true, true, true, false, true, true, false, false] ∧
      byteBits 0x11 = [false, false, false, true, false, false, false, true] := by
  obtain ⟨k, hk⟩ := fitting_room text.length hfit
  have hlen := headerBits_length text
  refine ⟨_, encodeData_fitting _ text k hk, ?_, ?_, by omega, ?_, ?_, by decide, by decide⟩
  · rw [List.append_assoc, List.take_append_of_le_length (by omega), ← hlen, List.take_length]
  · intro t ht
    rw [List.getElem?_append_left
        (by simp only [List.length_append, List.length_replicate, hlen]; omega),
      List.getElem?_append_right (by omega), hlen, List.getElem?_replicate]
    have h4 : 12 + 8 * text.length + t - (12 + 8 * text.length) < 4 := by omega
    rw [if_pos h4]
  · simp only [List.length_append, hlen, List.length_replicate, padSeq_length]
    omega
  · have hk2 : (capacityOf (selectVersion text.length) - (16 + 8 * text.length)) / 8 = k := by
      omega
    have hl2 : (headerBits text ++ List.replicate 4 false).length = 16 + 8 * text.length := by
      simp only [List.length_append, List.length_replicate, hlen]
      omega
    rw [hk2, ← hl2, List.drop_left, List.range_eq_range', padSeq_eq_flatMap k true 0 (by simp)]

theorem encodeData_terminator_and_pad_witness :
    ([65] : List Nat) ≠ [] ∧ ([65] : List Nat).length ≤ 106 ∧
    ∃ bits, encodeData (selectVersion ([65] : List Nat).length) [65] = some bits ∧
      bits.take (12 + 8 * ([65] : List Nat).length) = headerBits [65] ∧
      (∀ t, t < 4 → bits[12 + 8 * ([65] : List Nat).length + t]? = some false) ∧
      (16 + 8 * ([65] : List Nat).length) % 8 = 0 ∧
      bits.length = capacityOf (selectVersion ([65] : List Nat).length) ∧
      bits.drop (16 + 8 * ([65] : List Nat).length) =
        (List.range ((capacityOf (selectVersion ([65] : List Nat).length) -
            (16 + 8 * ([65] : List Nat).length)) / 8)).flatMap
          (fun t => byteBits (if t % 2 = 0 then 0xEC else 0x11)) ∧
      byteBits 0xEC = [true, true, true, false, true, true, false, false] ∧
      byteBits 0x11 = [false, false, false, true, false, false, false, true] :=
  ⟨by decide, by decide, encodeData_terminator_and_pad [65] (by decide) (by decide)⟩

/-! ## GF(256): `xtime`, its iterates, and the reference product -/

set_option maxRecDepth 100000 in
theorem xtime_lt : ∀ a, a < 256 → xtime a < 256 := by decide

set_option maxRecDepth 100000 in
theorem xtime_eq : ∀ a, a < 256 →
    xtime a = (a <<< 1) ^^^ (if a.testBit 7 then 0x11D else 0) := by decide

theorem xor_lt_256 {a b : Nat} (ha : a < 256) (hb : b < 256) : a ^^^ b < 256 :=
  Nat.xor_lt_two_pow (n := 8) ha hb

theorem xtime_xor {a b : Nat} (ha : a < 256) (hb : b < 256) :
    xtime (a ^^^ b) = xtime a ^^^ xtime b := by
  rw [xtime_eq _ (xor_lt_256 ha hb), xtime_eq _ ha, xtime_eq _ hb]
  apply Nat.eq_of_testBit_eq
  intro i
  simp only [Nat.testBit_xor, Nat.testBit_shiftLeft]
  cases a.testBit 7 <;> cases b.testBit 7 <;> simp <;>
    cases decide (1 ≤ i) <;> cases a.testBit (i - 1) <;> cases b.testBit (i - 1) <;>
    cases Nat.testBit 285 i <;> rfl

theorem xtime_zero : xtime 0 = 0 := by decide

theorem xtimeIter_zero (m : Nat) : xtime^[m] 0 = 0 := by
  induction m with
  | zero => rfl
  | succ m ih => rw [Function.iterate_succ_apply, xtime_zero, ih]

theorem xtimeIter_lt (m : Nat) {a : Nat} (ha : a < 256) : xtime^[m] a < 256 := by
  induction m with
  | zero => exact ha
  | succ m ih => rw [Function.iterate_succ_apply']; exact xtime_lt _ ih

theorem xtimeIter_xor (m : Nat) {a b : Nat} (ha : a < 256) (hb : b < 256) :
    xtime^[m] (a ^^^ b) = xtime^[m] a ^^^ xtime^[m] b := by
  induction m with
  | zero => rfl
  | succ m ih =>
    rw [Function.iterate_succ_apply', Function.iterate_succ_apply', Function.iterate_succ_apply',
      ih, xtime_xor (xtimeIter_lt m ha) (xtimeIter_lt m hb)]

theorem xtimeIter_comm (l m a : Nat) : xtime^[l] (xtime^[m] a) = xtime^[m] (xtime^[l] a) := by
  rw [← Function.iterate_add_apply, ← Function.iterate_add_apply, Nat.add_comm]

theorem pw_lt (i : Nat) : pw i < 256 := xtimeIter_lt i (by decide)

theorem pw_add (l c : Nat) : pw (l + c) = xtime^[l] (pw c) := by
  unfold pw
  rw [Function.iterate_add_apply]

theorem gfBit_lt (a i : Nat) {b : Nat} (hb : b < 256) : gfBit a b i < 256 := by
  unfold gfBit
  split
  · exact xtimeIter_lt i hb
  · decide

theorem gfBit_xor_left (a b c i : Nat) :
    gfBit (a ^^^ b) c i = gfBit a c i ^^^ gfBit b c i := by
  unfold gfBit
  rw [Nat.testBit_xor]
  cases a.testBit i <;> cases b.testBit i <;> simp

theorem gfMulRef_xor_left (a b c : Nat) :
    gfMulRef (a ^^^ b) c = gfMulRef a c ^^^ gfMulRef b c := by
  unfold gfMulRef
  simp only [gfBit_xor_left]
  ac_rfl

theorem gfMulRef_zero_left (c : Nat) : gfMulRef 0 c = 0 := by
  simp [gfMulRef, gfBit]

theorem gfMulRef_lt (a : Nat) {b : Nat} (hb : b < 256) : gfMulRef a b < 256 := by
  unfold gfMulRef
  repeat first | apply xor_lt_256 | exact gfBit_lt _ _ hb

theorem gfBit_xtimeIter (a b i m : Nat) :
    gfBit a (xtime^[m] b) i = xtime^[m] (gfBit a b i) := by
  unfold gfBit
  split
  · exact xtimeIter_comm i m b
  · exact (xtimeIter_zero m).symm

theorem gfMulRef_xtimeIter (a m : Nat) {b : Nat} (hb : b < 256) :
    gfMulRef a (xtime^[m] b) = xtime^[m] (gfMulRef a b) := by
  have h := fun i => gfBit_lt a i hb
  unfold gfMulRef
  simp only [gfBit_xtimeIter]
  rw [xtimeIter_xor, xtimeIter_xor, xtimeIter_xor, xtimeIter_xor, xtimeIter_xor, xtimeIter_xor,
    xtimeIter_xor] <;>
  repeat first | apply xor_lt_256 | exact h _

set_option maxRecDepth 100000 in
theorem gfMulRef_one : ∀ a, a < 256 → gfMulRef a 1 = a := by decide

/-- Multiplication by the power `x^m` is `xtime` applied `m` times. -/
theorem gfMulRef_pw {a : Nat} (ha : a < 256) (m : Nat) : gfMulRef a (pw m) = xtime^[m] a := by
  unfold pw
  rw [gfMulRef_xtimeIter a m (by decide), gfMulRef_one a ha]

theorem gfPow_two (m : Nat) : gfPow 2 m = pw m := by
  induction m with
  | zero => rfl
  | succ m ih =>
    have h2 : (2 : Nat) = pw 1 := by decide
    rw [gfPow, ih, h2, gfMulRef_pw (pw_lt m) 1]
    unfold pw
    rw [← Function.iterate_add_apply, Nat.add_comm]

/-! ## Horner evaluation -/

theorem horner_zipWith_xor (x : Nat) :
    ∀ (l₁ l₂ : List Nat) (a b : Nat), l₁.length = l₂.length →
      horner x (a ^^^ b) (List.zipWith (fun u v => u ^^^ v) l₁ l₂) =
        horner x a l₁ ^^^ horner x b l₂ := by
  intro l₁
  induction l₁ with
  | nil =>
    intro l₂ a b h
    cases l₂ with
    | nil => rfl
    | cons _ _ => simp at h
  | cons u l₁ ih =>
    intro l₂ a b h
    cases l₂ with
    | nil => simp at h
    | cons v l₂ =>
      simp only [List.zipWith_cons_cons, horner, List.foldl_cons]
      have hs : gfMulRef (a ^^^ b) x ^^^ (u ^^^ v) =
          (gfMulRef a x ^^^ u) ^^^ (gfMulRef b x ^^^ v) := by
        rw [gfMulRef_xor_left]; ac_rfl
      rw [hs]
      exact ih l₂ _ _ (by simpa using h)

theorem horner_zeros (x k : Nat) : horner x 0 (List.replicate k 0) = 0 := by
  induction k with
  | zero => rfl
  | succ k ih =>
    simp only [List.replicate_succ, horner, List.foldl_cons, gfMulRef_zero_left, Nat.xor_zero]
    exact ih

theorem horner_append (x acc : Nat) (l₁ l₂ : List Nat) :
    horner x acc (l₁ ++ l₂) = horner x (horner x acc l₁) l₂ := by
  simp [horner]

theorem horner_xtimeIter (m l : Nat) :
    ∀ (cs : List Nat) (acc : Nat), acc < 256 → (∀ c ∈ cs, c < 256) →
      horner (pw m) (xtime^[l] acc) (cs.map (fun c => xtime^[l] c)) =
        xtime^[l] (horner (pw m) acc cs) := by
  intro cs
  induction cs with
  | nil => intro acc _ _; rfl
  | cons c cs ih =>
    intro acc hacc hcs
    have hc : c < 256 := hcs c (by simp)
    simp only [List.map_cons, horner, List.foldl_cons]
    have hstep : gfMulRef (xtime^[l] acc) (pw m) ^^^ xtime^[l] c =
        xtime^[l] (gfMulRef acc (pw m) ^^^ c) := by
      rw [gfMulRef_pw (xtimeIter_lt l hacc), gfMulRef_pw hacc, xtimeIter_comm m l acc,
        xtimeIter_xor l (xtimeIter_lt m hacc) hc]
    rw [hstep]
    exact ih _ (xor_lt_256 (gfMulRef_lt _ (pw_lt m)) hc) (fun c hc => hcs c (by simp [hc]))

/-! ## The tables -/

set_option maxRecDepth 1000000 in
theorem GF_EXP_iterate : GF_EXP.take 511 = List.iterate xtime 1 511 := by decide!

set_option maxRecDepth 1000000 in
theorem pw_255 : pw 255 = 1 := by decide!

set_option maxRecDepth 1000000 in
theorem logTableOK_true : logTableOK = true := by decide!

set_option maxRecDepth 1000000 in
theorem genOK_10 : genOK 10 = true := by decide!

set_option maxRecDepth 1000000 in
theorem genOK_15 : genOK 15 = true := by decide!

set_option maxRecDepth 1000000 in
theorem genOK_20 : genOK 20 = true := by decide!

set_option maxRecDepth 1000000 in
theorem genRoots_10 : ∀ m, m < 10 → horner (gfPow 2 m) 1 (genPows 10) = 0 := by decide!

set_option maxRecDepth 1000000 in
theorem genPoly_10 : genPoly 10 = 1 :: genPows 10 := by decide!

set_option maxRecDepth 1000000 in
theorem genRoots_15 : ∀ m, m < 15 → horner (gfPow 2 m) 1 (genPows 15) = 0 := by decide!

set_option maxRecDepth 1000000 in
theorem genRoots_20 : ∀ m, m < 20 → horner (gfPow 2 m) 1 (genPows 20) = 0 := by decide!

set_option maxRecDepth 1000000 in
theorem genPoly_15 : genPoly 15 = 1 :: genPows 15 := by decide!

set_option maxRecDepth 1000000 in
theorem genPoly_20 : genPoly 20 = 1 :: genPows 20 := by decide!

theorem GF_EXP_get (i : Nat) (h : i < 511) : GF_EXP[i]? = some (pw i) := by
  rw [← List.getElem?_take_of_lt h, GF_EXP_iterate, List.getElem?_iterate _ _ _ _ h]
  rfl

theorem pw_mod (n : Nat) : pw (n % 255) = pw n := by
  induction n using Nat.strong_induction_on with
  | _ n ih =>
    by_cases h : n < 255
    · rw [Nat.mod_eq_of_lt h]
    · have h1 : n = (n - 255) + 255 := by omega
      have h2 : n % 255 = (n - 255) % 255 := by omega
      rw [h2, ih (n - 255) (by omega)]
      conv_rhs => rw [h1, pw_add, pw_255]
      rfl

theorem readNat_natCast (t : List Nat) (i : Nat) : readNat t (i : Int) = t[i]? := by
  simp [readNat]

theorem readInt_natCast (t : List Int) (i : Nat) : readInt t (i : Int) = t[i]? := by
  simp [readInt]

theorem logOf_spec {f : Nat} (hf : f < 256) (h0 : f ≠ 0) :
    readInt GF_LOG f = some (logOf f : Int) ∧ logOf f < 255 ∧ pw (logOf f) = f := by
  have h := logTableOK_true
  unfold logTableOK at h
  simp only [Bool.and_eq_true, beq_iff_eq, List.all_eq_true] at h
  obtain ⟨hlen, hall⟩ := h
  have hget := getElem?_some_getD GF_LOG f 0 (by omega)
  have hp := hall _ (zip_range_mem GF_LOG 256 f hlen hf)
  have hlog : logOf f = ((GF_LOG[f]?).getD 0).toNat := by
    unfold logOf
    rw [readInt_natCast]
  rw [readInt_natCast, hlog]
  generalize (GF_LOG[f]?).getD 0 = x at hp hget
  simp only [Bool.or_eq_true, beq_iff_eq, Bool.and_eq_true, decide_eq_true_eq] at hp
  rcases hp with hp | ⟨⟨h1, h2⟩, h3⟩
  · exact absurd hp h0
  · have hlt : x.toNat < 255 := by omega
    refine ⟨?_, hlt, ?_⟩
    · rw [Int.toNat_of_nonneg h1]
      exact hget
    · have h4 := GF_EXP_get x.toNat (by omega)
      rw [List.getD_eq_getElem?_getD, h4] at h3
      exact h3

theorem coefAt_spec {k j : Nat} (hk : genOK k = true) (hj : j < k) :
    genCoef k j = some (coefAt k j) ∧ coefAt k j ≠ 0 ∧ coefAt k j < 255 ∧
      (GF_EXP[coefAt k j]?).bind (fun e => readInt GF_LOG e) = some (coefAt k j : Int) := by
  unfold genOK at hk
  simp only [Bool.and_eq_true, decide_eq_true_eq, List.all_eq_true, List.mem_range] at hk
  have h := hk.2 j hj
  unfold coefOK at h
  unfold coefAt
  cases hc : genCoef k j with
  | none => rw [hc] at h; simp at h
  | some c =>
    rw [hc] at h
    simp only [Bool.and_eq_true, decide_eq_true_eq, beq_iff_eq, bne_iff_ne, ne_eq] at h
    exact ⟨rfl, h.1.1, h.1.2, h.2⟩

theorem gfTerm_spec {f c : Nat} (hf : f < 256) (h0 : f ≠ 0) (hc : c < 255)
    (hlog : (GF_EXP[c]?).bind (fun e => readInt GF_LOG e) = some (c : Int)) :
    gfTerm (logOf f) c = some (pw (logOf f + c)) := by
  obtain ⟨_, hl, _⟩ := logOf_spec hf h0
  unfold gfTerm
  cases he : GF_EXP[c]? with
  | none => rw [he] at hlog; simp at hlog
  | some e =>
    rw [he] at hlog
    simp only [Option.some_bind] at hlog
    simp only [Option.bind_eq_bind, Option.some_bind, hlog]
    have hidx : ((logOf f : Int) + (c : Int)).tmod 255 = (((logOf f + c) % 255 : Nat) : Int) := by
      rw [Int.tmod_eq_emod (by omega) (by omega)]
      omega
    rw [hidx, readNat_natCast, GF_EXP_get _ (by omega), pw_mod]

theorem eccInner_spec {k j f : Nat} (hk : genOK k = true) (hj : j < k) (hf : f < 256)
    (h0 : f ≠ 0) (res : List Nat) (hres : res.length = k) :
    eccInner k (logOf f) res j =
      some (res.set j ((res[j]?).getD 0 ^^^ pw (logOf f + coefAt k j))) := by
  obtain ⟨h1, h2, h3, h4⟩ := coefAt_spec hk hj
  have hget := getElem?_some_getD res j 0 (by omega)
  unfold eccInner
  rw [hget]
  simp only [h1, Option.bind_eq_bind, Option.some_bind, ne_eq, h2, not_false_eq_true, if_true,
    gfTerm_spec hf h0 h3 h4, Option.getD_some]

theorem eccInner_fold {k f : Nat} (hk : genOK k = true) (hf : f < 256) (h0 : f ≠ 0) :
    ∀ n, n ≤ k → ∀ res : List Nat, res.length = k →
      ∃ res', (List.range n).foldlM (eccInner k (logOf f)) res = some res' ∧
        res'.length = k ∧
        ∀ i, res'[i]? = if i < n then (res[i]?).map (fun v => v ^^^ pw (logOf f + coefAt k i))
          else res[i]? := by
  intro n
  induction n with
  | zero =>
    intro _ res hres
    exact ⟨res, rfl, hres, fun i => by simp⟩
  | succ n ih =>
    intro hn res hres
    obtain ⟨res', h1, h2, h3⟩ := ih (by omega) res hres
    rw [List.range_succ, List.foldlM_append, h1]
    simp only [Option.bind_eq_bind, Option.some_bind, List.foldlM_cons, List.foldlM_nil,
      eccInner_spec hk (show n < k by omega) hf h0 res' h2, Option.pure_def, Option.bind_some]
    refine ⟨_, rfl, by simp [h2], ?_⟩
    intro i
    rw [List.getElem?_set]
    by_cases hin : n = i
    · subst hin
      have hlt : n < res'.length := by omega
      have hget := getElem?_some_getD res n 0 (by omega)
      rw [if_pos rfl, if_pos hlt, if_pos (Nat.lt_succ_self n), h3 n, if_neg (Nat.lt_irrefl n),
        hget]
      simp
    · rw [if_neg hin, h3 i]
      by_cases hlt : i < n
      · simp [hlt, show i < n + 1 by omega]
      · simp [hlt, show ¬ i < n + 1 by omega]

theorem eccShift_length (l : List Nat) :
    ∀ result : List Nat,
      (l.foldl (fun r j => r.set j (r.getD (j + 1) 0)) result).length = result.length := by
  induction l with
  | nil => intro result; rfl
  | cons a l ihl =>
    intro result
    rw [List.foldl_cons, ihl, List.length_set]

theorem eccShift_fold (result : List Nat) :
    ∀ n, n < result.length → ∀ i,
      ((List.range n).foldl (fun r j => r.set j (r.getD (j + 1) 0)) result)[i]? =
        if i < n then result[i + 1]? else result[i]? := by
  intro n
  induction n with
  | zero => intro _ i; simp
  | succ n ih =>
    intro hn i
    rw [List.range_succ, List.foldl_append]
    simp only [List.foldl_cons, List.foldl_nil]
    rw [List.getElem?_set]
    have hlen := eccShift_length (List.range n) result
    by_cases hin : n = i
    · subst hin
      rw [if_pos rfl, if_pos (by omega), if_pos (by omega)]
      rw [List.getD_eq_getElem?_getD, ih (by omega) (n + 1), if_neg (by omega)]
      rw [List.getElem?_eq_getElem (by omega)]
      rfl
    · rw [if_neg hin, ih (by omega) i]
      by_cases hlt : i < n
      · simp [hlt, show i < n + 1 by omega]
      · simp [hlt, show ¬ i < n + 1 by omega]

theorem eccShift_spec {k : Nat} (result : List Nat) (hk : 0 < k) (hlen : result.length = k) :
    eccShift k result = result.tail ++ [0] := by
  apply List.ext_getElem?
  intro i
  unfold eccShift
  rw [List.getElem?_set]
  have hlen2 := eccShift_length (List.range (k - 1)) result
  by_cases hi : k - 1 = i
  · subst hi
    rw [if_pos rfl, if_pos (by omega), List.getElem?_append_right (by simp; omega)]
    simp [hlen]
  · rw [if_neg hi, eccShift_fold result (k - 1) (by omega) i]
    by_cases hlt : i < k - 1
    · rw [if_pos hlt, List.getElem?_append_left (by simp; omega)]
      simp [List.getElem?_tail]
    · rw [if_neg hlt, List.getElem?_append_right (by simp; omega)]
      rw [List.getElem?_eq_none (by omega)]
      simp [hlen]
      omega

theorem rowOf_length (k f : Nat) : (rowOf k f).length = k := by
  unfold rowOf
  split <;> simp

theorem rowOf_lt (k f : Nat) : ∀ v ∈ rowOf k f, v < 256 := by
  intro v hv
  unfold rowOf at hv
  split at hv
  · rw [List.mem_replicate] at hv
    omega
  · rw [List.mem_map] at hv
    obtain ⟨j, _, hj⟩ := hv
    rw [← hj]
    exact pw_lt _

/-- One step of `calculateECC`: the register is shifted and the multiples of
the generator coefficients are XORed in. -/
theorem eccStep_spec {k : Nat} (hk : genOK k = true) (r0 : Nat) (rest : List Nat) (d : Nat)
    (hlen : (r0 :: rest).length = k) (hr0 : r0 < 256) (hd : d < 256) :
    eccStep k (r0 :: rest) d =
      some (List.zipWith (fun u v => u ^^^ v) (rest ++ [0]) (rowOf k (d ^^^ r0))) := by
  have hkpos : 0 < k := by rw [← hlen]; simp
  have hk30 : min k 30 = k := by
    unfold genOK at hk
    simp only [Bool.and_eq_true, decide_eq_true_eq] at hk
    omega
  have hshift : eccShift k (r0 :: rest) = rest ++ [0] := by
    rw [eccShift_spec _ hkpos hlen]; rfl
  have hslen : (rest ++ [0]).length = k := by rw [← hlen]; simp
  unfold eccStep
  simp only [List.getElem?_cons_zero, Option.bind_eq_bind, Option.some_bind, hshift, hk30]
  by_cases hf : d ^^^ r0 = 0
  · simp only [hf, ne_eq, not_true_eq_false, if_false]
    refine congrArg some ?_
    apply List.ext_getElem?
    intro i
    simp only [rowOf, if_true, List.getElem?_zipWith, List.getElem?_replicate]
    by_cases hi : i < k
    · have hget := getElem?_some_getD (rest ++ [0]) i 0 (by omega)
      rw [hget]
      simp [hi]
    · rw [List.getElem?_eq_none (by omega)]
  · have hflt : d ^^^ r0 < 256 := xor_lt_256 hd hr0
    obtain ⟨hlog, _, _⟩ := logOf_spec hflt hf
    obtain ⟨res', h1, h2, h3⟩ := eccInner_fold hk hflt hf k (Nat.le_refl k) (rest ++ [0]) hslen
    simp only [ne_eq, hf, not_false_eq_true, if_true]
    have hcast : readInt GF_LOG ((d ^^^ r0 : Nat) : Int) = some (logOf (d ^^^ r0) : Int) := hlog
    simp only [hcast, Option.some_bind, h1]
    refine congrArg some ?_
    apply List.ext_getElem?
    intro i
    rw [h3 i]
    simp only [rowOf, hf, if_false, List.getElem?_zipWith]
    by_cases hi : i < k
    · have hget := getElem?_some_getD (rest ++ [0]) i 0 (by omega)
      rw [hget]
      simp [hi, List.getElem?_range hi]
    · rw [List.getElem?_eq_none (l := rest ++ [0]) (by omega)]
      simp [hi]

/-! ## `calculateECC` is a Reed-Solomon encoder -/

theorem rowOf_eq_map {k f : Nat} (h0 : f ≠ 0) :
    rowOf k f = (genPows k).map (fun c => xtime^[logOf f] c) := by
  unfold rowOf genPows
  rw [if_neg h0, List.map_map]
  simp only [Function.comp_def, pw_add]

theorem genPows_lt (k : Nat) : ∀ c ∈ genPows k, c < 256 := by
  intro c hc
  unfold genPows at hc
  rw [List.mem_map] at hc
  obtain ⟨j, _, hj⟩ := hc
  rw [← hj]
  exact pw_lt _

/-- The feedback polynomial `f * g(x)` vanishes at every root of the generator
polynomial. -/
theorem feedback_root {k : Nat}
    (hroots : ∀ m, m < k → horner (gfPow 2 m) 1 (genPows k) = 0)
    {f : Nat} (hf : f < 256) {m : Nat} (hm : m < k) :
    horner (gfPow 2 m) f (rowOf k f) = 0 := by
  by_cases h0 : f = 0
  · subst h0
    simp only [rowOf, if_true]
    exact horner_zeros _ _
  · obtain ⟨_, _, hpw⟩ := logOf_spec hf h0
    have h1 := hroots m hm
    rw [gfPow_two] at h1 ⊢
    have hfe : horner (pw m) f (rowOf k f) =
        horner (pw m) (xtime^[logOf f] 1) ((genPows k).map (fun c => xtime^[logOf f] c)) := by
      rw [rowOf_eq_map h0]
      exact congrArg (fun a => horner (pw m) a _) hpw.symm
    rw [hfe, horner_xtimeIter m (logOf f) (genPows k) 1 (by decide) (genPows_lt k), h1]
    exact xtimeIter_zero _

theorem zipWith_xor_lt :
    ∀ (l₁ l₂ : List Nat), (∀ v ∈ l₁, v < 256) → (∀ v ∈ l₂, v < 256) →
      ∀ v ∈ List.zipWith (fun u w => u ^^^ w) l₁ l₂, v < 256 := by
  intro l₁
  induction l₁ with
  | nil => intro l₂ _ _ v hv; simp at hv
  | cons a l₁ ih =>
    intro l₂ h1 h2 v hv
    cases l₂ with
    | nil => simp at hv
    | cons b l₂ =>
      rw [List.zipWith_cons_cons, List.mem_cons] at hv
      rcases hv with hv | hv
      · rw [hv]
        exact xor_lt_256 (h1 a (by simp)) (h2 b (by simp))
      · exact ih l₂ (fun v hv => h1 v (by simp [hv])) (fun v hv => h2 v (by simp [hv])) v hv

/-- Invariant of the loop over the data bytes: the polynomial read so far,
followed by the register, vanishes at every root of the generator. -/
theorem ecc_fold_roots {k : Nat} (hk : genOK k = true)
    (hroots : ∀ m, m < k → horner (gfPow 2 m) 1 (genPows k) = 0) :
    ∀ (data : List Nat), (∀ d ∈ data, d < 256) →
      ∀ (r : List Nat) (acc : Nat → Nat), r.length = k → (∀ v ∈ r, v < 256) →
        (∀ m, m < k → horner (gfPow 2 m) (acc m) r = 0) →
        ∃ ecc, data.foldlM (eccStep k) r = some ecc ∧ ecc.length = k ∧
          (∀ e ∈ ecc, e < 256) ∧
          ∀ m, m < k → horner (gfPow 2 m) (horner (gfPow 2 m) (acc m) data) ecc = 0 := by
  intro data
  induction data with
  | nil =>
    intro _ r acc hlen hlt hinv
    exact ⟨r, rfl, hlen, hlt, hinv⟩
  | cons d data ih =>
    intro hdata r acc hlen hlt hinv
    have hd : d < 256 := hdata d (by simp)
    have hkpos : 0 < k := by
      unfold genOK at hk
      simp only [Bool.and_eq_true, decide_eq_true_eq] at hk
      exact hk.1.1
    cases r with
    | nil => simp at hlen; omega
    | cons r0 rest =>
      have hr0 : r0 < 256 := hlt r0 (by simp)
      have hrest : rest.length + 1 = k := by simpa using hlen
      have hstep := eccStep_spec hk r0 rest d hlen hr0 hd
      rw [List.foldlM_cons, hstep]
      simp only [Option.bind_eq_bind, Option.some_bind]
      have hlen1 : (rest ++ [0]).length = (rowOf k (d ^^^ r0)).length := by
        rw [rowOf_length]; simp [hrest]
      have hzlt : ∀ v ∈ rest ++ [0], v < 256 := by
        intro v hv
        rw [List.mem_append] at hv
        rcases hv with hv | hv
        · exact hlt v (by simp [hv])
        · simp at hv; omega
      obtain ⟨ecc, h1, h2, h3, h4⟩ := ih (fun d hd => hdata d (by simp [hd]))
        (List.zipWith (fun u v => u ^^^ v) (rest ++ [0]) (rowOf k (d ^^^ r0)))
        (fun m => gfMulRef (acc m) (gfPow 2 m) ^^^ d)
        (by rw [List.length_zipWith, ← hlen1]; simp [hrest])
        (zipWith_xor_lt _ _ hzlt (rowOf_lt k _))
        (by
          intro m hm
          have hi := hinv m hm
          simp only [horner, List.foldl_cons] at hi
          have hacc : gfMulRef (acc m) (gfPow 2 m) ^^^ d =
              (gfMulRef (acc m) (gfPow 2 m) ^^^ r0) ^^^ (d ^^^ r0) := by
            rw [Nat.xor_assoc, ← Nat.xor_assoc r0 d r0, Nat.xor_comm r0 d, Nat.xor_assoc d r0 r0,
              Nat.xor_self, Nat.xor_zero]
          show horner (gfPow 2 m) (gfMulRef (acc m) (gfPow 2 m) ^^^ d) _ = 0
          rw [hacc, horner_zipWith_xor _ _ _ _ _ hlen1, horner_append]
          have hi2 : horner (gfPow 2 m) (gfMulRef (acc m) (gfPow 2 m) ^^^ r0) rest = 0 := hi
          rw [hi2, feedback_root hroots (xor_lt_256 hd hr0) hm]
          simp [horner, gfMulRef_zero_left])
      refine ⟨ecc, h1, h2, h3, ?_⟩
      intro m hm
      have := h4 m hm
      simpa [horner] using this

theorem calculateECC_roots {k : Nat} (hk : genOK k = true)
    (hroots : ∀ m, m < k → horner (gfPow 2 m) 1 (genPows k) = 0)
    (data : List Nat) (hdata : ∀ d ∈ data, d < 256) :
    ∃ ecc, calculateECC data k = some ecc ∧ ecc.length = k ∧ (∀ e ∈ ecc, e < 256) ∧
      ∀ m, m < k → polyEval (data ++ ecc) (gfPow 2 m) = 0 := by
  obtain ⟨ecc, h1, h2, h3, h4⟩ := ecc_fold_roots hk hroots data hdata (List.replicate k 0)
    (fun _ => 0) (by simp) (by intro v hv; rw [List.mem_replicate] at hv; omega)
    (fun m _ => horner_zeros _ _)
  refine ⟨ecc, h1, h2, h3, ?_⟩
  intro m hm
  unfold polyEval
  rw [horner_append]
  exact h4 m hm

/-- C7: for `k` in {10, 15, 20} and data bytes in 0..255, `calculateECC`
returns `k` bytes such that the polynomial with coefficients the data bytes
followed by the ECC bytes (highest degree first) is 0 at `2^0, ..., 2^(k-1)` in
GF(256) modulo 0x11D, that is, it is a multiple of the generator polynomial
`(x - 2^0)...(x - 2^(k-1))` and the ECC bytes are the remainder of
`data(x) * x^k`; row `k` of the table holds the exponents of the coefficients
of that generator polynomial. -/
theorem calculateECC_reed_solomon (k : Nat) (hk : k = 10 ∨ k = 15 ∨ k = 20)
    (data : List Nat) (hdata : ∀ d ∈ data, d < 256) :
    ∃ ecc, calculateECC data k = some ecc ∧ ecc.length = k ∧ (∀ e ∈ ecc, e < 256) ∧
      (∀ m, m < k → polyEval (data ++ ecc) (gfPow 2 m) = 0) ∧
      genPoly k = 1 :: genPows k ∧
      (∀ j, j < k → genCoef k j = some (coefAt k j)) := by
  rcases hk with hk | hk | hk <;> subst hk
  · obtain ⟨ecc, h1, h2, h3, h4⟩ := calculateECC_roots genOK_10 genRoots_10 data hdata
    exact ⟨ecc, h1, h2, h3, h4, genPoly_10, fun j hj => (coefAt_spec genOK_10 hj).1⟩
  · obtain ⟨ecc, h1, h2, h3, h4⟩ := calculateECC_roots genOK_15 genRoots_15 data hdata
    exact ⟨ecc, h1, h2, h3, h4, genPoly_15, fun j hj => (coefAt_spec genOK_15 hj).1⟩
  · obtain ⟨ecc, h1, h2, h3, h4⟩ := calculateECC_roots genOK_20 genRoots_20 data hdata
    exact ⟨ecc, h1, h2, h3, h4, genPoly_20, fun j hj => (coefAt_spec genOK_20 hj).1⟩

set_option maxRecDepth 1000000 in
theorem calculateECC_reed_solomon_witness :
    ((10 : Nat) = 10 ∨ (10 : Nat) = 15 ∨ (10 : Nat) = 20) ∧
    (∀ d ∈ ([64, 20, 134] : List Nat), d < 256) ∧
    ∃ ecc, calculateECC [64, 20, 134] 10 = some ecc ∧ ecc.length = 10 ∧ (∀ e ∈ ecc, e < 256) ∧
      (∀ m, m < 10 → polyEval ([64, 20, 134] ++ ecc) (gfPow 2 m) = 0) ∧
      genPoly 10 = 1 :: genPows 10 ∧
      (∀ j, j < 10 → genCoef 10 j = some (coefAt 10 j)) :=
  ⟨by decide, by decide, calculateECC_reed_solomon 10 (by decide) [64, 20, 134] (by decide)⟩

/-! ## Loops and grids -/

/-- Invariant rule for a loop in the `Option` monad: if every iteration keeps
the invariant and returns, so does the loop. -/
theorem foldlM_inv {σ α : Type} (Inv : σ → Prop) (f : σ → α → Option σ) :
    ∀ (l : List α), (∀ s a, a ∈ l → Inv s → ∃ s', f s a = some s' ∧ Inv s') →
      ∀ s, Inv s → ∃ s', l.foldlM f s = some s' ∧ Inv s' := by
  intro l
  induction l with
  | nil => intro _ s hs; exact ⟨s, rfl, hs⟩
  | cons a l ih =>
    intro h s hs
    obtain ⟨s1, h1, h2⟩ := h s a (by simp) hs
    obtain ⟨s2, h3, h4⟩ := ih (fun s b hb => h s b (by simp [hb])) s1 h2
    exact ⟨s2, by rw [List.foldlM_cons, h1]; exact h3, h4⟩

theorem readCell_nonneg (g : Grid) {y x : Int} (hy : 0 ≤ y) (hx : 0 ≤ x) :
    readCell g y x = (g[y.toNat]?).bind (fun row => row[x.toNat]?) := by
  unfold readCell
  rw [if_neg (by omega)]

theorem readCell_some {n : Nat} {g : Grid} (hg : Sized n g) {y x : Int}
    (hy : 0 ≤ y ∧ y < n) (hx : 0 ≤ x ∧ x < n) : ∃ b, readCell g y x = some b := by
  rw [readCell_nonneg g hy.1 hx.1]
  have h1 : y.toNat < g.length := by rw [hg.1]; omega
  rw [List.getElem?_eq_getElem h1]
  have h2 : (g[y.toNat]).length = n := hg.2 _ (List.getElem_mem _)
  have h3 : x.toNat < (g[y.toNat]).length := by rw [h2]; omega
  exact ⟨(g[y.toNat])[x.toNat], by simp [List.getElem?_eq_getElem h3]⟩

theorem writeCell_spec {n : Nat} {g : Grid} (hg : Sized n g) {y x : Int}
    (hy : 0 ≤ y ∧ y < n) (hx : 0 ≤ x ∧ x < n) (v : Bool) :
    ∃ g', writeCell g y x v = some g' ∧ Sized n g' ∧
      ∀ y' x' : Int, readCell g' y' x' =
        if y' = y ∧ x' = x then some v else readCell g y' x' := by
  have h1 : y.toNat < g.length := by rw [hg.1]; omega
  have hrow : g[y.toNat]? = some (g[y.toNat]) := List.getElem?_eq_getElem h1
  have h2 : (g[y.toNat]).length = n := hg.2 _ (List.getElem_mem _)
  generalize g[y.toNat] = row at hrow h2
  refine ⟨g.set y.toNat (row.set x.toNat v), ?_, ?_, ?_⟩
  · unfold writeCell
    rw [if_neg (by omega), hrow]
    simp only
    rw [if_pos (by omega)]
  · refine ⟨by rw [List.length_set]; exact hg.1, ?_⟩
    intro r hr
    rcases List.mem_or_eq_of_mem_set hr with h | h
    · exact hg.2 r h
    · rw [h, List.length_set]; exact h2
  · intro y' x'
    by_cases hneg : y' < 0 ∨ x' < 0
    · unfold readCell
      rw [if_pos hneg, if_pos hneg, if_neg (by omega)]
    · have hy' : 0 ≤ y' := by omega
      have hx' : 0 ≤ x' := by omega
      rw [readCell_nonneg _ hy' hx', readCell_nonneg _ hy' hx', List.getElem?_set]
      by_cases hyy : y' = y
      · subst hyy
        rw [if_pos rfl, if_pos h1]
        simp only [Option.some_bind, hrow, true_and]
        rw [List.getElem?_set]
        by_cases hxx : x' = x
        · subst hxx
          rw [if_pos rfl, if_pos (by omega), if_pos rfl]
        · rw [if_neg (by omega), if_neg hxx]
      · rw [if_neg (by omega), if_neg (by tauto)]

theorem Upd.refl {n : Nat} (W : Int → Int → Prop) {s : QRState} (h : WF n s) : Upd n W s s :=
  ⟨rfl, h, fun _ _ _ => rfl, fun _ _ h => h⟩

theorem Upd.trans {n : Nat} {W : Int → Int → Prop} {s s' s'' : QRState}
    (h1 : Upd n W s s') (h2 : Upd n W s' s'') : Upd n W s s'' :=
  ⟨h2.1.trans h1.1, h2.2.1, fun y x hw => (h2.2.2.1 y x hw).trans (h1.2.2.1 y x hw),
    fun y x h => h2.2.2.2 y x (h1.2.2.2 y x h)⟩

theorem Upd.mono {n : Nat} {W W' : Int → Int → Prop} {s s' : QRState}
    (h : Upd n W s s') (hw : ∀ y x, W y x → W' y x) : Upd n W' s s' :=
  ⟨h.1, h.2.1, fun y x hn => h.2.2.1 y x (fun hc => hn (hw y x hc)), h.2.2.2⟩

/-- `setModule` returns; it changes at most the cell it names and leaves
`m_isFunction` alone. -/
theorem setModule_spec {n : Nat} {s : QRState} (h : WF n s) (x y : Int) (b : Bool) :
    ∃ s', setModule s x y b = some s' ∧ s'.version = s.version ∧ WF n s' ∧
      s'.isFunction = s.isFunction ∧
      (∀ y' x' : Int, readCell s'.modules y' x' =
        if y' = y ∧ x' = x ∧ 0 ≤ x ∧ x < n ∧ 0 ≤ y ∧ y < n then some b
        else readCell s.modules y' x') := by
  unfold setModule
  by_cases hb : x ≥ 0 ∧ x < s.moduleCount ∧ y ≥ 0 ∧ y < s.moduleCount
  · rw [if_pos hb]
    rw [h.1] at hb
    obtain ⟨g', h1, h2, h3⟩ := writeCell_spec h.2.1 (y := y) (x := x) ⟨hb.2.2.1, hb.2.2.2⟩
      ⟨hb.1, hb.2.1⟩ b
    rw [h1]
    refine ⟨_, rfl, rfl, ⟨h.1, h2, h.2.2⟩, rfl, ?_⟩
    intro y' x'
    rw [h3 y' x']
    by_cases hc : y' = y ∧ x' = x
    · rw [if_pos hc, if_pos ⟨hc.1, hc.2, hb.1, hb.2.1, hb.2.2.1, hb.2.2.2⟩]
    · rw [if_neg hc, if_neg (by tauto)]
  · rw [if_neg hb]
    rw [h.1] at hb
    refine ⟨s, rfl, rfl, h, rfl, ?_⟩
    intro y' x'
    rw [if_neg (by intro hc; exact hb ⟨hc.2.2.1, hc.2.2.2.1, hc.2.2.2.2.1, hc.2.2.2.2.2⟩)]

theorem setModule_upd {n : Nat} {W : Int → Int → Prop} {s : QRState} (h : WF n s)
    (x y : Int) (b : Bool) (hw : 0 ≤ x ∧ x < n ∧ 0 ≤ y ∧ y < n → W y x) :
    ∃ s', setModule s x y b = some s' ∧ Upd n W s s' ∧ s'.isFunction = s.isFunction := by
  obtain ⟨s', h1, h2, h3, h4, h5⟩ := setModule_spec h x y b
  refine ⟨s', h1, ⟨h2, h3, ?_, ?_⟩, h4⟩
  · intro y' x' hnw
    rw [h5 y' x', if_neg]
    rintro ⟨rfl, rfl, hb⟩
    exact hnw (hw hb)
  · intro y' x' hf
    rw [h4]; exact hf

/-- `m_isFunction[y][x] = true` inside the grid returns; it marks that cell
and leaves the rest and `m_modules` alone. -/
theorem markFunction_spec {n : Nat} {s : QRState} (h : WF n s) {y x : Int}
    (hy : 0 ≤ y ∧ y < n) (hx : 0 ≤ x ∧ x < n) :
    ∃ s', markFunction s y x = some s' ∧ s'.version = s.version ∧ WF n s' ∧
      s'.modules = s.modules ∧
      (∀ y' x' : Int, readCell s'.isFunction y' x' =
        if y' = y ∧ x' = x then some true else readCell s.isFunction y' x') := by
  obtain ⟨g', h1, h2, h3⟩ := writeCell_spec h.2.2 hy hx true
  unfold markFunction
  rw [h1]
  exact ⟨_, rfl, rfl, ⟨h.1, h.2.1, h2⟩, rfl, h3⟩

theorem markFunction_upd {n : Nat} {W : Int → Int → Prop} {s : QRState} (h : WF n s)
    {y x : Int} (hy : 0 ≤ y ∧ y < n) (hx : 0 ≤ x ∧ x < n) :
    ∃ s', markFunction s y x = some s' ∧ Upd n W s s' := by
  obtain ⟨s', h1, h2, h3, h4, h5⟩ := markFunction_spec h hy hx
  refine ⟨s', h1, h2, h3, ?_, ?_⟩
  · intro y' x' _
    rw [h4]
  · intro y' x' hf
    rw [h5 y' x']
    by_cases hc : y' = y ∧ x' = x
    · rw [if_pos hc]
    · rw [if_neg hc]; exact hf

/-! ## Data placement, format information and mask: what they leave alone -/


theorem placeCell_inv {n : Nat} (s0 : QRState) (data : List Bool) {col actualRow : Int}
    (hrow : 0 ≤ actualRow ∧ actualRow < n) (hcol : 1 ≤ col ∧ col < n)
    (st : QRState × Nat) (c : Nat) (hc : c ∈ [0, 1])
    (hinv : Upd n (freeCell s0.isFunction) s0 st.1 ∧ st.1.isFunction = s0.isFunction) :
    ∃ st', placeCell data col actualRow st c = some st' ∧
      Upd n (freeCell s0.isFunction) s0 st'.1 ∧ st'.1.isFunction = s0.isFunction := by
  have hc2 : c = 0 ∨ c = 1 := by simpa using hc
  have hx : 0 ≤ col - (c : Int) ∧ col - (c : Int) < n := by omega
  obtain ⟨f, hf⟩ := readCell_some hinv.1.2.1.2.2 hrow hx
  unfold placeCell
  simp only [hf, Option.bind_eq_bind, Option.some_bind]
  cases f with
  | true => exact ⟨st, by simp, hinv⟩
  | false =>
    cases hd : data[st.2]? with
    | none => exact ⟨(st.1, st.2 + 1), by simp, hinv⟩
    | some b =>
      obtain ⟨s', h1, h2, h3⟩ := setModule_upd (W := freeCell s0.isFunction) hinv.1.2.1
        (col - (c : Int)) actualRow b (fun _ => by
          show readCell s0.isFunction actualRow (col - (c : Int)) = some false
          rw [← hinv.2]; exact hf)
      refine ⟨(s', st.2 + 1), by simp [h1], hinv.1.trans h2, h3.trans hinv.2⟩

theorem placeRow_inv {n : Nat} (s0 : QRState) (data : List Bool) {col : Int} (upward : Bool)
    (hcol : 1 ≤ col ∧ col < n) (st : QRState × Nat) (row : Nat) (hrow : row < n)
    (hinv : Upd n (freeCell s0.isFunction) s0 st.1 ∧ st.1.isFunction = s0.isFunction) :
    ∃ st', placeRow data col upward st row = some st' ∧
      Upd n (freeCell s0.isFunction) s0 st'.1 ∧ st'.1.isFunction = s0.isFunction := by
  unfold placeRow
  have hmc : st.1.moduleCount = (n : Int) := hinv.1.2.1.1
  have hr : 0 ≤ (if upward = true then st.1.moduleCount - 1 - (row : Int) else (row : Int)) ∧
      (if upward = true then st.1.moduleCount - 1 - (row : Int) else (row : Int)) < n := by
    rw [hmc]; split <;> omega
  exact foldlM_inv
    (fun st' => Upd n (freeCell s0.isFunction) s0 st'.1 ∧ st'.1.isFunction = s0.isFunction)
    _ [0, 1] (fun st' c hc hi => placeCell_inv s0 data hr hcol st' c hc hi) st hinv


theorem placeColumns_inv {n : Nat} (s0 : QRState) (data : List Bool) :
    ∀ (fuel : Nat) (col : Int) (upward : Bool) (st : QRState × Nat),
      colOK col → col < n → col + 1 < fuel →
      (Upd n (freeCell s0.isFunction) s0 st.1 ∧ st.1.isFunction = s0.isFunction) →
      ∃ st', placeColumns data fuel col upward st = some st' ∧
        Upd n (freeCell s0.isFunction) s0 st'.1 ∧ st'.1.isFunction = s0.isFunction := by
  intro fuel
  induction fuel with
  | zero =>
    intro col _ _ hok _ hf _
    unfold colOK at hok
    omega
  | succ fuel ih =>
    intro col upward st hok hlt hf hinv
    unfold placeColumns
    by_cases hc : col ≥ 0
    · rw [if_pos hc]
      have hmc : st.1.moduleCount = (n : Int) := hinv.1.2.1.1
      have hcol : 1 ≤ (if col = 6 then 5 else col) ∧ (if col = 6 then 5 else col) < n := by
        unfold colOK at hok
        split <;> omega
      obtain ⟨st1, h1, h2⟩ := foldlM_inv
        (fun st' => Upd n (freeCell s0.isFunction) s0 st'.1 ∧ st'.1.isFunction = s0.isFunction)
        (placeRow data (if col = 6 then 5 else col) upward) (List.range st.1.moduleCount.toNat)
        (fun st' row hrow hi => placeRow_inv s0 data upward hcol st' row
          (by rw [hmc] at hrow; simpa using hrow) hi) st hinv
      simp only [Option.bind_eq_bind, h1, Option.some_bind]
      apply ih _ _ _ _ _ _ h2
      · unfold colOK at hok ⊢
        split <;> omega
      · split <;> omega
      · unfold colOK at hok
        split <;> omega
    · rw [if_neg hc]
      exact ⟨st, rfl, hinv⟩

/-- `placeModules` returns on a grid of odd side at least 7; it leaves the
marks alone and writes only cells that are not marked. -/
theorem placeModules_spec {n : Nat} {s : QRState} (h : WF n s) (hodd : n % 2 = 1) (h7 : 7 ≤ n)
    (data : List Bool) :
    ∃ s', placeModules s data = some s' ∧ Upd n (freeCell s.isFunction) s s' ∧
      s'.isFunction = s.isFunction := by
  unfold placeModules
  obtain ⟨st, h1, h2⟩ := placeColumns_inv (n := n) s data (s.moduleCount.toNat + 1)
    (s.moduleCount - 1) true (s, 0)
    (by rw [h.1]; unfold colOK; omega) (by rw [h.1]; omega) (by rw [h.1]; omega)
    ⟨Upd.refl _ h, rfl⟩
  rw [h1]
  exact ⟨st.1, rfl, h2⟩

theorem maskCell_inv {n : Nat} (s0 : QRState) {y : Nat} (hy : y < n) (s : QRState) (x : Nat)
    (hx : x < n)
    (hinv : Upd n (freeCell s0.isFunction) s0 s ∧ s.isFunction = s0.isFunction) :
    ∃ s', maskCell y s x = some s' ∧
      Upd n (freeCell s0.isFunction) s0 s' ∧ s'.isFunction = s0.isFunction := by
  have hyi : 0 ≤ (y : Int) ∧ (y : Int) < n := by omega
  have hxi : 0 ≤ (x : Int) ∧ (x : Int) < n := by omega
  obtain ⟨f, hf⟩ := readCell_some hinv.1.2.1.2.2 hyi hxi
  unfold maskCell
  simp only [hf, Option.bind_eq_bind, Option.some_bind]
  cases f with
  | true => exact ⟨s, by simp, hinv⟩
  | false =>
    by_cases hp : (x + y) % 2 = 0
    · obtain ⟨old, hold⟩ := readCell_some hinv.1.2.1.2.1 hyi hxi
      obtain ⟨g', h1, h2, h3⟩ := writeCell_spec hinv.1.2.1.2.1 hyi hxi (!old)
      refine ⟨{ s with modules := g' }, by simp [hp, hold, h1], ?_, hinv.2⟩
      refine hinv.1.trans ⟨rfl, ⟨hinv.1.2.1.1, h2, hinv.1.2.1.2.2⟩, ?_, fun _ _ hh => hh⟩
      intro y' x' hw
      show readCell g' y' x' = _
      rw [h3 y' x', if_neg]
      rintro ⟨rfl, rfl⟩
      apply hw
      show readCell s0.isFunction _ _ = some false
      rw [← hinv.2]; exact hf
    · exact ⟨s, by simp [hp], hinv⟩

/-- `applyMask` returns; it leaves the marks alone and writes only cells that
are not marked. -/
theorem applyMask_spec {n : Nat} {s : QRState} (h : WF n s) :
    ∃ s', applyMask s = some s' ∧ Upd n (freeCell s.isFunction) s s' ∧
      s'.isFunction = s.isFunction := by
  unfold applyMask
  apply foldlM_inv
    (fun s' => Upd n (freeCell s.isFunction) s s' ∧ s'.isFunction = s.isFunction) _ _ _ s
    ⟨Upd.refl _ h, rfl⟩
  intro s1 y hy hi1
  have hmc : s.moduleCount = (n : Int) := h.1
  have hy' : y < n := by rw [hmc] at hy; simpa using hy
  apply foldlM_inv
    (fun s' => Upd n (freeCell s.isFunction) s s' ∧ s'.isFunction = s.isFunction) _ _ _ s1 hi1
  intro s2 x hx hi2
  have hmc1 : s1.moduleCount = (n : Int) := hi1.1.2.1.1
  exact maskCell_inv s hy' s2 x (by rw [hmc1] at hx; simpa using hx) hi2

theorem formatLow_inv {n : Nat} (hn : 21 ≤ n) (s0 s : QRState) (i : Nat)
    (hi : i ∈ [0, 1, 2, 3, 4, 5]) (hinv : Upd n (formatCell n) s0 s) :
    ∃ s', formatLow s i = some s' ∧ Upd n (formatCell n) s0 s' := by
  have hi6 : i < 6 := by
    simp only [List.mem_cons, List.mem_singleton, List.not_mem_nil, or_false] at hi
    omega
  obtain ⟨s1, h1, u1, _⟩ := setModule_upd (W := formatCell n) hinv.2.1 8 i (formatBit i)
    (fun _ => by
      unfold formatCell formatCells
      interval_cases i <;> simp)
  obtain ⟨s2, h2, u2⟩ := markFunction_upd (W := formatCell n) u1.2.1 (y := i) (x := 8)
    (by omega) (by omega)
  have hmc : s2.moduleCount = (n : Int) := u2.2.1.1
  obtain ⟨s3, h3, u3, _⟩ := setModule_upd (W := formatCell n) u2.2.1 (s2.moduleCount - 1 - i) 8
    (formatBit i) (fun _ => by
      rw [hmc]
      unfold formatCell formatCells
      interval_cases i <;> simp)
  refine ⟨s3, ?_, ((hinv.trans u1).trans u2).trans u3⟩
  unfold formatLow
  simp only [Option.bind_eq_bind, h1, Option.some_bind, h2, h3]

theorem formatHigh_inv {n : Nat} (hn : 21 ≤ n) (s0 s : QRState) (i : Nat)
    (hi : i ∈ [9, 10, 11, 12, 13, 14]) (hinv : Upd n (formatCell n) s0 s) :
    ∃ s', formatHigh s i = some s' ∧ Upd n (formatCell n) s0 s' := by
  have hi6 : 9 ≤ i ∧ i < 15 := by
    simp only [List.mem_cons, List.mem_singleton, List.not_mem_nil, or_false] at hi
    omega
  obtain ⟨s1, h1, u1, _⟩ := setModule_upd (W := formatCell n) hinv.2.1 (14 - i) 8 (formatBit i)
    (fun _ => by
      unfold formatCell formatCells
      obtain ⟨h9, h15⟩ := hi6
      interval_cases i <;> simp)
  obtain ⟨s2, h2, u2⟩ := markFunction_upd (W := formatCell n) u1.2.1 (y := 8) (x := 14 - i)
    (by omega) (by omega)
  have hmc : s2.moduleCount = (n : Int) := u2.2.1.1
  obtain ⟨s3, h3, u3, _⟩ := setModule_upd (W := formatCell n) u2.2.1 8 (s2.moduleCount - 15 + i)
    (formatBit i) (fun _ => by
      rw [hmc]
      unfold formatCell formatCells
      obtain ⟨h9, h15⟩ := hi6
      interval_cases i <;> simp)
  refine ⟨s3, ?_, ((hinv.trans u1).trans u2).trans u3⟩
  unfold formatHigh
  simp only [Option.bind_eq_bind, h1, Option.some_bind, h2, h3]

/-- `addFormatInfo` returns on a grid of side at least 21; it writes only the
format cells, and marks stay. -/
theorem addFormatInfo_spec {n : Nat} (hn : 21 ≤ n) {s : QRState} (h : WF n s) :
    ∃ s', addFormatInfo s = some s' ∧ Upd n (formatCell n) s s' := by
  obtain ⟨s1, h1, u1⟩ := foldlM_inv (fun s' => Upd n (formatCell n) s s') formatLow
    [0, 1, 2, 3, 4, 5] (fun s' i hi hinv => formatLow_inv hn s s' i hi hinv) s (Upd.refl _ h)
  obtain ⟨s2, h2, u2, _⟩ := setModule_upd (W := formatCell n) u1.2.1 8 7 (formatBit 6)
    (fun _ => by unfold formatCell formatCells; simp)
  obtain ⟨s3, h3, u3⟩ := markFunction_upd (W := formatCell n) u2.2.1 (y := 7) (x := 8)
    (by omega) (by omega)
  obtain ⟨s4, h4, u4, _⟩ := setModule_upd (W := formatCell n) u3.2.1 8 8 (formatBit 7)
    (fun _ => by unfold formatCell formatCells; simp)
  obtain ⟨s5, h5, u5⟩ := markFunction_upd (W := formatCell n) u4.2.1 (y := 8) (x := 8)
    (by omega) (by omega)
  obtain ⟨s6, h6, u6, _⟩ := setModule_upd (W := formatCell n) u5.2.1 7 8 (formatBit 8)
    (fun _ => by unfold formatCell formatCells; simp)
  obtain ⟨s7, h7, u7⟩ := markFunction_upd (W := formatCell n) u6.2.1 (y := 8) (x := 7)
    (by omega) (by omega)
  have u07 := (((((u1.trans u2).trans u3).trans u4).trans u5).trans u6).trans u7
  obtain ⟨s8, h8, u8⟩ := foldlM_inv (fun s' => Upd n (formatCell n) s s') formatHigh
    [9, 10, 11, 12, 13, 14] (fun s' i hi hinv => formatHigh_inv hn s s' i hi hinv) s7 u07
  have hmc : s8.moduleCount = (n : Int) := u8.2.1.1
  obtain ⟨s9, h9, u9, _⟩ := setModule_upd (W := formatCell n) u8.2.1 8 (s8.moduleCount - 8) true
    (fun _ => by rw [hmc]; unfold formatCell formatCells; simp)
  have hmc9 : s9.moduleCount = (n : Int) := u9.2.1.1
  obtain ⟨s10, h10, u10⟩ := markFunction_upd (W := formatCell n) u9.2.1
    (y := s9.moduleCount - 8) (x := 8) (by rw [hmc9]; omega) (by omega)
  refine ⟨s10, ?_, (u8.trans u9).trans u10⟩
  unfold addFormatInfo
  simp only [Option.bind_eq_bind, h1, Option.some_bind, h2, h3, h4, h5, h6, h7, h8, h9, h10]

/-! ## The whole of `generateQRCode` -/

theorem resize_length {α : Type} (n : Nat) (d : α) (l : List α) : (resize n d l).length = n := by
  simp [resize]
  omega

theorem fill_resize (n : Nat) (row : List Bool) :
    fill false (resize n false row) = List.replicate n false := by
  unfold fill
  rw [resize_length]

theorem initRow_fold (version mc : Int) (n : Nat) (hn : mc.toNat = n) (M F : Grid)
    (hM : M.length = n) (hF : F.length = n) :
    ∀ k, k ≤ n → ∃ s', (List.range k).foldlM initRow ⟨version, mc, M, F⟩ = some s' ∧
      s'.version = version ∧ s'.moduleCount = mc ∧
      s'.modules.length = n ∧ s'.isFunction.length = n ∧
      (∀ j, s'.modules[j]? = if j < k then some (List.replicate n false) else M[j]?) ∧
      (∀ j, s'.isFunction[j]? = if j < k then some (List.replicate n false) else F[j]?) := by
  intro k
  induction k with
  | zero => intro _; exact ⟨_, rfl, rfl, rfl, hM, hF, fun j => by simp, fun j => by simp⟩
  | succ k ih =>
    intro hk
    obtain ⟨s1, h1, hv, hmc, hlm, hlf, hm, hf⟩ := ih (by omega)
    rw [List.range_succ, List.foldlM_append, h1]
    have hrm := getElem?_some_getD s1.modules k [] (by omega)
    have hrf := getElem?_some_getD s1.isFunction k [] (by omega)
    simp only [Option.bind_eq_bind, Option.some_bind, List.foldlM_cons, List.foldlM_nil,
      initRow, Option.pure_def, Option.bind_some]
    rw [hrm, hrf]
    simp only [Option.some_bind, hmc, hn, fill_resize]
    refine ⟨_, rfl, hv, rfl, by simp [hlm], by simp [hlf], ?_, ?_⟩
    · intro j
      simp only [List.getElem?_set]
      by_cases hjk : k = j
      · subst hjk
        rw [if_pos rfl, if_pos (by omega), if_pos (by omega)]
      · rw [if_neg hjk, hm j]
        by_cases hlt : j < k
        · rw [if_pos hlt, if_pos (by omega)]
        · rw [if_neg hlt, if_neg (by omega)]
    · intro j
      simp only [List.getElem?_set]
      by_cases hjk : k = j
      · subst hjk
        rw [if_pos rfl, if_pos (by omega), if_pos (by omega)]
      · rw [if_neg hjk, hf j]
        by_cases hlt : j < k
        · rw [if_pos hlt, if_pos (by omega)]
        · rw [if_neg hlt, if_neg (by omega)]

theorem eq_blankGrid {n : Nat} {g : Grid} (_hl : g.length = n)
    (h : ∀ j, g[j]? = if j < n then some (List.replicate n false) else none) :
    g = blankGrid n := by
  apply List.ext_getElem?
  intro j
  rw [h j]
  unfold blankGrid
  rw [List.getElem?_replicate]

/-- The loop that resizes and clears the rows leaves two blank grids, whatever
the grids held before. -/
theorem initRows_spec (version : Int) (M F : Grid) :
    (List.range (17 + version * 4).toNat).foldlM initRow
      ⟨version, 17 + version * 4, resize (17 + version * 4).toNat [] M,
        resize (17 + version * 4).toNat [] F⟩ = some (freshState version) := by
  generalize hn : (17 + version * 4).toNat = n
  obtain ⟨s', h1, hv, hmc, hlm, hlf, hm, hf⟩ := initRow_fold version (17 + version * 4) n hn
    (resize n [] M) (resize n [] F) (resize_length _ _ _) (resize_length _ _ _) n (Nat.le_refl n)
  rw [h1]
  have e1 : s'.modules = blankGrid n := eq_blankGrid hlm (fun j => by
    rw [hm j]
    by_cases hj : j < n
    · rw [if_pos hj, if_pos hj]
    · rw [if_neg hj, if_neg hj, List.getElem?_eq_none (by rw [resize_length]; omega)])
  have e2 : s'.isFunction = blankGrid n := eq_blankGrid hlf (fun j => by
    rw [hf j]
    by_cases hj : j < n
    · rw [if_pos hj, if_pos hj]
    · rw [if_neg hj, if_neg hj, List.getElem?_eq_none (by rw [resize_length]; omega)])
  cases s' with
  | mk v mc m f =>
    simp only at hv hmc e1 e2
    subst hv hmc e1 e2
    simp [freshState, hn]

theorem selectVersion_cases (len : Int) :
    selectVersion len = 2 ∨ selectVersion len = 3 ∨ selectVersion len = 4 ∨
      selectVersion len = 5 := by
  unfold selectVersion
  split_ifs <;> simp

theorem sizedB_iff {n : Nat} {g : Grid} (h : sizedB n g = true) : Sized n g := by
  unfold sizedB at h
  simp only [Bool.and_eq_true, beq_iff_eq, List.all_eq_true] at h
  exact h

theorem wfB_iff {n : Nat} {s : QRState} (h : wfB n s = true) : WF n s := by
  unfold wfB at h
  simp only [Bool.and_eq_true, beq_iff_eq] at h
  exact ⟨h.1.1, sizedB_iff h.1.2, sizedB_iff h.2⟩

theorem patCheck_some {v : Int} {P : QRState → Bool} (h : patCheck v P = true) :
    ∃ sp, addPatterns (freshState v) = some sp ∧ P sp = true := by
  unfold patCheck at h
  cases hp : addPatterns (freshState v) with
  | none => rw [hp] at h; simp at h
  | some sp => rw [hp] at h; exact ⟨sp, rfl, h⟩


/-! ## The packed copy follows the state -/

theorem ORel.bind {α β γ δ : Type} {R : α → β → Prop} {S : γ → δ → Prop}
    {oa : Option α} {ob : Option β} {f : α → Option γ} {g : β → Option δ}
    (h : ORel R oa ob) (hf : ∀ a b, R a b → ORel S (f a) (g b)) :
    ORel S (oa.bind f) (ob.bind g) := by
  cases oa <;> cases ob <;> simp only [ORel] at h
  · simp [ORel]
  · exact hf _ _ h

theorem ORel.map {α β γ δ : Type} {R : α → β → Prop} {S : γ → δ → Prop}
    {oa : Option α} {ob : Option β} {f : α → γ} {g : β → δ}
    (h : ORel R oa ob) (hf : ∀ a b, R a b → S (f a) (g b)) :
    ORel S (oa.map f) (ob.map g) := by
  cases oa <;> cases ob <;> simp only [ORel] at h
  · simp [ORel]
  · exact hf _ _ h

theorem ORel.foldlM {σ τ α : Type} {R : σ → τ → Prop} {f : σ → α → Option σ}
    {g : τ → α → Option τ} :
    ∀ (l : List α), (∀ s t i, i ∈ l → R s t → ORel R (f s i) (g t i)) →
      ∀ s t, R s t → ORel R (l.foldlM f s) (l.foldlM g t) := by
  intro l
  induction l with
  | nil => intro _ s t h; exact h
  | cons i l ih =>
    intro hstep s t h
    rw [List.foldlM_cons, List.foldlM_cons]
    exact ORel.bind (hstep s t i (by simp) h)
      (fun s' t' h' => ih (fun s t j hj => hstep s t j (by simp [hj])) s' t' h')

theorem ORel.of_some_right {α β : Type} {R : α → β → Prop} {oa : Option α} {b : β}
    (h : ORel R oa (some b)) : ∃ a, oa = some a ∧ R a b := by
  cases oa with
  | none => simp [ORel] at h
  | some a => exact ⟨a, rfl, h⟩

theorem ORel.of_some_left {α β : Type} {R : α → β → Prop} {a : α} {ob : Option β}
    (h : ORel R (some a) ob) : ∃ b, ob = some b ∧ R a b := by
  cases ob with
  | none => simp [ORel] at h
  | some b => exact ⟨b, rfl, h⟩

theorem ORel.eq {α : Type} {oa ob : Option α} (h : ORel (fun a b => a = b) oa ob) : oa = ob := by
  cases oa <;> cases ob <;> simp only [ORel] at h
  · rfl
  · rw [h]

theorem ORel.of_eq {α β : Type} {R : α → β → Prop} {a : α} {b : β} (h : R a b) :
    ORel R (some a) (some b) := h

theorem cellIndex_inj {n y x y' x' : Int} (hx : 0 ≤ x ∧ x < n) (hx' : 0 ≤ x' ∧ x' < n)
    (hy : 0 ≤ y) (hy' : 0 ≤ y') :
    (y * n + x).toNat = (y' * n + x').toNat ↔ y = y' ∧ x = x' := by
  constructor
  · intro h
    have h1 : 0 ≤ y * n := Int.mul_nonneg hy (by omega)
    have h2 : 0 ≤ y' * n := Int.mul_nonneg hy' (by omega)
    have h3 : y * n + x = y' * n + x' := by omega
    have hyy : y = y' := by
      rcases Int.lt_trichotomy y y' with hlt | heq | hgt
      · have : (y + 1) * n ≤ y' * n := Int.mul_le_mul_of_nonneg_right (by omega) (by omega)
        rw [Int.add_mul] at this
        omega
      · exact heq
      · have : (y' + 1) * n ≤ y * n := Int.mul_le_mul_of_nonneg_right (by omega) (by omega)
        rw [Int.add_mul] at this
        omega
    subst hyy
    exact ⟨rfl, by omega⟩
  · rintro ⟨rfl, rfl⟩
    rfl

theorem testBit_setBit (g i j : Nat) :
    (g ||| 2 ^ i).testBit j = (g.testBit j || decide (i = j)) := by
  rw [Nat.testBit_or, Nat.testBit_two_pow]

theorem testBit_clearBit (g i j : Nat) :
    (g ^^^ (g &&& 2 ^ i)).testBit j = (g.testBit j && !decide (i = j)) := by
  rw [Nat.testBit_xor, Nat.testBit_and, Nat.testBit_two_pow]
  cases g.testBit j <;> cases decide (i = j) <;> rfl

theorem readCell_none {n : Nat} {g : Grid} (hg : Sized n g) {y x : Int}
    (h : y < 0 ∨ x < 0 ∨ y ≥ n ∨ x ≥ n) : readCell g y x = none := by
  unfold readCell
  by_cases hneg : y < 0 ∨ x < 0
  · rw [if_pos hneg]
  · rw [if_neg hneg]
    by_cases hy : y ≥ n
    · rw [List.getElem?_eq_none (by rw [hg.1]; omega)]
      rfl
    · have h1 : y.toNat < g.length := by rw [hg.1]; omega
      rw [List.getElem?_eq_getElem h1]
      have h2 : (g[y.toNat]).length = n := hg.2 _ (List.getElem_mem _)
      simp only [Option.some_bind]
      exact List.getElem?_eq_none (by rw [h2]; omega)

/-- A write into a grid and the same write into its packed copy. -/
theorem writeCell_sim {n : Nat} {g : Grid} {G : Nat} (hg : Sized n g)
    (hr : ∀ y x, readCell g y x = readCellN n G y x) (y x : Int) (v : Bool) :
    ORel (fun g' G' => Sized n g' ∧ ∀ y x, readCell g' y x = readCellN n G' y x)
      (writeCell g y x v) (writeCellN n G y x v) := by
  by_cases hb : y < 0 ∨ x < 0 ∨ y ≥ n ∨ x ≥ n
  · have h1 : writeCell g y x v = none := by
      unfold writeCell
      by_cases hneg : y < 0 ∨ x < 0
      · rw [if_pos hneg]
      · rw [if_neg hneg]
        by_cases hy : y ≥ n
        · rw [List.getElem?_eq_none (by rw [hg.1]; omega)]
        · have h1 : y.toNat < g.length := by rw [hg.1]; omega
          rw [List.getElem?_eq_getElem h1]
          have h2 : (g[y.toNat]).length = n := hg.2 _ (List.getElem_mem _)
          simp only
          rw [if_neg (by rw [h2]; omega)]
    have h2 : writeCellN n G y x v = none := by
      unfold writeCellN
      rw [if_pos hb]
    rw [h1, h2]
    trivial
  · have hy : 0 ≤ y ∧ y < n := by omega
    have hx : 0 ≤ x ∧ x < n := by omega
    obtain ⟨g', h1, h2, h3⟩ := writeCell_spec hg hy hx v
    have h4 : writeCellN n G y x v =
        some (if v then G ||| 2 ^ (y * n + x).toNat else G ^^^ (G &&& 2 ^ (y * n + x).toNat)) := by
      unfold writeCellN
      rw [if_neg hb]
    rw [h1, h4]
    refine ⟨h2, ?_⟩
    intro y' x'
    rw [h3 y' x']
    by_cases hb' : y' < 0 ∨ x' < 0 ∨ y' ≥ n ∨ x' ≥ n
    · rw [if_neg (by rintro ⟨rfl, rfl⟩; exact hb hb'), readCell_none hg hb']
      unfold readCellN
      rw [if_pos hb']
    · have hy' : 0 ≤ y' ∧ y' < n := by omega
      have hx' : 0 ≤ x' ∧ x' < n := by omega
      have hold := hr y' x'
      unfold readCellN at hold ⊢
      rw [if_neg hb'] at hold ⊢
      have hinj := cellIndex_inj (n := n) hx hx' hy.1 hy'.1
      by_cases hc : y' = y ∧ x' = x
      · rw [if_pos hc]
        have hi : (y * n + x).toNat = (y' * n + x').toNat := hinj.mpr ⟨hc.1.symm, hc.2.symm⟩
        cases v
        · simp [testBit_clearBit, hi]
        · simp [testBit_setBit, hi]
      · rw [if_neg hc, hold]
        have hi : ¬ (y * n + x).toNat = (y' * n + x').toNat := by
          intro h
          exact hc ⟨(hinj.mp h).1.symm, (hinj.mp h).2.symm⟩
        cases v
        · simp [testBit_clearBit, hi]
        · simp [testBit_setBit, hi]

theorem setModule_sim {n : Nat} {s : QRState} {a : NState} (h : Rel n s a) (x y : Int)
    (b : Bool) : ORel (Rel n) (setModule s x y b) (setModuleN a x y b) := by
  obtain ⟨hv, hmc, hwf, hm, hf⟩ := h
  unfold setModule setModuleN
  rw [hwf.1, hmc]
  by_cases hb : x ≥ 0 ∧ x < (n : Int) ∧ y ≥ 0 ∧ y < (n : Int)
  · rw [if_pos hb, if_pos hb]
    exact ORel.map (writeCell_sim hwf.2.1 hm y x b)
      (fun g' G' hg => ⟨hv, rfl, ⟨rfl, hg.1, hwf.2.2⟩, hg.2, hf⟩)
  · rw [if_neg hb, if_neg hb]
    exact ⟨hv, hmc, hwf, hm, hf⟩

theorem markFunction_sim {n : Nat} {s : QRState} {a : NState} (h : Rel n s a) (y x : Int) :
    ORel (Rel n) (markFunction s y x) (markFunctionN a y x) := by
  obtain ⟨hv, hmc, hwf, hm, hf⟩ := h
  unfold markFunction markFunctionN
  rw [hmc]
  exact ORel.map (writeCell_sim hwf.2.2 hf y x true)
    (fun g' G' hg => ⟨hv, rfl, ⟨hwf.1, hwf.2.1, hg.1⟩, hm, hg.2⟩)

theorem readFunction_sim {n : Nat} {s : QRState} {a : NState} (h : Rel n s a) (y x : Int) :
    readCell s.isFunction y x = readCellN a.moduleCount a.isFunction y x := by
  rw [h.2.1]; exact h.2.2.2.2 y x

theorem readModules_sim {n : Nat} {s : QRState} {a : NState} (h : Rel n s a) (y x : Int) :
    readCell s.modules y x = readCellN a.moduleCount a.modules y x := by
  rw [h.2.1]; exact h.2.2.2.1 y x

theorem Rel.mcS {n : Nat} {s : QRState} {a : NState} (h : Rel n s a) :
    s.moduleCount = (n : Int) := h.2.2.1.1

theorem Rel.mcN {n : Nat} {s : QRState} {a : NState} (h : Rel n s a) :
    a.moduleCount = (n : Int) := h.2.1

theorem drawFinderCell_sim {n : Nat} (cx cy dy : Int) {s : QRState} {a : NState}
    (h : Rel n s a) (dx : Int) :
    ORel (Rel n) (drawFinderCell cx cy dy s dx) (drawFinderCellN cx cy dy a dx) := by
  simp only [drawFinderCell, drawFinderCellN, Option.bind_eq_bind, h.mcS, h.mcN]
  split_ifs
  · exact h
  · exact ORel.bind (setModule_sim h _ _ _) (fun s1 a1 h1 => markFunction_sim h1 _ _)

theorem drawFinder_sim {n : Nat} {s : QRState} {a : NState} (h : Rel n s a) (cx cy : Int) :
    ORel (Rel n) (drawFinder s cx cy) (drawFinderN a cx cy) := by
  unfold drawFinder drawFinderN
  exact ORel.foldlM _ (fun s1 a1 dy _ h1 =>
    ORel.foldlM _ (fun s2 a2 dx _ h2 => drawFinderCell_sim cx cy dy h2 dx) s1 a1 h1) s a h

theorem addFinderPatterns_sim {n : Nat} {s : QRState} {a : NState} (h : Rel n s a) :
    ORel (Rel n) (addFinderPatterns s) (addFinderPatternsN a) := by
  simp only [addFinderPatterns, addFinderPatternsN, Option.bind_eq_bind]
  refine ORel.bind (drawFinder_sim h 3 3) (fun s1 a1 h1 => ?_)
  rw [h1.mcS, h1.mcN]
  refine ORel.bind (drawFinder_sim h1 _ 3) (fun s2 a2 h2 => ?_)
  rw [h2.mcS, h2.mcN]
  exact drawFinder_sim h2 3 _

theorem timingSecond_sim {n : Nat} {s : QRState} {a : NState} (h : Rel n s a) (i : Int)
    (black : Bool) :
    ORel (Rel n)
      ((readCell s.isFunction i 6).bind fun v =>
        if (!v) = true then (setModule s 6 i black).bind (fun s => markFunction s i 6)
        else some s)
      ((readCellN a.moduleCount a.isFunction i 6).bind fun v =>
        if (!v) = true then (setModuleN a 6 i black).bind (fun s => markFunctionN s i 6)
        else some a) := by
  rw [readFunction_sim h]
  cases readCellN a.moduleCount a.isFunction i 6 with
  | none => trivial
  | some v =>
    cases v
    · simp only [Option.some_bind, Bool.not_false, if_true]
      exact ORel.bind (setModule_sim h _ _ _) (fun s1 a1 h1 => markFunction_sim h1 _ _)
    · simp only [Option.some_bind, Bool.not_true, Bool.false_eq_true, if_false]
      exact h

theorem timingStep_sim {n : Nat} {s : QRState} {a : NState} (h : Rel n s a) (i : Int) :
    ORel (Rel n) (timingStep s i) (timingStepN a i) := by
  simp only [timingStep, timingStepN, Option.bind_eq_bind, readFunction_sim h]
  cases readCellN a.moduleCount a.isFunction 6 i with
  | none => trivial
  | some f =>
    cases f
    · simp only [Option.some_bind, Bool.not_false, if_true]
      exact ORel.bind
        (ORel.bind (setModule_sim h _ _ _) (fun s1 a1 h1 => markFunction_sim h1 _ _))
        (fun s1 a1 h1 => timingSecond_sim h1 i _)
    · simp only [Option.some_bind, Bool.not_true, Bool.false_eq_true, if_false]
      exact timingSecond_sim h i _

theorem addTimingPatterns_sim {n : Nat} {s : QRState} {a : NState} (h : Rel n s a) :
    ORel (Rel n) (addTimingPatterns s) (addTimingPatternsN a) := by
  unfold addTimingPatterns addTimingPatternsN
  rw [h.mcS, h.mcN]
  exact ORel.foldlM _ (fun s1 a1 i _ h1 => timingStep_sim h1 i) s a h

theorem alignCell_sim {n : Nat} (cx cy dy : Int) {s : QRState} {a : NState}
    (h : Rel n s a) (dx : Int) :
    ORel (Rel n) (alignCell cx cy dy s dx) (alignCellN cx cy dy a dx) := by
  simp only [alignCell, alignCellN, Option.bind_eq_bind]
  exact ORel.bind (setModule_sim h _ _ _) (fun s1 a1 h1 => markFunction_sim h1 _ _)

theorem alignAt_sim {n : Nat} (pos : List Int) (i : Nat) {s : QRState} {a : NState}
    (h : Rel n s a) (j : Nat) :
    ORel (Rel n) (alignAt pos i s j) (alignAtN pos i a j) := by
  simp only [alignAt, alignAtN, Option.bind_eq_bind, h.mcS, h.mcN]
  cases pos[i]? with
  | none => trivial
  | some cx =>
    cases pos[j]? with
    | none => trivial
    | some cy =>
      simp only [Option.some_bind]
      split_ifs
      · exact h
      · exact ORel.foldlM _ (fun s1 a1 dy _ h1 =>
          ORel.foldlM _ (fun s2 a2 dx _ h2 => alignCell_sim cx cy dy h2 dx) s1 a1 h1) s a h

theorem addAlignmentPatterns_sim {n : Nat} {s : QRState} {a : NState} (h : Rel n s a) :
    ORel (Rel n) (addAlignmentPatterns s) (addAlignmentPatternsN a) := by
  simp only [addAlignmentPatterns, addAlignmentPatternsN, Option.bind_eq_bind, h.1]
  split_ifs
  · exact h
  · cases positions[(a.version - 2).toNat]? with
    | none => trivial
    | some pos =>
      simp only [Option.some_bind]
      exact ORel.foldlM _ (fun s1 a1 i _ h1 =>
        ORel.foldlM _ (fun s2 a2 j _ h2 => alignAt_sim pos i h2 j) s1 a1 h1) s a h

theorem addPatterns_sim {n : Nat} {s : QRState} {a : NState} (h : Rel n s a) :
    ORel (Rel n) (addPatterns s) (addPatternsN a) := by
  simp only [addPatterns, addPatternsN, Option.bind_eq_bind]
  refine ORel.bind (addFinderPatterns_sim h) (fun s1 a1 h1 => ?_)
  refine ORel.bind (addTimingPatterns_sim h1) (fun s2 a2 h2 => ?_)
  rw [h2.1]
  split_ifs
  · exact addAlignmentPatterns_sim h2
  · exact h2

theorem formatLow_sim {n : Nat} {s : QRState} {a : NState} (h : Rel n s a) (i : Nat) :
    ORel (Rel n) (formatLow s i) (formatLowN a i) := by
  simp only [formatLow, formatLowN, Option.bind_eq_bind]
  refine ORel.bind (setModule_sim h _ _ _) (fun s1 a1 h1 => ?_)
  refine ORel.bind (markFunction_sim h1 _ _) (fun s2 a2 h2 => ?_)
  rw [h2.mcS, h2.mcN]
  exact setModule_sim h2 _ _ _

theorem formatHigh_sim {n : Nat} {s : QRState} {a : NState} (h : Rel n s a) (i : Nat) :
    ORel (Rel n) (formatHigh s i) (formatHighN a i) := by
  simp only [formatHigh, formatHighN, Option.bind_eq_bind]
  refine ORel.bind (setModule_sim h _ _ _) (fun s1 a1 h1 => ?_)
  refine ORel.bind (markFunction_sim h1 _ _) (fun s2 a2 h2 => ?_)
  rw [h2.mcS, h2.mcN]
  exact setModule_sim h2 _ _ _

theorem addFormatInfo_sim {n : Nat} {s : QRState} {a : NState} (h : Rel n s a) :
    ORel (Rel n) (addFormatInfo s) (addFormatInfoN a) := by
  simp only [addFormatInfo, addFormatInfoN, Option.bind_eq_bind]
  refine ORel.bind (ORel.foldlM _ (fun s1 a1 i _ h1 => formatLow_sim h1 i) s a h)
    (fun s1 a1 h1 => ?_)
  refine ORel.bind (setModule_sim h1 _ _ _) (fun s2 a2 h2 => ?_)
  refine ORel.bind (markFunction_sim h2 _ _) (fun s3 a3 h3 => ?_)
  refine ORel.bind (setModule_sim h3 _ _ _) (fun s4 a4 h4 => ?_)
  refine ORel.bind (markFunction_sim h4 _ _) (fun s5 a5 h5 => ?_)
  refine ORel.bind (setModule_sim h5 _ _ _) (fun s6 a6 h6 => ?_)
  refine ORel.bind (markFunction_sim h6 _ _) (fun s7 a7 h7 => ?_)
  refine ORel.bind (ORel.foldlM _ (fun s1 a1 i _ h1 => formatHigh_sim h1 i) s7 a7 h7)
    (fun s8 a8 h8 => ?_)
  rw [h8.mcS, h8.mcN]
  refine ORel.bind (setModule_sim h8 _ _ _) (fun s9 a9 h9 => ?_)
  rw [h9.mcS, h9.mcN]
  exact markFunction_sim h9 _ _

theorem drop_cons_getElem? {α : Type} {b : α} {rest : List α} :
    ∀ {data : List α} {i : Nat}, data.drop i = b :: rest →
      data[i]? = some b ∧ data.drop (i + 1) = rest := by
  intro data
  induction data with
  | nil => intro i h; simp at h
  | cons a l ih =>
    intro i h
    cases i with
    | zero =>
      rw [List.drop_zero] at h
      injection h with h1 h2
      subst h1 h2
      exact ⟨List.getElem?_cons_zero, rfl⟩
    | succ i =>
      rw [List.drop_succ_cons] at h
      obtain ⟨e1, e2⟩ := ih h
      exact ⟨by rw [List.getElem?_cons_succ]; exact e1, by rw [List.drop_succ_cons]; exact e2⟩

theorem drop_nil_getElem? {α : Type} {data : List α} {i : Nat}
    (h : data.drop i = []) : data[i]? = none ∧ data.drop (i + 1) = [] := by
  rw [List.drop_eq_nil_iff] at h
  exact ⟨List.getElem?_eq_none h, List.drop_eq_nil_iff.mpr (by omega)⟩

theorem placeCell_sim {n : Nat} (data : List Bool) (col actualRow : Int)
    {st : QRState × Nat} {sa : NState × List Bool} (h : RelP n data st sa) (c : Nat) :
    ORel (RelP n data) (placeCell data col actualRow st c) (placeCellN col actualRow sa c) := by
  simp only [placeCell, placeCellN, Option.bind_eq_bind, readFunction_sim h.1]
  cases readCellN sa.1.moduleCount sa.1.isFunction actualRow (col - (c : Int)) with
  | none => trivial
  | some f =>
    simp only [Option.some_bind]
    split_ifs
    · have h2 := h.2
      cases hr : sa.2 with
      | nil =>
        rw [hr] at h2
        obtain ⟨e1, e2⟩ := drop_nil_getElem? h2.symm
        rw [e1]
        exact ⟨h.1, e2.symm⟩
      | cons b rest =>
        rw [hr] at h2
        obtain ⟨e1, e2⟩ := drop_cons_getElem? h2.symm
        rw [e1]
        exact ORel.map (setModule_sim h.1 _ _ _) (fun s1 a1 h1 => ⟨h1, e2.symm⟩)
    · exact h

theorem placeRow_sim {n : Nat} (data : List Bool) (col : Int) (upward : Bool)
    {st : QRState × Nat} {sa : NState × List Bool} (h : RelP n data st sa) (row : Nat) :
    ORel (RelP n data) (placeRow data col upward st row) (placeRowN col upward sa row) := by
  unfold placeRow placeRowN
  simp only [h.1.mcS, h.1.mcN]
  exact ORel.foldlM _ (fun s1 a1 c _ h1 => placeCell_sim data col _ h1 c) st sa h

theorem placeColumns_sim {n : Nat} (data : List Bool) :
    ∀ (fuel : Nat) (col : Int) (upward : Bool) (st : QRState × Nat) (sa : NState × List Bool),
      RelP n data st sa →
      ORel (RelP n data) (placeColumns data fuel col upward st)
        (placeColumnsN fuel col upward sa) := by
  intro fuel
  induction fuel with
  | zero => intro _ _ _ _ _; trivial
  | succ fuel ih =>
    intro col upward st sa h
    unfold placeColumns placeColumnsN
    by_cases hc : col ≥ 0
    · rw [if_pos hc, if_pos hc]
      simp only [Option.bind_eq_bind, h.1.mcS, h.1.mcN]
      exact ORel.bind (ORel.foldlM _ (fun s1 a1 row _ h1 => placeRow_sim data _ upward h1 row)
        st sa h) (fun s1 a1 h1 => ih _ _ s1 a1 h1)
    · rw [if_neg hc, if_neg hc]
      exact h

theorem placeModules_sim {n : Nat} {s : QRState} {a : NState} (h : Rel n s a)
    (data : List Bool) : ORel (Rel n) (placeModules s data) (placeModulesN a data) := by
  unfold placeModules placeModulesN
  rw [h.mcS, h.mcN]
  exact ORel.map (placeColumns_sim data _ _ _ (s, 0) (a, data) ⟨h, rfl⟩) (fun st sa hh => hh.1)

theorem maskCell_sim {n : Nat} (y : Nat) {s : QRState} {a : NState} (h : Rel n s a) (x : Nat) :
    ORel (Rel n) (maskCell y s x) (maskCellN y a x) := by
  simp only [maskCell, maskCellN, Option.bind_eq_bind, readFunction_sim h, readModules_sim h]
  cases readCellN a.moduleCount a.isFunction y x with
  | none => trivial
  | some f =>
    simp only [Option.some_bind]
    split_ifs
    · cases readCellN a.moduleCount a.modules y x with
      | none => trivial
      | some old =>
        simp only [Option.some_bind]
        obtain ⟨hv, hmc, hwf, hm, hf⟩ := h
        rw [hmc]
        exact ORel.map (writeCell_sim hwf.2.1 hm y x (!old))
          (fun g' G' hg => ⟨hv, rfl, ⟨hwf.1, hg.1, hwf.2.2⟩, hg.2, hf⟩)
    · exact h
    · exact h

theorem applyMask_sim {n : Nat} {s : QRState} {a : NState} (h : Rel n s a) :
    ORel (Rel n) (applyMask s) (applyMaskN a) := by
  unfold applyMask applyMaskN
  rw [h.mcS, h.mcN]
  refine ORel.foldlM _ (fun s1 a1 y _ h1 => ?_) s a h
  rw [h1.mcS, h1.mcN]
  exact ORel.foldlM _ (fun s2 a2 x _ h2 => maskCell_sim y h2 x) s1 a1 h1

theorem sized_blankGrid (n : Nat) : Sized n (blankGrid n) := by
  unfold Sized blankGrid
  refine ⟨List.length_replicate _ _, ?_⟩
  intro row hrow
  rw [List.mem_replicate] at hrow
  rw [hrow.2, List.length_replicate]

theorem readCell_blankGrid (n : Nat) (y x : Int) :
    readCell (blankGrid n) y x = readCellN n 0 y x := by
  by_cases hb : y < 0 ∨ x < 0 ∨ y ≥ n ∨ x ≥ n
  · rw [readCell_none (sized_blankGrid n) hb]
    unfold readCellN
    rw [if_pos hb]
  · unfold readCellN
    rw [if_neg hb, readCell_nonneg _ (by omega) (by omega)]
    unfold blankGrid
    rw [List.getElem?_replicate, if_pos (by omega)]
    simp only [Option.some_bind]
    rw [List.getElem?_replicate, if_pos (by omega), Nat.zero_testBit]

theorem fresh_rel (v : Int) (n : Nat) (hn : 17 + v * 4 = (n : Int)) :
    Rel n (freshState v) (freshN v) := by
  have hn' : (17 + v * 4).toNat = n := by omega
  refine ⟨rfl, hn, ⟨hn, ?_, ?_⟩, ?_, ?_⟩
  · show Sized n (blankGrid (17 + v * 4).toNat)
    rw [hn']; exact sized_blankGrid n
  · show Sized n (blankGrid (17 + v * 4).toNat)
    rw [hn']; exact sized_blankGrid n
  · intro y x
    show readCell (blankGrid (17 + v * 4).toNat) y x = readCellN n 0 y x
    rw [hn']; exact readCell_blankGrid n y x
  · intro y x
    show readCell (blankGrid (17 + v * 4).toNat) y x = readCellN n 0 y x
    rw [hn']; exact readCell_blankGrid n y x

theorem side_of_version (v : Int) (hv : v = 2 ∨ v = 3 ∨ v = 4 ∨ v = 5) :
    ∃ n : Nat, 17 + v * 4 = (n : Int) ∧ n % 2 = 1 ∧ 21 ≤ n := by
  rcases hv with h | h | h | h <;> subst h
  · exact ⟨25, rfl, rfl, by omega⟩
  · exact ⟨29, rfl, rfl, by omega⟩
  · exact ⟨33, rfl, rfl, by omega⟩
  · exact ⟨37, rfl, rfl, by omega⟩

/-- `generateQRCode` for a non-empty text, from any prior state, and its
packed copy. -/
theorem generateQRCode_sim (text : List Nat) (hne : text ≠ [])
    (s : QRState) (n : Nat) (hn : 17 + selectVersion text.length * 4 = (n : Int)) :
    ORel (Rel n) (generateQRCode text s) (generateN text) := by
  unfold generateQRCode generateN
  rw [if_neg hne]
  simp only [Option.bind_eq_bind, initRows_spec, Option.some_bind]
  refine ORel.bind (addPatterns_sim (fresh_rel _ n hn)) (fun sp ap hp => ?_)
  rw [hp.1]
  cases encodeData ap.version text with
  | none => trivial
  | some bits =>
    simp only [Option.some_bind]
    cases addErrorCorrection ap.version bits with
    | none => trivial
    | some stream =>
      simp only [Option.some_bind]
      exact ORel.bind (placeModules_sim hp _) (fun s1 a1 h1 =>
        ORel.bind (addFormatInfo_sim h1) (fun s2 a2 h2 => applyMask_sim h2))

theorem sizedB_of_Sized {n : Nat} {g : Grid} (h : Sized n g) : sizedB n g = true := by
  unfold sizedB
  simp only [Bool.and_eq_true, beq_iff_eq, List.all_eq_true]
  exact h

theorem wfB_of_WF {n : Nat} {s : QRState} (h : WF n s) : wfB n s = true := by
  unfold wfB
  simp only [Bool.and_eq_true, beq_iff_eq]
  exact ⟨⟨h.1, sizedB_of_Sized h.2.1⟩, sizedB_of_Sized h.2.2⟩

theorem finderB_sim {n : Nat} {s : QRState} {a : NState} (h : Rel n s a) :
    finderB s = finderBN a := by
  simp only [finderB, finderBN, readFunction_sim h, readModules_sim h, h.mcS, h.mcN]

theorem timingB_sim {n : Nat} {s : QRState} {a : NState} (h : Rel n s a) :
    timingB s = timingBN a := by
  simp only [timingB, timingBN, readFunction_sim h, readModules_sim h, h.mcS, h.mcN]

theorem formatFreeB_sim {n : Nat} {s : QRState} {a : NState} (h : Rel n s a) :
    formatFreeB s = formatFreeBN a := by
  simp only [formatFreeB, formatFreeBN, readFunction_sim h, h.mcS, h.mcN]

theorem patternB_sim {n : Nat} {v : Int} {s : QRState} {a : NState} (h : Rel n s a) :
    patternB n v s = patternBN v a := by
  unfold patternB baseB patternBN
  rw [wfB_of_WF h.2.2.1, finderB_sim h, timingB_sim h, formatFreeB_sim h, h.1]
  simp

theorem readBackCell_sim {n : Nat} {s : QRState} {a : NState} (h : Rel n s a)
    (col actualRow : Int) (acc : List Bool) (c : Nat) :
    readBackCell s col actualRow acc c = readBackCellN a col actualRow acc c := by
  simp only [readBackCell, readBackCellN, readFunction_sim h, readModules_sim h]

theorem readBackColumns_sim {n : Nat} {s : QRState} {a : NState} (h : Rel n s a) :
    ∀ (fuel : Nat) (col : Int) (upward : Bool) (acc : List Bool),
      readBackColumns s fuel col upward acc = readBackColumnsN a fuel col upward acc := by
  intro fuel
  induction fuel with
  | zero => intro _ _ _; rfl
  | succ fuel ih =>
    intro col upward acc
    unfold readBackColumns readBackColumnsN
    have hfun : (fun (c : Int) (r : Int) => readBackCell s c r) =
        (fun (c : Int) (r : Int) => readBackCellN a c r) := by
      funext c r acc k
      exact readBackCell_sim h c r acc k
    have hf2 : ∀ c r, readBackCell s c r = readBackCellN a c r := fun c r => congrFun (congrFun hfun c) r
    simp only [hf2, h.mcS, h.mcN, ih]

theorem readBack_sim {n : Nat} {s : QRState} {a : NState} (h : Rel n s a) :
    readBack s = readBackN a := by
  unfold readBack readBackN
  rw [h.mcS, h.mcN]
  exact readBackColumns_sim h _ _ _ _

/-- The round trip of a non-empty text can be computed on the packed copy. -/
theorem roundTripB_sim (text : List Nat) (hne : text ≠ [])
    (s : QRState) : roundTripB text s = roundTripBN text := by
  obtain ⟨n, hn, _, _⟩ := side_of_version _ (selectVersion_cases text.length)
  have h := generateQRCode_sim text hne s n hn
  unfold roundTripB roundTripBN
  cases hg : generateQRCode text s with
  | none =>
    rw [hg] at h
    cases hN : generateN text with
    | none => rfl
    | some a => rw [hN] at h; exact h.elim
  | some s' =>
    rw [hg] at h
    obtain ⟨a, hN, hrel⟩ := ORel.of_some_left h
    rw [hN]
    cases combinedStream text with
    | none => rfl
    | some bits =>
      simp only [checkReadBackN]
      rw [readBack_sim hrel]

theorem roundTripBN_eq {text : List Nat} {a : NState} {bits : List Bool}
    (hg : generateN text = some a) (hc : combinedStream text = some bits) :
    roundTripBN text = checkReadBackN a bits := by
  unfold roundTripBN
  rw [hg, hc]

theorem generateN_eq (text : List Nat) {v : Int} {a : NState}
    {bits : List Bool} (hv : selectVersion text.length = v)
    (ha : addPatternsN (freshN v) = some a) (hav : a.version = v)
    (hb : combinedStream text = some bits) :
    generateN text =
      (placeModulesN a bits).bind (fun s => (addFormatInfoN s).bind applyMaskN) := by
  unfold combinedStream at hb
  unfold generateN
  rw [hv] at hb ⊢
  rw [ha]
  simp only [Option.bind_eq_bind, Option.some_bind, hav]
  cases he : encodeData v text with
  | none => rw [he] at hb; simp at hb
  | some bits =>
    rw [he] at hb
    simp only [Option.some_bind] at hb
    simp only [Option.some_bind, hb]

/-- Transfer of a check from the packed copy of the pattern state. -/
theorem patCheck_of_copy {v : Int} {n : Nat} (hn : 17 + v * 4 = (n : Int))
    (h : patCheckN v (patternBN v) = true) : patCheck v (patternB n v) = true := by
  have hs := addPatterns_sim (fresh_rel v n hn)
  unfold patCheckN at h
  unfold patCheck
  cases hN : addPatternsN (freshN v) with
  | none => rw [hN] at h; simp at h
  | some a =>
    rw [hN] at h hs
    obtain ⟨sp, hsp, hrel⟩ := ORel.of_some_right hs
    rw [hsp]
    simp only
    rw [patternB_sim hrel]
    exact h

set_option maxRecDepth 1000000 in
theorem addPatternsN_2 : addPatternsN (freshN 2) = some (patternStateN 2) := by decide!

set_option maxRecDepth 1000000 in
theorem addPatternsN_3 : addPatternsN (freshN 3) = some (patternStateN 3) := by decide!

set_option maxRecDepth 1000000 in
theorem addPatternsN_4 : addPatternsN (freshN 4) = some (patternStateN 4) := by decide!

set_option maxRecDepth 1000000 in
theorem addPatternsN_5 : addPatternsN (freshN 5) = some (patternStateN 5) := by decide!

theorem addPatternsN_eq (v : Int) (hv : v = 2 ∨ v = 3 ∨ v = 4 ∨ v = 5) :
    addPatternsN (freshN v) = some (patternStateN v) := by
  rcases hv with h | h | h | h <;> subst h
  · exact addPatternsN_2
  · exact addPatternsN_3
  · exact addPatternsN_4
  · exact addPatternsN_5

set_option maxRecDepth 1000000 in
theorem addFinderPatternsN_2 : addFinderPatternsN (freshN 2) = some (finderStateN 2) := by
  decide!

set_option maxRecDepth 1000000 in
theorem addFinderPatternsN_3 : addFinderPatternsN (freshN 3) = some (finderStateN 3) := by
  decide!

set_option maxRecDepth 1000000 in
theorem addFinderPatternsN_4 : addFinderPatternsN (freshN 4) = some (finderStateN 4) := by
  decide!

set_option maxRecDepth 1000000 in
theorem addFinderPatternsN_5 : addFinderPatternsN (freshN 5) = some (finderStateN 5) := by
  decide!

set_option maxRecDepth 1000000 in
theorem patternStateN_checks :
    patternBN 2 (patternStateN 2) = true ∧ patternBN 3 (patternStateN 3) = true ∧
      patternBN 4 (patternStateN 4) = true ∧ patternBN 5 (patternStateN 5) = true := by
  decide!

set_option maxRecDepth 1000000 in
theorem combinedStream_A : combinedStream [65] = some streamA := by decide!

set_option maxRecDepth 1000000 in
theorem placeModulesN_A : placeModulesN (patternStateN 2) streamA = some placedA := by decide!

set_option maxRecDepth 1000000 in
theorem addFormatInfoN_A : addFormatInfoN placedA = some formattedA := by decide!

set_option maxRecDepth 1000000 in
theorem applyMaskN_A : applyMaskN formattedA = some symbolA := by decide!

/-! ## The function patterns of versions 2 to 5 -/

theorem patCheckN_of_eq {v : Int} {P : NState → Bool} {a : NState}
    (h : addPatternsN (freshN v) = some a) (hP : P a = true) : patCheckN v P = true := by
  unfold patCheckN
  rw [h]
  exact hP

theorem patterns_2 : patCheck 2 (patternB 25 2) = true :=
  patCheck_of_copy (n := 25) (v := 2) rfl
    (@patCheckN_of_eq 2 (patternBN 2) (patternStateN 2) addPatternsN_2 patternStateN_checks.1)

theorem patterns_3 : patCheck 3 (patternB 29 3) = true :=
  patCheck_of_copy (n := 29) (v := 3) rfl
    (@patCheckN_of_eq 3 (patternBN 3) (patternStateN 3) addPatternsN_3 patternStateN_checks.2.1)

theorem patterns_4 : patCheck 4 (patternB 33 4) = true :=
  patCheck_of_copy (n := 33) (v := 4) rfl
    (@patCheckN_of_eq 4 (patternBN 4) (patternStateN 4) addPatternsN_4 patternStateN_checks.2.2.1)

theorem patterns_5 : patCheck 5 (patternB 37 5) = true :=
  patCheck_of_copy (n := 37) (v := 5) rfl
    (@patCheckN_of_eq 5 (patternBN 5) (patternStateN 5) addPatternsN_5 patternStateN_checks.2.2.2)

/-- Invariant rule for a counting loop in the `Option` monad, the invariant
depending on the counter. -/
theorem foldlM_range_inv {σ : Type} (Inv : Nat → σ → Prop) (f : σ → Nat → Option σ) (n : Nat)
    (step : ∀ i s, i < n → Inv i s → ∃ s', f s i = some s' ∧ Inv (i + 1) s') :
    ∀ s, Inv 0 s → ∃ s', (List.range n).foldlM f s = some s' ∧ Inv n s' := by
  induction n with
  | zero => intro s h; exact ⟨s, rfl, h⟩
  | succ n ih =>
    intro s h
    obtain ⟨s1, h1, h2⟩ := ih (fun i s hi => step i s (by omega)) s h
    obtain ⟨s2, h3, h4⟩ := step n s1 (by omega) h2
    refine ⟨s2, ?_, h4⟩
    rw [List.range_succ, List.foldlM_append, h1]
    simp [h3]

theorem maskCell_law {n : Nat} (s0 : QRState) {y : Nat} (hy : y < n) (s : QRState) (x : Nat)
    (hx : x < n)
    (hinv : s.version = s0.version ∧ WF n s ∧ s.isFunction = s0.isFunction ∧
      ∀ y' x' : Int, 0 ≤ y' → y' < n → 0 ≤ x' → x' < n →
        readCell s.modules y' x' =
          if y' < y ∨ (y' = y ∧ x' < x) then maskLaw s0 y' x' else readCell s0.modules y' x') :
    ∃ s', maskCell y s x = some s' ∧
      s'.version = s0.version ∧ WF n s' ∧ s'.isFunction = s0.isFunction ∧
      ∀ y' x' : Int, 0 ≤ y' → y' < n → 0 ≤ x' → x' < n →
        readCell s'.modules y' x' =
          if y' < y ∨ (y' = y ∧ x' < (x + 1 : Nat)) then maskLaw s0 y' x'
          else readCell s0.modules y' x' := by
  obtain ⟨hv, hwf, hfun, hcells⟩ := hinv
  have hyi : 0 ≤ (y : Int) ∧ (y : Int) < n := by omega
  have hxi : 0 ≤ (x : Int) ∧ (x : Int) < n := by omega
  obtain ⟨f, hf⟩ := readCell_some hwf.2.2 hyi hxi
  obtain ⟨old, hold⟩ := readCell_some hwf.2.1 hyi hxi
  have hold0 : readCell s0.modules y x = some old := by
    rw [← hold, hcells y x hyi.1 hyi.2 hxi.1 hxi.2, if_neg (by omega)]
  have hf0 : readCell s0.isFunction y x = some f := by rw [← hfun]; exact hf
  have hlaw : maskLaw s0 y x = some (if f then old else xor old (decide (((x : Int) + y) % 2 = 0))) := by
    unfold maskLaw
    rw [hf0, hold0]
    rfl
  -- the state stays when the cell is marked or the parity is odd
  have hstay : (f = true ∨ ¬ (x + y) % 2 = 0) →
      ∀ y' x' : Int, 0 ≤ y' → y' < n → 0 ≤ x' → x' < n →
        readCell s.modules y' x' =
          if y' < y ∨ (y' = y ∧ x' < (x + 1 : Nat)) then maskLaw s0 y' x'
          else readCell s0.modules y' x' := by
    intro hcase y' x' h1 h2 h3 h4
    by_cases hc : y' = y ∧ x' = x
    · obtain ⟨rfl, rfl⟩ := hc
      rw [if_pos (by omega), hlaw, hold]
      rcases hcase with hcase | hcase
      · rw [hcase]; rfl
      · have hp : ¬ ((x : Int) + y) % 2 = 0 := by omega
        cases f <;> simp [hp]
    · rw [hcells y' x' h1 h2 h3 h4]
      have : (y' < y ∨ (y' = y ∧ x' < (x + 1 : Nat))) ↔ (y' < y ∨ (y' = y ∧ x' < x)) := by
        constructor <;> intro h <;> omega
      simp only [this]
  unfold maskCell
  simp only [hf, Option.bind_eq_bind, Option.some_bind]
  cases f with
  | true => exact ⟨s, by simp, hv, hwf, hfun, hstay (Or.inl rfl)⟩
  | false =>
    by_cases hp : (x + y) % 2 = 0
    · obtain ⟨g', h1, h2, h3⟩ := writeCell_spec hwf.2.1 hyi hxi (!old)
      refine ⟨{ s with modules := g' }, by simp [hp, hold, h1], hv, ⟨hwf.1, h2, hwf.2.2⟩, hfun, ?_⟩
      intro y' x' h5 h6 h7 h8
      show readCell g' y' x' = _
      rw [h3 y' x']
      by_cases hc : y' = y ∧ x' = x
      · obtain ⟨rfl, rfl⟩ := hc
        rw [if_pos ⟨rfl, rfl⟩, if_pos (by omega), hlaw]
        have hpi : ((x : Int) + y) % 2 = 0 := by omega
        simp [hpi]
      · rw [if_neg hc, hcells y' x' h5 h6 h7 h8]
        have : (y' < y ∨ (y' = y ∧ x' < (x + 1 : Nat))) ↔ (y' < y ∨ (y' = y ∧ x' < x)) := by
          constructor <;> intro h <;> omega
        simp only [this]
    · exact ⟨s, by simp [hp], hv, hwf, hfun, hstay (Or.inr hp)⟩

/-- `applyMask` on two `n` by `n` grids returns, keeps the version, the sizes
and the marks, and leaves in every cell the value of the mask law. -/
theorem applyMask_law {n : Nat} {s : QRState} (h : WF n s) :
    ∃ s', applyMask s = some s' ∧ s'.version = s.version ∧ WF n s' ∧
      s'.isFunction = s.isFunction ∧
      ∀ y x : Int, 0 ≤ y → y < n → 0 ≤ x → x < n →
        readCell s'.modules y x = maskLaw s y x := by
  unfold applyMask
  have hmc : s.moduleCount = (n : Int) := h.1
  rw [hmc, Int.toNat_ofNat]
  obtain ⟨s', h1, hv, hwf, hfun, hcells⟩ := foldlM_range_inv
    (fun y s' => s'.version = s.version ∧ WF n s' ∧ s'.isFunction = s.isFunction ∧
      ∀ y' x' : Int, 0 ≤ y' → y' < n → 0 ≤ x' → x' < n →
        readCell s'.modules y' x' =
          if y' < y then maskLaw s y' x' else readCell s.modules y' x')
    (fun s y => (List.range s.moduleCount.toNat).foldlM (maskCell y) s) n
    (fun y s1 hy hi1 => by
      have hmc1 : s1.moduleCount = (n : Int) := hi1.2.1.1
      simp only [hmc1, Int.toNat_ofNat]
      obtain ⟨s2, h2, hv2, hwf2, hfun2, hc2⟩ := foldlM_range_inv
        (fun x s' => s'.version = s.version ∧ WF n s' ∧ s'.isFunction = s.isFunction ∧
          ∀ y' x' : Int, 0 ≤ y' → y' < n → 0 ≤ x' → x' < n →
            readCell s'.modules y' x' =
              if y' < y ∨ (y' = y ∧ x' < x) then maskLaw s y' x' else readCell s.modules y' x')
        (maskCell y) n
        (fun x s2 hx hi2 => maskCell_law s hy s2 x hx hi2) s1
        ⟨hi1.1, hi1.2.1, hi1.2.2.1, fun y' x' a b c d => by
          rw [hi1.2.2.2 y' x' a b c d]
          have : (y' < (y : Int) ∨ (y' = y ∧ x' < ((0 : Nat) : Int))) ↔ y' < (y : Int) := by
            constructor <;> intro h <;> omega
          simp only [this]⟩
      refine ⟨s2, h2, hv2, hwf2, hfun2, fun y' x' a b c d => ?_⟩
      rw [hc2 y' x' a b c d]
      have : (y' < (y : Int) ∨ (y' = y ∧ x' < (n : Int))) ↔ y' < ((y + 1 : Nat) : Int) := by
        constructor <;> intro h <;> omega
      simp only [this])
    s ⟨rfl, h, rfl, fun y' x' a _ _ _ => by rw [if_neg (by omega)]⟩
  refine ⟨s', h1, hv, hwf, hfun, fun y x a b c d => ?_⟩
  rw [hcells y x a b c d, if_pos b]

/-! ## `placeModules` as a loop over a list of cells -/

theorem foldlM_flatMap {σ α β : Type} (f : σ → β → Option σ) (g : α → List β) :
    ∀ (l : List α) (s : σ),
      (l.flatMap g).foldlM f s = l.foldlM (fun s a => (g a).foldlM f s) s := by
  intro l
  induction l with
  | nil => intro s; rfl
  | cons a l ih =>
    intro s
    rw [List.flatMap_cons, List.foldlM_append, List.foldlM_cons]
    cases (g a).foldlM f s with
    | none => rfl
    | some s' => exact ih s'

theorem foldlM_map_list {σ α β : Type} (f : σ → β → Option σ) (h : α → β) :
    ∀ (l : List α) (s : σ), (l.map h).foldlM f s = l.foldlM (fun s a => f s (h a)) s := by
  intro l
  induction l with
  | nil => intro s; rfl
  | cons a l ih =>
    intro s
    rw [List.map_cons, List.foldlM_cons, List.foldlM_cons]
    cases f s (h a) with
    | none => rfl
    | some s' => exact ih s'

/-- Two loop bodies that agree on the states of an invariant give the same
loop. -/
theorem foldlM_congr_inv {σ α : Type} (Inv : σ → Prop) (f g : σ → α → Option σ)
    (hfg : ∀ s a, Inv s → f s a = g s a)
    (hpres : ∀ s a s', Inv s → g s a = some s' → Inv s') :
    ∀ (l : List α) (s : σ), Inv s → l.foldlM f s = l.foldlM g s := by
  intro l
  induction l with
  | nil => intro s _; rfl
  | cons a l ih =>
    intro s hs
    rw [List.foldlM_cons, List.foldlM_cons, hfg s a hs]
    cases hg : g s a with
    | none => rfl
    | some s' => exact ih s' (hpres s a s' hs hg)

theorem foldlM_pres {σ α : Type} (Inv : σ → Prop) (g : σ → α → Option σ)
    (hpres : ∀ s a s', Inv s → g s a = some s' → Inv s') :
    ∀ (l : List α) (s s' : σ), Inv s → l.foldlM g s = some s' → Inv s' := by
  intro l
  induction l with
  | nil =>
    intro s s' hs h
    injection h with h
    rw [← h]; exact hs
  | cons a l ih =>
    intro s s' hs h
    rw [List.foldlM_cons] at h
    cases hg : g s a with
    | none => rw [hg] at h; simp at h
    | some s1 =>
      rw [hg] at h
      exact ih s1 s' (hpres s a s1 hs hg) h

theorem setModule_moduleCount {s s' : QRState} {x y : Int} {b : Bool}
    (h : setModule s x y b = some s') : s'.moduleCount = s.moduleCount := by
  unfold setModule at h
  split at h
  · cases hw : writeCell s.modules y x b with
    | none => rw [hw] at h; simp at h
    | some m =>
      rw [hw] at h
      simp only [Option.map_some', Option.some.injEq] at h
      rw [← h]
  · injection h with h
    rw [h]

theorem placeCell_moduleCount {data : List Bool} {col row : Int} {st st' : QRState × Nat}
    {c : Nat} (h : placeCell data col row st c = some st') :
    st'.1.moduleCount = st.1.moduleCount := by
  unfold placeCell at h
  dsimp only at h
  cases hf : readCell st.1.isFunction row (col - (c : Int)) with
  | none => rw [hf] at h; simp at h
  | some f =>
    rw [hf] at h
    simp only [Option.bind_eq_bind, Option.some_bind] at h
    cases f with
    | true =>
      simp only [Bool.not_true, Bool.false_eq_true, if_false, Option.some.injEq] at h
      rw [← h]
    | false =>
      simp only [Bool.not_false, if_true] at h
      cases hd : data[st.2]? with
      | none =>
        rw [hd] at h
        simp only [Option.some.injEq] at h
        rw [← h]
      | some b =>
        rw [hd] at h
        dsimp only at h
        cases hs : setModule st.1 (col - (c : Int)) row b with
        | none => rw [hs] at h; simp at h
        | some s1 =>
          rw [hs] at h
          simp only [Option.map_some', Option.some.injEq] at h
          rw [← h]
          exact setModule_moduleCount hs

theorem placeCell_one (data : List Bool) (col row : Int) (st : QRState × Nat) :
    placeCell data col row st 1 = placeCell data (col - 1) row st 0 := by
  unfold placeCell
  simp only [Nat.cast_one, Nat.cast_zero, Int.sub_zero]

theorem placeRow_eq (data : List Bool) (col : Int) (upward : Bool) (st : QRState × Nat)
    (row : Nat) :
    placeRow data col upward st row =
      [(col, if upward then st.1.moduleCount - 1 - (row : Int) else (row : Int)),
        (col - 1, if upward then st.1.moduleCount - 1 - (row : Int) else (row : Int))].foldlM
        (placeAt data) st := by
  unfold placeRow placeAt
  simp only [List.foldlM_cons, List.foldlM_nil, placeCell_one]

theorem placeAt_moduleCount {data : List Bool} {c : Int × Int} {st st' : QRState × Nat}
    (h : placeAt data st c = some st') : st'.1.moduleCount = st.1.moduleCount :=
  placeCell_moduleCount h

theorem placeAt_pres (n : Nat) (data : List Bool) (st : QRState × Nat) (c : Int × Int)
    (st' : QRState × Nat) (hs : st.1.moduleCount = (n : Int))
    (h : placeAt data st c = some st') : st'.1.moduleCount = (n : Int) := by
  rw [placeAt_moduleCount h]
  exact hs

theorem placeAlong_pres (n : Nat) (data : List Bool) (cells : List (Int × Int))
    (st st' : QRState × Nat) (hs : st.1.moduleCount = (n : Int))
    (h : cells.foldlM (placeAt data) st = some st') : st'.1.moduleCount = (n : Int) :=
  foldlM_pres (fun st' => st'.1.moduleCount = (n : Int)) (placeAt data)
    (placeAt_pres n data) cells st st' hs h

/-- One column pair of `placeModules` is the loop over the cells of the pair
in the zig-zag order. -/
theorem placeRows_eq {n : Nat} (data : List Bool) (col : Int) (upward : Bool)
    (st : QRState × Nat) (hmc : st.1.moduleCount = (n : Int)) :
    (List.range st.1.moduleCount.toNat).foldlM (placeRow data col upward) st =
      ((zigzagRows n upward).flatMap (fun row => [(col, row), (col - 1, row)])).foldlM
        (placeAt data) st := by
  rw [foldlM_flatMap]
  unfold zigzagRows
  rw [foldlM_map_list, hmc, Int.toNat_ofNat]
  apply foldlM_congr_inv (fun st' => st'.1.moduleCount = (n : Int))
  · intro st' row h'
    rw [placeRow_eq, h']
  · intro st1 row st2 h1 h2
    exact placeAlong_pres n data _ st1 st2 h1 h2
  · exact hmc

theorem placeColumns_eq {n : Nat} (data : List Bool) :
    ∀ (fuel : Nat) (col : Int) (upward : Bool) (st : QRState × Nat),
      st.1.moduleCount = (n : Int) → -2 ≤ col → col + 3 ≤ 2 * (fuel : Int) →
      placeColumns data fuel col upward st =
        (zigzagFrom n (loopColumns fuel col) upward).foldlM (placeAt data) st := by
  intro fuel
  induction fuel with
  | zero => intro col _ _ _ h1 h2; omega
  | succ fuel ih =>
    intro col upward st hmc h1 h2
    unfold placeColumns loopColumns
    by_cases hc : col ≥ 0
    · rw [if_pos hc, if_pos hc]
      simp only [Option.bind_eq_bind]
      rw [placeRows_eq data _ upward st hmc]
      unfold zigzagFrom
      rw [List.foldlM_append]
      cases hr : ((zigzagRows n upward).flatMap
          (fun row => [(if col = 6 then 5 else col, row),
            ((if col = 6 then 5 else col) - 1, row)])).foldlM (placeAt data) st with
      | none => rfl
      | some st1 =>
        have hmc1 : st1.1.moduleCount = (n : Int) := placeAlong_pres n data _ st st1 hmc hr
        exact ih _ (!upward) st1 hmc1 (by split <;> omega) (by split <;> omega)
    · rw [if_neg hc, if_neg hc]
      rfl

/-! ## The columns and cells of the zig-zag order -/

theorem loopColumns_six (fuel : Nat) (h : 4 ≤ fuel) : loopColumns fuel 6 = [5, 3, 1] := by
  obtain ⟨f, rfl⟩ : ∃ f, fuel = f + 4 := ⟨fuel - 4, by omega⟩
  simp [loopColumns]

theorem loopColumns_even (m : Nat) :
    ∀ fuel : Nat, m + 5 ≤ fuel →
      loopColumns fuel (8 + 2 * (m : Int)) =
        (List.range (m + 1)).map (fun (k : Nat) => 8 + 2 * (m : Int) - 2 * (k : Int)) ++
          [5, 3, 1] := by
  induction m with
  | zero =>
    intro fuel h
    obtain ⟨f, rfl⟩ : ∃ f, fuel = f + 1 := ⟨fuel - 1, by omega⟩
    unfold loopColumns
    simp only [Nat.cast_zero, Int.mul_zero, Int.add_zero]
    rw [if_pos (by omega), if_neg (by omega), show (8 : Int) - 2 = 6 from rfl,
      loopColumns_six f (by omega)]
    rfl
  | succ m ih =>
    intro fuel h
    obtain ⟨f, rfl⟩ : ∃ f, fuel = f + 1 := ⟨fuel - 1, by omega⟩
    unfold loopColumns
    rw [if_pos (by omega), if_neg (by omega)]
    have e : 8 + 2 * ((m + 1 : Nat) : Int) - 2 = 8 + 2 * (m : Int) := by omega
    have hR : (List.range (m + 1 + 1)).map
          (fun (k : Nat) => 8 + 2 * ((m + 1 : Nat) : Int) - 2 * (k : Int)) =
        (8 + 2 * ((m + 1 : Nat) : Int)) ::
          (List.range (m + 1)).map (fun (k : Nat) => 8 + 2 * (m : Int) - 2 * (k : Int)) := by
      rw [List.range_succ_eq_map, List.map_cons, List.map_map]
      congr 1
      apply List.map_congr_left
      intro k _
      simp only [Function.comp_apply, Nat.succ_eq_add_one]
      omega
    rw [e, ih f (by omega), hR]
    rfl

/-- On an odd side `n ≥ 9` the loop of `placeModules` takes the column pairs
of the specification. -/
theorem loopColumns_eq (n : Nat) (hodd : n % 2 = 1) (h9 : 9 ≤ n) :
    loopColumns (n + 1) ((n : Int) - 1) = zigzagColumns n := by
  obtain ⟨m, rfl⟩ : ∃ m, n = 2 * m + 9 := ⟨(n - 9) / 2, by omega⟩
  have e : ((2 * m + 9 : Nat) : Int) - 1 = 8 + 2 * (m : Int) := by omega
  rw [e, loopColumns_even m _ (by omega)]
  unfold zigzagColumns
  have e2 : (2 * m + 9 - 7) / 2 = m + 1 := by omega
  rw [e2]
  congr 1
  apply List.map_congr_left
  intro k _
  omega

theorem colOK_next {col : Int} (h : colOK col) (hc : col ≥ 0) :
    colOK ((if col = 6 then 5 else col) - 2) ∧ 1 ≤ (if col = 6 then 5 else col) ∧
      (if col = 6 then 5 else col) ≤ col ∧ (if col = 6 then 5 else col) ≠ 6 ∧
      (if col = 6 then 5 else col) ≠ 7 := by
  unfold colOK at h ⊢
  split <;> omega

theorem mem_zigzagRows {n : Nat} {upward : Bool} {row : Int} (h : row ∈ zigzagRows n upward) :
    0 ≤ row ∧ row < n := by
  unfold zigzagRows at h
  rw [List.mem_map] at h
  obtain ⟨r, hr, rfl⟩ := h
  rw [List.mem_range] at hr
  split <;> omega

theorem nodup_zigzagRows (n : Nat) (upward : Bool) : (zigzagRows n upward).Nodup := by
  unfold zigzagRows
  apply List.Nodup.map _ (List.nodup_range n)
  intro a b h
  simp only at h
  split at h <;> omega

theorem mem_pairCells {col : Int} {rows : List Int} {c : Int × Int}
    (h : c ∈ rows.flatMap (fun row => [(col, row), (col - 1, row)])) :
    (c.1 = col ∨ c.1 = col - 1) ∧ c.2 ∈ rows := by
  rw [List.mem_flatMap] at h
  obtain ⟨row, hrow, hc⟩ := h
  simp only [List.mem_cons, List.mem_singleton, List.not_mem_nil, or_false] at hc
  rcases hc with rfl | rfl
  · exact ⟨Or.inl rfl, hrow⟩
  · exact ⟨Or.inr rfl, hrow⟩

theorem nodup_pairCells (col : Int) {rows : List Int} (h : rows.Nodup) :
    (rows.flatMap (fun row => [(col, row), (col - 1, row)])).Nodup := by
  rw [List.nodup_flatMap]
  constructor
  · intro row _
    simp only [List.nodup_cons, List.mem_singleton, Prod.mk.injEq, List.not_mem_nil,
      not_false_eq_true, List.nodup_nil, and_true]
    omega
  · apply List.Pairwise.imp _ h
    intro a b hab
    simp only [Function.onFun, List.disjoint_cons_left, List.mem_cons, Prod.mk.injEq,
      List.mem_singleton, List.not_mem_nil, or_false, List.disjoint_nil_left, and_true]
    omega

/-- The cells that the loop of `placeModules` visits from a column on: no cell
twice, each inside the grid, none in column 6. -/
theorem zigzagFrom_loop (n : Nat) :
    ∀ (fuel : Nat) (col : Int) (upward : Bool), colOK col → col < n →
      (zigzagFrom n (loopColumns fuel col) upward).Nodup ∧
        ∀ c ∈ zigzagFrom n (loopColumns fuel col) upward,
          c.1 ≤ col ∧ 0 ≤ c.1 ∧ c.1 ≠ 6 ∧ 0 ≤ c.2 ∧ c.2 < n := by
  intro fuel
  induction fuel with
  | zero =>
    intro col upward _ _
    unfold loopColumns zigzagFrom
    exact ⟨List.nodup_nil, fun c hc => by simp at hc⟩
  | succ fuel ih =>
    intro col upward hok hlt
    unfold loopColumns
    by_cases hc : col ≥ 0
    · rw [if_pos hc]
      obtain ⟨hnext, h1, h2, h3, h4⟩ := colOK_next hok hc
      generalize (if col = 6 then 5 else col) = col1 at hnext h1 h2 h3 h4
      obtain ⟨ihn, ihm⟩ := ih (col1 - 2) (!upward) hnext (by omega)
      unfold zigzagFrom
      constructor
      · rw [List.nodup_append]
        refine ⟨nodup_pairCells col1 (nodup_zigzagRows n upward), ihn, ?_⟩
        intro c hc1 hc2
        have := (mem_pairCells hc1).1
        have := (ihm c hc2).1
        omega
      · intro c hcm
        rw [List.mem_append] at hcm
        rcases hcm with hcm | hcm
        · obtain ⟨hx, hy⟩ := mem_pairCells hcm
          have := mem_zigzagRows hy
          omega
        · have := ihm c hcm
          omega
    · rw [if_neg hc]
      unfold zigzagFrom
      exact ⟨List.nodup_nil, fun c hc => by simp at hc⟩

/-- The zig-zag order on an odd side `n ≥ 9`: no cell twice, each inside the
grid, none in column 6. -/
theorem zigzagOrder_cells (n : Nat) (hodd : n % 2 = 1) (h9 : 9 ≤ n) :
    (zigzagOrder n).Nodup ∧
      ∀ c ∈ zigzagOrder n, 0 ≤ c.1 ∧ c.1 < n ∧ c.1 ≠ 6 ∧ 0 ≤ c.2 ∧ c.2 < n := by
  unfold zigzagOrder
  rw [← loopColumns_eq n hodd h9]
  obtain ⟨h1, h2⟩ := zigzagFrom_loop n (n + 1) ((n : Int) - 1) true
    (by unfold colOK; omega) (by omega)
  refine ⟨h1, fun c hc => ?_⟩
  have := h2 c hc
  omega

/-! ## What the placement writes -/

theorem placeAt_spec {n : Nat} {s : QRState} (hwf : WF n s) (data : List Bool) (i : Nat)
    (c : Int × Int) (hx : 0 ≤ c.1 ∧ c.1 < n) (hy : 0 ≤ c.2 ∧ c.2 < n) :
    ∃ s', placeAt data (s, i) c =
        some (s', if readCell s.isFunction c.2 c.1 = some false then i + 1 else i) ∧
      s'.version = s.version ∧ WF n s' ∧ s'.isFunction = s.isFunction ∧
      ∀ y x : Int, readCell s'.modules y x =
        if y = c.2 ∧ x = c.1 ∧ readCell s.isFunction c.2 c.1 = some false then
          (data[i]?).or (readCell s.modules y x)
        else readCell s.modules y x := by
  obtain ⟨f, hf⟩ := readCell_some hwf.2.2 hy hx
  unfold placeAt placeCell
  simp only [Nat.cast_zero, Int.sub_zero, hf, Option.bind_eq_bind, Option.some_bind]
  cases f with
  | true =>
    refine ⟨s, by simp, rfl, hwf, rfl, fun y x => ?_⟩
    rw [if_neg (by simp)]
  | false =>
    simp only [Bool.not_false, if_true]
    cases hd : data[i]? with
    | none =>
      refine ⟨s, by simp, rfl, hwf, rfl, fun y x => ?_⟩
      simp
    | some b =>
      obtain ⟨s', h1, h2, h3, h4, h5⟩ := setModule_spec hwf c.1 c.2 b
      refine ⟨s', by simp [h1], h2, h3, h4, fun y x => ?_⟩
      rw [h5 y x]
      by_cases hc : y = c.2 ∧ x = c.1
      · rw [if_pos ⟨hc.1, hc.2, hx.1, hx.2, hy.1, hy.2⟩, if_pos ⟨hc.1, hc.2, trivial⟩]
        rfl
      · rw [if_neg (fun h => hc ⟨h.1, h.2.1⟩), if_neg (fun h => hc ⟨h.1, h.2.1⟩)]

theorem mem_freeCells {f : Grid} {cells : List (Int × Int)} {c : Int × Int} :
    c ∈ freeCells f cells ↔ c ∈ cells ∧ readCell f c.2 c.1 = some false := by
  unfold freeCells
  rw [List.mem_filter, beq_iff_eq]

/-- The loop of `placeModules` over a list of distinct cells of the grid:
bit `i + k` of the stream goes to the `k`-th cell that is not marked, the
cells after the end of the stream and all other cells keep their module, and
the marks stay. -/
theorem placeAlong_spec {n : Nat} (data : List Bool) :
    ∀ (cells : List (Int × Int)), cells.Nodup →
      (∀ c ∈ cells, 0 ≤ c.1 ∧ c.1 < n ∧ 0 ≤ c.2 ∧ c.2 < n) →
      ∀ (s : QRState) (i : Nat), WF n s →
        ∃ s', cells.foldlM (placeAt data) (s, i) =
            some (s', i + (freeCells s.isFunction cells).length) ∧
          s'.version = s.version ∧ WF n s' ∧ s'.isFunction = s.isFunction ∧
          (∀ (k : Nat) (c : Int × Int), (freeCells s.isFunction cells)[k]? = some c →
            readCell s'.modules c.2 c.1 = (data[i + k]?).or (readCell s.modules c.2 c.1)) ∧
          (∀ y x : Int, (x, y) ∉ freeCells s.isFunction cells →
            readCell s'.modules y x = readCell s.modules y x) := by
  intro cells
  induction cells with
  | nil =>
    intro _ _ s i hwf
    exact ⟨s, rfl, rfl, hwf, rfl, fun k c hk => by simp [freeCells] at hk, fun _ _ _ => rfl⟩
  | cons c rest ih =>
    intro hnd hin s i hwf
    rw [List.nodup_cons] at hnd
    obtain ⟨hc1, hc2, hc3, hc4⟩ := hin c (by simp)
    obtain ⟨s1, h1, hv1, hwf1, hf1, hm1⟩ := placeAt_spec hwf data i c ⟨hc1, hc2⟩ ⟨hc3, hc4⟩
    obtain ⟨s', h2, hv2, hwf2, hf2, ha, hb⟩ := ih hnd.2 (fun c' hc' => hin c' (by simp [hc']))
      s1 (if readCell s.isFunction c.2 c.1 = some false then i + 1 else i) hwf1
    rw [hf1] at h2 ha hb
    have hcr : c ∉ freeCells s.isFunction rest := fun h => hnd.1 (mem_freeCells.mp h).1
    by_cases hfree : readCell s.isFunction c.2 c.1 = some false
    · have hfc : freeCells s.isFunction (c :: rest) = c :: freeCells s.isFunction rest := by
        unfold freeCells
        rw [List.filter_cons, if_pos (by rw [beq_iff_eq]; exact hfree)]
      rw [if_pos hfree] at h1 h2 ha
      refine ⟨s', ?_, hv2.trans hv1, hwf2, hf2.trans hf1, ?_, ?_⟩
      · rw [List.foldlM_cons, h1, hfc, List.length_cons]
        simp only [Option.some_bind, Option.bind_eq_bind]
        rw [h2]
        congr 2
        omega
      · intro k c' hk
        rw [hfc] at hk
        cases k with
        | zero =>
          rw [List.getElem?_cons_zero] at hk
          injection hk with hk
          subst hk
          rw [hb c.2 c.1 hcr, hm1 c.2 c.1, if_pos ⟨rfl, rfl, hfree⟩]
          rfl
        | succ k =>
          rw [List.getElem?_cons_succ] at hk
          have hne : ¬ (c'.2 = c.2 ∧ c'.1 = c.1 ∧ readCell s.isFunction c.2 c.1 = some false) := by
            intro h
            have hmem := List.getElem?_mem hk
            have hcc : c' = c := Prod.ext h.2.1 h.1
            rw [hcc] at hmem
            exact hcr hmem
          rw [ha k c' hk, hm1 c'.2 c'.1, if_neg hne]
          congr 2
          omega
      · intro y x hnot
        rw [hfc, List.mem_cons, not_or] at hnot
        rw [hb y x hnot.2, hm1 y x, if_neg]
        intro h
        exact hnot.1 (Prod.ext h.2.1 h.1)
    · have hfc : freeCells s.isFunction (c :: rest) = freeCells s.isFunction rest := by
        unfold freeCells
        rw [List.filter_cons, if_neg (by rw [beq_iff_eq]; exact hfree)]
      rw [if_neg hfree] at h1 h2 ha
      have hm1' : ∀ y x : Int, readCell s1.modules y x = readCell s.modules y x := by
        intro y x
        rw [hm1 y x, if_neg (fun h => hfree h.2.2)]
      refine ⟨s', ?_, hv2.trans hv1, hwf2, hf2.trans hf1, ?_, ?_⟩
      · rw [List.foldlM_cons, h1, hfc]
        simp only [Option.some_bind, Option.bind_eq_bind]
        exact h2
      · intro k c' hk
        rw [hfc] at hk
        rw [ha k c' hk, hm1']
      · intro y x hnot
        rw [hfc] at hnot
        rw [hb y x hnot, hm1']

/-- `placeModules` on a grid of odd side `n ≥ 9` returns and leaves the marks
alone; bit `k` of the stream is in the `k`-th cell of the zig-zag order that
is not marked, and every other cell keeps its module. -/
theorem placeModules_zigzag {n : Nat} {s : QRState} (hwf : WF n s) (hodd : n % 2 = 1)
    (h9 : 9 ≤ n) (data : List Bool) :
    ∃ s', placeModules s data = some s' ∧ s'.version = s.version ∧ WF n s' ∧
      s'.isFunction = s.isFunction ∧
      (∀ (k : Nat) (c : Int × Int), (freeCells s.isFunction (zigzagOrder n))[k]? = some c →
        readCell s'.modules c.2 c.1 = (data[k]?).or (readCell s.modules c.2 c.1)) ∧
      (∀ y x : Int, (x, y) ∉ freeCells s.isFunction (zigzagOrder n) →
        readCell s'.modules y x = readCell s.modules y x) := by
  obtain ⟨hnd, hin⟩ := zigzagOrder_cells n hodd h9
  obtain ⟨s', h1, hv, hwf', hf, ha, hb⟩ := placeAlong_spec (n := n) data (zigzagOrder n) hnd
    (fun c hc => by have := hin c hc; omega) s 0 hwf
  refine ⟨s', ?_, hv, hwf', hf, ?_, hb⟩
  · unfold placeModules
    rw [hwf.1, Int.toNat_ofNat, placeColumns_eq (n := n) data _ _ _ _ hwf.1 (by omega) (by omega),
      loopColumns_eq n hodd h9]
    show Option.map _ ((zigzagOrder n).foldlM (placeAt data) (s, 0)) = _
    rw [h1]
    rfl
  · intro k c hk
    have := ha k c hk
    rw [Nat.zero_add] at this
    exact this

/-! ## The stream of `encodeData` for every text -/

theorem capacityOf_mod (version : Int) : capacityOf version % 8 = 0 := by
  unfold capacityOf
  split_ifs <;> rfl

/-- The whole stream of a text that does not fit: header and payload in full,
then four zero bits up to the byte boundary; no terminator of its own and no
pad byte. -/
theorem encodeData_oversize (version : Int) (utf8 : List Nat)
    (h : capacityOf version < 16 + 8 * utf8.length) :
    encodeData version utf8 = some (headerBits utf8 ++ List.replicate 4 false) := by
  have hcap := capacityOf_mod version
  unfold encodeData
  simp only [payload_foldl]
  have hh : [false, true, false, false] ++ byteBits utf8.length ++
      utf8.flatMap (fun byte => byteBits (byte % 256)) = headerBits utf8 := rfl
  rw [hh]
  have hlen := headerBits_length utf8
  have hT : (min 4 ((capacityOf version : Int) - ((headerBits utf8).length : Int))).toNat = 0 := by
    rw [hlen]; omega
  rw [hT]
  simp only [List.replicate_zero, List.append_nil]
  rw [padToByte_spec 8 _ (by omega)]
  have hr : (8 - (headerBits utf8).length % 8) % 8 = 4 := by
    rw [hlen]; omega
  rw [hr]
  simp only [Option.bind_eq_bind, Option.some_bind]
  unfold padBytes
  rw [if_neg]
  simp only [List.length_append, List.length_replicate, hlen]
  omega

/-- The stream of `encodeData` for every text, in the version that
`selectVersion` gives: nothing of header and payload is dropped, and the
length is the larger of the capacity and `16 + 8 n`. -/
theorem encodeData_total (text : List Nat) :
    ∃ k, encodeData (selectVersion text.length) text =
        some (headerBits text ++ List.replicate 4 false ++ padSeq true k) ∧
      (headerBits text ++ List.replicate 4 false ++ padSeq true k).length =
        max (capacityOf (selectVersion text.length)) (16 + 8 * text.length) := by
  by_cases hfit : 16 + 8 * text.length ≤ capacityOf (selectVersion text.length)
  · have hcap := capacityOf_mod (selectVersion text.length)
    refine ⟨(capacityOf (selectVersion text.length) - (16 + 8 * text.length)) / 8, ?_, ?_⟩
    · exact encodeData_fitting _ _ _ (by omega)
    · simp only [List.length_append, List.length_replicate, headerBits_length, padSeq_length]
      omega
  · refine ⟨0, ?_, ?_⟩
    · rw [encodeData_oversize _ _ (by omega)]
      simp [padSeq]
    · simp only [List.length_append, List.length_replicate, headerBits_length, padSeq_length]
      omega

theorem capacity_fits_iff (n : Nat) :
    (n ≤ 106 → 16 + 8 * n ≤ capacityOf (selectVersion n)) ∧
      (107 ≤ n → capacityOf (selectVersion n) = 864) := by
  unfold selectVersion capacityOf
  constructor <;> intro h <;> split_ifs <;> omega

/-! ## `addErrorCorrection` and the combined stream -/

theorem ecc_foldl (ecc : List Nat) (init : List Bool) :
    ecc.foldl (fun acc byte => acc ++ byteBits byte) init = init ++ ecc.flatMap byteBits := by
  induction ecc generalizing init with
  | nil => simp
  | cons b rest ih => simp [ih, List.flatMap_cons, List.append_assoc]

theorem byteFold_lt (l : List Bool) :
    ∀ (acc m : Nat), acc < 2 ^ m →
      l.foldl (fun byte b => (byte <<< 1) ||| (if b then 1 else 0)) acc < 2 ^ (m + l.length) := by
  induction l with
  | nil => intro acc m h; simpa using h
  | cons b l ih =>
    intro acc m h
    rw [List.foldl_cons, List.length_cons, ← Nat.add_assoc, Nat.add_right_comm]
    apply ih
    apply Nat.or_lt_two_pow
    · rw [Nat.shiftLeft_eq, Nat.pow_succ]
      omega
    · have : 1 < 2 ^ (m + 1) := Nat.one_lt_two_pow (by omega)
      split <;> omega

theorem byteAt_lt (bits : List Bool) (i : Nat) : byteAt bits i < 256 := by
  unfold byteAt
  have h := byteFold_lt ((bits.drop i).take 8) 0 0 (by decide)
  have hl : ((bits.drop i).take 8).length ≤ 8 := by
    rw [List.length_take]; omega
  calc _ < 2 ^ (0 + ((bits.drop i).take 8).length) := h
    _ ≤ 2 ^ 8 := Nat.pow_le_pow_right (by decide) (by omega)

theorem bitsToBytes_lt (bits : List Bool) : ∀ d ∈ bitsToBytes bits, d < 256 := by
  intro d hd
  unfold bitsToBytes at hd
  rw [List.mem_map] at hd
  obtain ⟨c, _, hc⟩ := hd
  rw [← hc]
  exact byteAt_lt _ _

theorem eccInner_length {k : Nat} {lf : Int} {res res' : List Nat} {j : Nat}
    (h : eccInner k lf res j = some res') : res'.length = res.length := by
  unfold eccInner at h
  cases hc : genCoef k j with
  | none => rw [hc] at h; simp at h
  | some coef =>
    rw [hc] at h
    simp only [Option.bind_eq_bind, Option.some_bind] at h
    by_cases h0 : coef ≠ 0
    · rw [if_pos h0] at h
      cases ht : gfTerm lf coef with
      | none => rw [ht] at h; simp at h
      | some t =>
        rw [ht] at h
        cases ho : res[j]? with
        | none => rw [ho] at h; simp at h
        | some old =>
          rw [ho] at h
          simp only [Option.some_bind, Option.some.injEq] at h
          rw [← h, List.length_set]
    · rw [if_neg h0] at h
      injection h with h
      rw [h]

theorem eccStep_length {k : Nat} {res res' : List Nat} {d : Nat}
    (h : eccStep k res d = some res') : res'.length = res.length := by
  unfold eccStep at h
  cases hr : res[0]? with
  | none => rw [hr] at h; simp at h
  | some r0 =>
    rw [hr] at h
    simp only [Option.bind_eq_bind, Option.some_bind] at h
    have hs : (eccShift k res).length = res.length := by
      unfold eccShift
      rw [List.length_set, eccShift_length]
    by_cases hf : d ^^^ r0 ≠ 0
    · rw [if_pos hf] at h
      cases hl : readInt GF_LOG ((d ^^^ r0 : Nat) : Int) with
      | none => rw [hl] at h; simp at h
      | some lf =>
        rw [hl] at h
        simp only [Option.some_bind] at h
        rw [← hs]
        exact foldlM_pres (fun r => r.length = (eccShift k res).length) (eccInner k lf)
          (fun r j r' hr' hj => by
            show r'.length = _
            rw [eccInner_length hj]; exact hr') _ _ _ rfl h
    · rw [if_neg hf] at h
      injection h with h
      rw [← h, hs]

theorem calculateECC_length {data : List Nat} {k : Nat} {ecc : List Nat}
    (h : calculateECC data k = some ecc) : ecc.length = k := by
  unfold calculateECC at h
  exact foldlM_pres (fun r => r.length = k) (eccStep k)
    (fun r d r' hr hd => by
      show r'.length = _
      rw [eccStep_length hd]; exact hr) _ _ _
    (List.length_replicate _ _) h

theorem flatMap_byteBits_length (l : List Nat) : (l.flatMap byteBits).length = 8 * l.length := by
  induction l with
  | nil => simp
  | cons b rest ih => simp [List.flatMap_cons, ih, byteBits_length]; omega

/-- For versions 2, 3 and 4 `addErrorCorrection` returns: it keeps the stream
and appends the bytes that `calculateECC` returns for 10, 15 or 20 codewords,
each in 0..255, most significant bit first. -/
theorem addErrorCorrection_appends (version : Int)
    (hv : version = 2 ∨ version = 3 ∨ version = 4) (bits : List Bool) :
    ∃ ecc, calculateECC (bitsToBytes bits) (eccCountOf version) = some ecc ∧
      ecc.length = eccCountOf version ∧ (∀ e ∈ ecc, e < 256) ∧
      addErrorCorrection version bits = some (bits ++ ecc.flatMap byteBits) ∧
      (bits ++ ecc.flatMap byteBits).length = bits.length + 8 * eccCountOf version := by
  have hk : eccCountOf version = 10 ∨ eccCountOf version = 15 ∨ eccCountOf version = 20 := by
    rcases hv with h | h | h <;> subst h <;> decide
  have hgen : genOK (eccCountOf version) = true ∧
      ∀ m, m < eccCountOf version →
        horner (gfPow 2 m) 1 (genPows (eccCountOf version)) = 0 := by
    rcases hk with h | h | h <;> rw [h]
    · exact ⟨genOK_10, genRoots_10⟩
    · exact ⟨genOK_15, genRoots_15⟩
    · exact ⟨genOK_20, genRoots_20⟩
  obtain ⟨ecc, h1, h2, h3, _⟩ := calculateECC_roots hgen.1 hgen.2 (bitsToBytes bits)
    (bitsToBytes_lt bits)
  refine ⟨ecc, h1, h2, h3, ?_, ?_⟩
  · unfold addErrorCorrection
    simp only [Option.bind_eq_bind, h1, Option.some_bind, ecc_foldl]
  · rw [List.length_append, flatMap_byteBits_length, h2]

/-- Whenever `addErrorCorrection` returns, it has kept the stream and
appended the bits of `eccCount` values. -/
theorem addErrorCorrection_prefix (version : Int) (bits : List Bool) {out : List Bool}
    (h : addErrorCorrection version bits = some out) :
    ∃ ecc : List Nat, ecc.length = eccCountOf version ∧ out = bits ++ ecc.flatMap byteBits := by
  simp only [addErrorCorrection, Option.bind_eq_bind] at h
  cases hc : calculateECC (bitsToBytes bits) (eccCountOf version) with
  | none => rw [hc] at h; simp at h
  | some ecc =>
    rw [hc] at h
    simp only [Option.some_bind, ecc_foldl, Option.some.injEq] at h
    exact ⟨ecc, calculateECC_length hc, h.symm⟩

set_option maxRecDepth 1000000 in
theorem genCoef_26 : genCoef 26 0 = none := by decide!

theorem eccInner_none_26 (lf : Int) (res : List Nat) : eccInner 26 lf res 0 = none := by
  unfold eccInner
  rw [genCoef_26]
  rfl

/-- With 26 codewords the first data byte that is not zero makes
`calculateECC` read row 26 of the 21 rows of `generators`. -/
theorem eccStep_none_26 (d : Nat) (hd : d ≠ 0) :
    eccStep 26 (List.replicate 26 0) d = none := by
  unfold eccStep
  have h0 : (List.replicate 26 (0 : Nat))[0]? = some 0 := rfl
  rw [h0]
  simp only [Option.bind_eq_bind, Option.some_bind, Nat.xor_zero]
  rw [if_pos hd]
  cases readInt GF_LOG (d : Int) with
  | none => rfl
  | some lf =>
    simp only [Option.some_bind]
    have hm : min 26 30 = 25 + 1 := rfl
    rw [hm, List.range_succ_eq_map, List.foldlM_cons, eccInner_none_26]
    rfl

theorem calculateECC_none_26 (d : Nat) (rest : List Nat) (hd : d ≠ 0) :
    calculateECC (d :: rest) 26 = none := by
  unfold calculateECC
  rw [List.foldlM_cons, eccStep_none_26 d hd]
  rfl

theorem bitsToBytes_cons (bits : List Bool) (h : 0 < bits.length) :
    ∃ tl, bitsToBytes bits = byteAt bits 0 :: tl := by
  obtain ⟨k, hk⟩ : ∃ k, (bits.length + 7) / 8 = k + 1 := ⟨(bits.length + 7) / 8 - 1, by omega⟩
  unfold bitsToBytes
  rw [hk, List.range_succ_eq_map, List.map_cons]
  exact ⟨_, rfl⟩

/-- The first byte of a stream that starts with the mode bits 0100 is not
zero. -/
theorem byteAt_mode (a b c d : Bool) (rest : List Bool) :
    byteAt (false :: true :: false :: false :: a :: b :: c :: d :: rest) 0 ≠ 0 := by
  have h : byteAt (false :: true :: false :: false :: a :: b :: c :: d :: rest) 0 =
      [false, true, false, false, a, b, c, d].foldl
        (fun byte b => (byte <<< 1) ||| (if b then 1 else 0)) 0 := rfl
  rw [h]
  cases a <;> cases b <;> cases c <;> cases d <;> decide

theorem headerBits_first_byte (text : List Nat) (tail : List Bool) :
    ∃ d tl, bitsToBytes (headerBits text ++ tail) = d :: tl ∧ d ≠ 0 := by
  obtain ⟨a, b, c, d, rest, h⟩ : ∃ a b c d rest, headerBits text ++ tail =
      false :: true :: false :: false :: a :: b :: c :: d :: rest := by
    unfold headerBits byteBits
    simp only [List.map_cons, List.map_nil, List.cons_append, List.nil_append,
      List.append_assoc]
    exact ⟨_, _, _, _, _, rfl⟩
  obtain ⟨tl, ht⟩ := bitsToBytes_cons (headerBits text ++ tail) (by rw [h]; simp)
  refine ⟨_, tl, ht, ?_⟩
  rw [h]
  exact byteAt_mode a b c d rest

/-- For a version other than 2, 3 and 4 `addErrorCorrection` asks for 26
codewords, and on a stream of `encodeData` (which starts with the mode bits)
the read of the table is outside its rows: there is no result. -/
theorem addErrorCorrection_none (version : Int)
    (hv : ¬ (version = 2 ∨ version = 3 ∨ version = 4)) (text : List Nat) (tail : List Bool) :
    addErrorCorrection version (headerBits text ++ tail) = none := by
  obtain ⟨d, tl, hb, hd⟩ := headerBits_first_byte text tail
  have hk : eccCountOf version = 26 := by
    unfold eccCountOf
    rw [if_neg (fun h => hv (Or.inl h)), if_neg (fun h => hv (Or.inr (Or.inl h))),
      if_neg (fun h => hv (Or.inr (Or.inr h)))]
  unfold addErrorCorrection
  simp only [Option.bind_eq_bind, hb, hk, calculateECC_none_26 d tl hd, Option.none_bind]

/-- The combined stream of a text of at most 46 bytes (versions 2, 3, 4)
exists: the stream of `encodeData`, then the bits of the codewords that
`calculateECC` returns. -/
theorem combinedStream_defined (text : List Nat) (h : text.length ≤ 46) :
    ∃ (tail : List Bool) (ecc : List Nat),
      ecc.length = eccCountOf (selectVersion text.length) ∧ (∀ e ∈ ecc, e < 256) ∧
      encodeData (selectVersion text.length) text = some (headerBits text ++ tail) ∧
      calculateECC (bitsToBytes (headerBits text ++ tail))
        (eccCountOf (selectVersion text.length)) = some ecc ∧
      combinedStream text = some (headerBits text ++ tail ++ ecc.flatMap byteBits) := by
  have hv : selectVersion text.length = 2 ∨ selectVersion text.length = 3 ∨
      selectVersion text.length = 4 := by
    unfold selectVersion
    split_ifs <;> omega
  obtain ⟨tail, ht⟩ := encodeData_header (selectVersion text.length) text
  obtain ⟨ecc, h1, h2, h3, h4, _⟩ := addErrorCorrection_appends _ hv (headerBits text ++ tail)
  refine ⟨tail, ecc, h2, h3, ht, h1, ?_⟩
  unfold combinedStream
  rw [ht, Option.some_bind, h4]

/-- The combined stream of a text of 47 bytes or more (version 5) does not
exist: `calculateECC` reads `generators[26]`. -/
theorem combinedStream_undefined (text : List Nat) (h : 47 ≤ text.length) :
    combinedStream text = none := by
  have hv : ¬ (selectVersion text.length = 2 ∨ selectVersion text.length = 3 ∨
      selectVersion text.length = 4) := by
    unfold selectVersion
    split_ifs <;> omega
  obtain ⟨tail, ht⟩ := encodeData_header (selectVersion text.length) text
  unfold combinedStream
  rw [ht, Option.some_bind]
  exact addErrorCorrection_none _ hv text tail

theorem combinedStream_fits {text : List Nat} {bits : List Bool}
    (hb : combinedStream text = some bits) : text.length ≤ 46 := by
  by_contra hc
  rw [combinedStream_undefined text (by omega)] at hb
  simp at hb

theorem combinedStream_spec (text : List Nat) {bits : List Bool}
    (hb : combinedStream text = some bits) :
    ∃ (tail : List Bool) (ecc : List Nat),
      ecc.length = eccCountOf (selectVersion text.length) ∧
      encodeData (selectVersion text.length) text = some (headerBits text ++ tail) ∧
      bits = headerBits text ++ tail ++ ecc.flatMap byteBits := by
  obtain ⟨tail, ecc, h1, _, h2, _, h3⟩ := combinedStream_defined text (combinedStream_fits hb)
  exact ⟨tail, ecc, h1, h2, Option.some.inj (hb.symm.trans h3)⟩

/-- The combined stream has the capacity of the version and eight bits for
each ECC value. -/
theorem combinedStream_length (text : List Nat) {bits : List Bool}
    (hb : combinedStream text = some bits) :
    bits.length = capacityOf (selectVersion text.length) +
      8 * eccCountOf (selectVersion text.length) := by
  obtain ⟨tail, ecc, he, ht, hc⟩ := combinedStream_spec text hb
  obtain ⟨k, hk, hl⟩ := encodeData_total text
  rw [hk] at ht
  injection ht with ht
  rw [hc, List.length_append, flatMap_byteBits_length, he, ← ht, hl]
  have := (capacity_fits_iff text.length).1 (by have := combinedStream_fits hb; omega)
  omega

/-- The combined stream starts with the mode bits 0, 1, 0, 0. -/
theorem combinedStream_mode (text : List Nat) {bits : List Bool}
    (hb : combinedStream text = some bits) :
    bits[0]? = some false ∧ bits[1]? = some true ∧ bits[2]? = some false ∧
      bits[3]? = some false := by
  obtain ⟨tail, ecc, _, _, hc⟩ := combinedStream_spec text hb
  rw [hc]
  unfold headerBits
  simp

/-! ## The cells that are not marked, on the packed copy -/

theorem freeCells_sim {n : Nat} {s : QRState} {a : NState} (h : Rel n s a)
    (cells : List (Int × Int)) :
    freeCells s.isFunction cells = freeCellsN n a.isFunction cells := by
  unfold freeCells freeCellsN
  simp only [readFunction_sim h, h.mcN]

set_option maxRecDepth 1000000 in
theorem firstFree_2 : (freeCellsN 25 (patternStateN 2).isFunction (zigzagOrder 25)).take 4 =
    [(24, 24), (23, 24), (24, 23), (23, 23)] := by decide!

set_option maxRecDepth 1000000 in
theorem firstFree_3 : (freeCellsN 29 (patternStateN 3).isFunction (zigzagOrder 29)).take 4 =
    [(28, 28), (27, 28), (28, 27), (27, 27)] := by decide!

set_option maxRecDepth 1000000 in
theorem firstFree_4 : (freeCellsN 33 (patternStateN 4).isFunction (zigzagOrder 33)).take 4 =
    [(32, 32), (31, 32), (32, 31), (31, 31)] := by decide!

set_option maxRecDepth 1000000 in
theorem firstFree_5 : (freeCellsN 37 (patternStateN 5).isFunction (zigzagOrder 37)).take 4 =
    [(36, 36), (35, 36), (36, 35), (35, 35)] := by decide!

set_option maxRecDepth 1000000 in
theorem freeCount_2 :
    (freeCellsN 25 (patternStateN 2).isFunction (zigzagOrder 25)).length = 390 := by decide!

set_option maxRecDepth 1000000 in
theorem freeCount_3 :
    (freeCellsN 29 (patternStateN 3).isFunction (zigzagOrder 29)).length = 598 := by decide!

set_option maxRecDepth 1000000 in
theorem freeCount_4 :
    (freeCellsN 33 (patternStateN 4).isFunction (zigzagOrder 33)).length = 838 := by decide!

set_option maxRecDepth 1000000 in
theorem freeCount_5 :
    (freeCellsN 37 (patternStateN 5).isFunction (zigzagOrder 37)).length = 1110 := by decide!

/-- Every dark module of the pattern states is marked: the mask of the modules
is inside the mask of the marks. -/
theorem patternStateN_dark_marked :
    (patternStateN 2).modules &&& (patternStateN 2).isFunction = (patternStateN 2).modules ∧
    (patternStateN 3).modules &&& (patternStateN 3).isFunction = (patternStateN 3).modules ∧
    (patternStateN 4).modules &&& (patternStateN 4).isFunction = (patternStateN 4).modules ∧
    (patternStateN 5).modules &&& (patternStateN 5).isFunction = (patternStateN 5).modules := by
  decide!

theorem readCellN_blank {n : Int} {m f : Nat} (h : m &&& f = m) {y x : Int}
    (hf : readCellN n f y x = some false) : readCellN n m y x = some false := by
  unfold readCellN at hf ⊢
  split at hf
  · simp at hf
  · rename_i hb
    rw [if_neg hb]
    simp only [Option.some.injEq] at hf ⊢
    rw [← h, Nat.testBit_and, hf, Bool.and_false]

/-! ## The three pattern stages on the packed states -/

set_option maxRecDepth 1000000 in
theorem addTimingPatternsN_2 : addTimingPatternsN (finderStateN 2) = some (timingStateN 2) := by
  decide!

set_option maxRecDepth 1000000 in
theorem addTimingPatternsN_3 : addTimingPatternsN (finderStateN 3) = some (timingStateN 3) := by
  decide!

set_option maxRecDepth 1000000 in
theorem addTimingPatternsN_4 : addTimingPatternsN (finderStateN 4) = some (timingStateN 4) := by
  decide!

set_option maxRecDepth 1000000 in
theorem addTimingPatternsN_5 : addTimingPatternsN (finderStateN 5) = some (timingStateN 5) := by
  decide!

set_option maxRecDepth 1000000 in
theorem addAlignmentPatternsN_2 :
    addAlignmentPatternsN (timingStateN 2) = some (patternStateN 2) := by decide!

set_option maxRecDepth 1000000 in
theorem addAlignmentPatternsN_3 :
    addAlignmentPatternsN (timingStateN 3) = some (patternStateN 3) := by decide!

set_option maxRecDepth 1000000 in
theorem addAlignmentPatternsN_4 :
    addAlignmentPatternsN (timingStateN 4) = some (patternStateN 4) := by decide!

set_option maxRecDepth 1000000 in
theorem addAlignmentPatternsN_5 :
    addAlignmentPatternsN (timingStateN 5) = some (patternStateN 5) := by decide!

theorem addFinderPatternsN_eq (v : Int) (hv : v = 2 ∨ v = 3 ∨ v = 4 ∨ v = 5) :
    addFinderPatternsN (freshN v) = some (finderStateN v) := by
  rcases hv with h | h | h | h <;> subst h
  · exact addFinderPatternsN_2
  · exact addFinderPatternsN_3
  · exact addFinderPatternsN_4
  · exact addFinderPatternsN_5

theorem addTimingPatternsN_eq (v : Int) (hv : v = 2 ∨ v = 3 ∨ v = 4 ∨ v = 5) :
    addTimingPatternsN (finderStateN v) = some (timingStateN v) := by
  rcases hv with h | h | h | h <;> subst h
  · exact addTimingPatternsN_2
  · exact addTimingPatternsN_3
  · exact addTimingPatternsN_4
  · exact addTimingPatternsN_5

theorem addAlignmentPatternsN_eq (v : Int) (hv : v = 2 ∨ v = 3 ∨ v = 4 ∨ v = 5) :
    addAlignmentPatternsN (timingStateN v) = some (patternStateN v) := by
  rcases hv with h | h | h | h <;> subst h
  · exact addAlignmentPatternsN_2
  · exact addAlignmentPatternsN_3
  · exact addAlignmentPatternsN_4
  · exact addAlignmentPatternsN_5

/-- The three stages of `addPatterns` on the cleared grids of a version 2 to
5: each returns, and its result is the packed state of that stage. -/
theorem patternStages (v : Int) (hv : v = 2 ∨ v = 3 ∨ v = 4 ∨ v = 5) :
    ∃ (n : Nat) (sf st sp : QRState), 17 + v * 4 = (n : Int) ∧ n % 2 = 1 ∧ 21 ≤ n ∧
      addFinderPatterns (freshState v) = some sf ∧ Rel n sf (finderStateN v) ∧
      addTimingPatterns sf = some st ∧ Rel n st (timingStateN v) ∧
      addAlignmentPatterns st = some sp ∧ Rel n sp (patternStateN v) ∧
      addPatterns (freshState v) = some sp := by
  obtain ⟨n, hn, hodd, h21⟩ := side_of_version v hv
  have h1 := addFinderPatterns_sim (fresh_rel v n hn)
  rw [addFinderPatternsN_eq v hv] at h1
  obtain ⟨sf, hsf, rf⟩ := ORel.of_some_right h1
  have h2 := addTimingPatterns_sim rf
  rw [addTimingPatternsN_eq v hv] at h2
  obtain ⟨st, hst, rt⟩ := ORel.of_some_right h2
  have h3 := addAlignmentPatterns_sim rt
  rw [addAlignmentPatternsN_eq v hv] at h3
  obtain ⟨sp, hsp, rp⟩ := ORel.of_some_right h3
  refine ⟨n, sf, st, sp, hn, hodd, h21, hsf, rf, hst, rt, hsp, rp, ?_⟩
  have hver : st.version = v := by
    rw [rt.1]
    rcases hv with h | h | h | h <;> subst h <;> rfl
  unfold addPatterns
  simp only [Option.bind_eq_bind, hsf, Option.some_bind, hst]
  rw [if_pos (by rw [hver]; omega), hsp]

/-! ## The zig-zag order covers the grid but for column 6 -/

/-- `placeModules` on a grid of odd side `n ≥ 9` is the loop over the cells
of the zig-zag order. -/
theorem placeModules_eq_order {n : Nat} {s : QRState} (hmc : s.moduleCount = (n : Int))
    (hodd : n % 2 = 1) (h9 : 9 ≤ n) (data : List Bool) :
    placeModules s data =
      ((zigzagOrder n).foldlM (placeAt data) (s, 0)).map (fun st => st.1) := by
  unfold placeModules
  rw [hmc, Int.toNat_ofNat, placeColumns_eq (n := n) data _ _ _ _ hmc (by omega) (by omega),
    loopColumns_eq n hodd h9]
  rfl

theorem mem_zigzagRows_iff {n : Nat} {upward : Bool} {row : Int} :
    row ∈ zigzagRows n upward ↔ 0 ≤ row ∧ row < n := by
  refine ⟨mem_zigzagRows, fun h => ?_⟩
  unfold zigzagRows
  rw [List.mem_map]
  cases upward with
  | true =>
    refine ⟨((n : Int) - 1 - row).toNat, ?_, ?_⟩
    · rw [List.mem_range]; omega
    · simp only [if_true]; omega
  | false =>
    refine ⟨row.toNat, ?_, ?_⟩
    · rw [List.mem_range]; omega
    · simp only [Bool.false_eq_true, if_false]; omega

theorem mem_zigzagFrom {n : Nat} {c : Int × Int} :
    ∀ (cols : List Int) (upward : Bool),
      c ∈ zigzagFrom n cols upward ↔
        (∃ col ∈ cols, c.1 = col ∨ c.1 = col - 1) ∧ 0 ≤ c.2 ∧ c.2 < n := by
  intro cols
  induction cols with
  | nil =>
    intro upward
    unfold zigzagFrom
    simp
  | cons col rest ih =>
    intro upward
    unfold zigzagFrom
    rw [List.mem_append, ih, List.mem_flatMap]
    constructor
    · rintro (⟨row, hrow, hc⟩ | ⟨⟨col', hcol', hc⟩, hr⟩)
      · simp only [List.mem_cons, List.mem_singleton, List.not_mem_nil, or_false] at hc
        have hr := mem_zigzagRows hrow
        rcases hc with rfl | rfl
        · exact ⟨⟨col, by simp, Or.inl rfl⟩, hr⟩
        · exact ⟨⟨col, by simp, Or.inr rfl⟩, hr⟩
      · exact ⟨⟨col', by simp [hcol'], hc⟩, hr⟩
    · rintro ⟨⟨col', hcol', hc⟩, hr⟩
      rw [List.mem_cons] at hcol'
      rcases hcol' with rfl | hcol'
      · left
        refine ⟨c.2, mem_zigzagRows_iff.2 hr, ?_⟩
        simp only [List.mem_cons, List.mem_singleton, List.not_mem_nil, or_false]
        rcases hc with h | h
        · left; exact Prod.ext h rfl
        · right; exact Prod.ext h rfl
      · right
        exact ⟨⟨col', hcol', hc⟩, hr⟩

theorem zigzagColumns_cover {n : Nat} (hodd : n % 2 = 1) (h9 : 9 ≤ n) {x : Int}
    (hx : 0 ≤ x ∧ x < n) (h6 : x ≠ 6) :
    ∃ col ∈ zigzagColumns n, x = col ∨ x = col - 1 := by
  unfold zigzagColumns
  by_cases h7 : 7 ≤ x
  · refine ⟨x + x % 2, ?_, by omega⟩
    rw [List.mem_append]
    left
    rw [List.mem_map]
    refine ⟨(((n : Int) - 1 - (x + x % 2)) / 2).toNat, ?_, ?_⟩
    · rw [List.mem_range]; omega
    · omega
  · have hx5 : x = 0 ∨ x = 1 ∨ x = 2 ∨ x = 3 ∨ x = 4 ∨ x = 5 := by omega
    rcases hx5 with rfl | rfl | rfl | rfl | rfl | rfl
    · exact ⟨1, by simp, by omega⟩
    · exact ⟨1, by simp, by omega⟩
    · exact ⟨3, by simp, by omega⟩
    · exact ⟨3, by simp, by omega⟩
    · exact ⟨5, by simp, by omega⟩
    · exact ⟨5, by simp, by omega⟩

/-- The cells of the zig-zag order of an odd side `n ≥ 9` are the cells of
the grid outside column 6. -/
theorem mem_zigzagOrder_iff {n : Nat} (hodd : n % 2 = 1) (h9 : 9 ≤ n) (x y : Int) :
    (x, y) ∈ zigzagOrder n ↔ 0 ≤ x ∧ x < n ∧ x ≠ 6 ∧ 0 ≤ y ∧ y < n := by
  constructor
  · intro h
    exact (zigzagOrder_cells n hodd h9).2 (x, y) h
  · rintro ⟨h1, h2, h3, h4, h5⟩
    unfold zigzagOrder
    rw [mem_zigzagFrom]
    exact ⟨zigzagColumns_cover hodd h9 ⟨h1, h2⟩ h3, h4, h5⟩

theorem mem_gridCells {n : Nat} {x y : Int} :
    (x, y) ∈ gridCells n ↔ 0 ≤ x ∧ x < n ∧ 0 ≤ y ∧ y < n := by
  unfold gridCells
  rw [List.pair_mem_product, List.mem_map, List.mem_map]
  constructor
  · rintro ⟨⟨a, ha, rfl⟩, ⟨b, hb, rfl⟩⟩
    rw [List.mem_range] at ha hb
    omega
  · rintro ⟨h1, h2, h3, h4⟩
    exact ⟨⟨x.toNat, by rw [List.mem_range]; omega, by omega⟩,
      ⟨y.toNat, by rw [List.mem_range]; omega, by omega⟩⟩

theorem nodup_gridCells (n : Nat) : (gridCells n).Nodup := by
  have hr : ((List.range n).map (fun (k : Nat) => (k : Int))).Nodup :=
    List.Nodup.map (fun a b h => by simpa using h) (List.nodup_range n)
  exact List.Nodup.product hr hr

/-- When every cell of column 6 is marked, the cells not marked are as many
in the zig-zag order as in the whole grid. -/
theorem freeCells_grid_length {n : Nat} (hodd : n % 2 = 1) (h9 : 9 ≤ n) (f : Grid)
    (h6 : ∀ y : Int, 0 ≤ y → y < n → readCell f y 6 = some true) :
    (freeCells f (gridCells n)).length = (freeCells f (zigzagOrder n)).length := by
  apply List.Perm.length_eq
  rw [List.perm_ext_iff_of_nodup]
  · rintro ⟨x, y⟩
    rw [mem_freeCells, mem_freeCells, mem_gridCells, mem_zigzagOrder_iff hodd h9]
    constructor
    · rintro ⟨⟨h1, h2, h3, h4⟩, hf⟩
      refine ⟨⟨h1, h2, ?_, h3, h4⟩, hf⟩
      rintro rfl
      rw [h6 y h3 h4] at hf
      simp at hf
    · rintro ⟨⟨h1, h2, _, h3, h4⟩, hf⟩
      exact ⟨⟨h1, h2, h3, h4⟩, hf⟩
  · unfold freeCells
    exact List.Nodup.filter _ (nodup_gridCells n)
  · unfold freeCells
    exact List.Nodup.filter _ (zigzagOrder_cells n hodd h9).1

set_option maxRecDepth 1000000 in
theorem patternStateN_column6 :
    column6BN (patternStateN 2) = true ∧ column6BN (patternStateN 3) = true ∧
      column6BN (patternStateN 4) = true ∧ column6BN (patternStateN 5) = true := by
  decide!

theorem column6_all (v : Int) (hv : v = 2 ∨ v = 3 ∨ v = 4 ∨ v = 5) :
    column6BN (patternStateN v) = true := by
  rcases hv with h | h | h | h <;> subst h
  · exact patternStateN_column6.1
  · exact patternStateN_column6.2.1
  · exact patternStateN_column6.2.2.1
  · exact patternStateN_column6.2.2.2

theorem column6_marked {n : Nat} {s : QRState} {a : NState} (h : Rel n s a)
    (hb : column6BN a = true) (y : Int) (h0 : 0 ≤ y) (hn : y < n) :
    readCell s.isFunction y 6 = some true := by
  unfold column6BN at hb
  simp only [List.all_eq_true, beq_iff_eq] at hb
  rw [readFunction_sim h]
  apply hb
  unfold intRange
  rw [List.mem_map, h.mcN]
  exact ⟨y.toNat, by rw [List.mem_range]; omega, by omega⟩

/-! ## The writes of `addFormatInfo`, one by one -/

theorem foldlM_congr_mem {σ α : Type} (Inv : σ → Prop) (f g : σ → α → Option σ) :
    ∀ (l : List α), (∀ s a, a ∈ l → Inv s → f s a = g s a) →
      (∀ s a s', a ∈ l → Inv s → g s a = some s' → Inv s') →
      ∀ (s : σ), Inv s → l.foldlM f s = l.foldlM g s := by
  intro l
  induction l with
  | nil => intro _ _ s _; rfl
  | cons a l ih =>
    intro hfg hpres s hs
    rw [List.foldlM_cons, List.foldlM_cons, hfg s a (by simp) hs]
    cases hg : g s a with
    | none => rfl
    | some s1 =>
      exact ih (fun s b hb => hfg s b (by simp [hb]))
        (fun s b s' hb => hpres s b s' (by simp [hb])) s1 (hpres s a s1 (by simp) hs hg)

/-- One write of `addFormatInfo` at a cell of the grid returns; the cell
holds the value, is marked if the write marks and keeps its mark if not, and
every other cell keeps module and mark. -/
theorem applyFormatWrite_spec {n : Nat} {s : QRState} (h : WF n s) (w : FormatWrite)
    (hr : 0 ≤ w.row ∧ w.row < n) (hc : 0 ≤ w.col ∧ w.col < n) :
    ∃ s', applyFormatWrite s w = some s' ∧ s'.version = s.version ∧ WF n s' ∧
      (∀ y x : Int, readCell s'.modules y x =
        if y = w.row ∧ x = w.col then some (formatValue w.bit) else readCell s.modules y x) ∧
      (∀ y x : Int, readCell s'.isFunction y x =
        if y = w.row ∧ x = w.col ∧ w.mark = true then some true
        else readCell s.isFunction y x) := by
  obtain ⟨s1, e1, v1, wf1, f1, m1⟩ := setModule_spec h w.col w.row (formatValue w.bit)
  have hm : ∀ y x : Int, readCell s1.modules y x =
      if y = w.row ∧ x = w.col then some (formatValue w.bit) else readCell s.modules y x := by
    intro y x
    rw [m1 y x]
    by_cases hyx : y = w.row ∧ x = w.col
    · rw [if_pos ⟨hyx.1, hyx.2, hc.1, hc.2, hr.1, hr.2⟩, if_pos hyx]
    · rw [if_neg (fun hh => hyx ⟨hh.1, hh.2.1⟩), if_neg hyx]
  cases hmk : w.mark with
  | false =>
    refine ⟨s1, ?_, v1, wf1, hm, ?_⟩
    · unfold applyFormatWrite
      simp only [Option.bind_eq_bind, e1, Option.some_bind, hmk, Bool.false_eq_true, if_false]
    · intro y x
      rw [f1, if_neg (by simp)]
  | true =>
    obtain ⟨s2, e2, v2, wf2, m2, f2⟩ := markFunction_spec wf1 hr hc
    refine ⟨s2, ?_, by rw [v2, v1], wf2, ?_, ?_⟩
    · unfold applyFormatWrite
      simp only [Option.bind_eq_bind, e1, Option.some_bind, hmk, if_true, e2]
    · intro y x
      rw [m2]
      exact hm y x
    · intro y x
      rw [f2 y x, f1]
      by_cases hyx : y = w.row ∧ x = w.col
      · rw [if_pos hyx, if_pos ⟨hyx.1, hyx.2, rfl⟩]
      · rw [if_neg hyx, if_neg (fun hh => hyx ⟨hh.1, hh.2.1⟩)]

/-- A list of writes of `addFormatInfo` at distinct cells of the grid: all
return; each cell written holds its value, is marked if its write marks and
keeps its mark if not; every other cell keeps module and mark. -/
theorem formatWrites_run {n : Nat} :
    ∀ (ws : List FormatWrite), (ws.map (fun w => (w.row, w.col))).Nodup →
      (∀ w ∈ ws, (0 ≤ w.row ∧ w.row < n) ∧ 0 ≤ w.col ∧ w.col < n) →
      ∀ (s : QRState), WF n s →
        ∃ s', ws.foldlM applyFormatWrite s = some s' ∧ s'.version = s.version ∧ WF n s' ∧
          (∀ w ∈ ws, readCell s'.modules w.row w.col = some (formatValue w.bit) ∧
            readCell s'.isFunction w.row w.col =
              if w.mark = true then some true else readCell s.isFunction w.row w.col) ∧
          (∀ y x : Int, (y, x) ∉ ws.map (fun w => (w.row, w.col)) →
            readCell s'.modules y x = readCell s.modules y x ∧
              readCell s'.isFunction y x = readCell s.isFunction y x) := by
  intro ws
  induction ws with
  | nil =>
    intro _ _ s h
    exact ⟨s, rfl, rfl, h, fun w hw => by simp at hw, fun _ _ _ => ⟨rfl, rfl⟩⟩
  | cons w ws ih =>
    intro hnd hin s h
    rw [List.map_cons, List.nodup_cons] at hnd
    obtain ⟨hr, hc⟩ := hin w (by simp)
    obtain ⟨s1, e1, v1, wf1, m1, f1⟩ := applyFormatWrite_spec h w hr hc
    obtain ⟨s2, e2, v2, wf2, hin2, hout2⟩ := ih hnd.2 (fun w' hw' => hin w' (by simp [hw'])) s1 wf1
    refine ⟨s2, ?_, by rw [v2, v1], wf2, ?_, ?_⟩
    · rw [List.foldlM_cons, e1]
      exact e2
    · intro w' hw'
      rw [List.mem_cons] at hw'
      rcases hw' with rfl | hw'
      · obtain ⟨a, b⟩ := hout2 w'.row w'.col hnd.1
        rw [a, b, m1, f1, if_pos ⟨rfl, rfl⟩]
        refine ⟨rfl, ?_⟩
        cases hmk : w'.mark <;> simp
      · obtain ⟨a, b⟩ := hin2 w' hw'
        refine ⟨a, ?_⟩
        have hne : ¬ (w'.row = w.row ∧ w'.col = w.col ∧ w.mark = true) := by
          rintro ⟨h1, h2, _⟩
          apply hnd.1
          rw [List.mem_map]
          exact ⟨w', hw', by rw [h1, h2]⟩
        have hf := f1 w'.row w'.col
        rw [if_neg hne] at hf
        rw [b, hf]
    · intro y x hnot
      rw [List.map_cons, List.mem_cons, not_or] at hnot
      obtain ⟨a, b⟩ := hout2 y x hnot.2
      have hne : ¬ (y = w.row ∧ x = w.col) := by
        rintro ⟨h1, h2⟩
        exact hnot.1 (by rw [h1, h2])
      rw [a, b, m1, f1, if_neg hne, if_neg (fun hh => hne ⟨hh.1, hh.2.1⟩)]
      exact ⟨rfl, rfl⟩

theorem markFunction_moduleCount {s s' : QRState} {y x : Int}
    (h : markFunction s y x = some s') : s'.moduleCount = s.moduleCount := by
  unfold markFunction at h
  cases hw : writeCell s.isFunction y x true with
  | none => rw [hw] at h; simp at h
  | some m =>
    rw [hw] at h
    simp only [Option.map_some', Option.some.injEq] at h
    rw [← h]

/-- The body of the first loop of `addFormatInfo` is its two writes. -/
theorem formatLow_writes {n : Nat} {s : QRState} (hmc : s.moduleCount = (n : Int)) (i : Nat) :
    formatLow s i = [(⟨some i, i, 8, true⟩ : FormatWrite),
      ⟨some i, 8, (n : Int) - 1 - i, false⟩].foldlM applyFormatWrite s := by
  unfold formatLow
  simp only [List.foldlM_cons, List.foldlM_nil, applyFormatWrite, formatValue,
    Option.bind_eq_bind, if_true, Bool.false_eq_true, if_false, Option.pure_def,
    Option.bind_some, Option.bind_assoc]
  cases h1 : setModule s 8 i (formatBit i) with
  | none => rfl
  | some s1 =>
    simp only [Option.some_bind]
    cases h2 : markFunction s1 i 8 with
    | none => rfl
    | some s2 =>
      simp only [Option.some_bind]
      rw [markFunction_moduleCount h2, setModule_moduleCount h1, hmc]

/-- The body of the second loop of `addFormatInfo` is its two writes. -/
theorem formatHigh_writes {n : Nat} {s : QRState} (hmc : s.moduleCount = (n : Int)) (i : Nat) :
    formatHigh s i = [(⟨some i, 8, 14 - i, true⟩ : FormatWrite),
      ⟨some i, (n : Int) - 15 + i, 8, false⟩].foldlM applyFormatWrite s := by
  unfold formatHigh
  simp only [List.foldlM_cons, List.foldlM_nil, applyFormatWrite, formatValue,
    Option.bind_eq_bind, if_true, Bool.false_eq_true, if_false, Option.pure_def,
    Option.bind_some, Option.bind_assoc]
  cases h1 : setModule s (14 - i) 8 (formatBit i) with
  | none => rfl
  | some s1 =>
    simp only [Option.some_bind]
    cases h2 : markFunction s1 8 (14 - i) with
    | none => rfl
    | some s2 =>
      simp only [Option.some_bind]
      rw [markFunction_moduleCount h2, setModule_moduleCount h1, hmc]

/-- `addFormatInfo` on a grid of side `n ≥ 21` is the run of the list
`formatWrites n`. -/
theorem addFormatInfo_writes {n : Nat} (hn : 21 ≤ n) {s : QRState} (h : WF n s) :
    addFormatInfo s = (formatWrites n).foldlM applyFormatWrite s := by
  obtain ⟨s1, h1, u1⟩ := foldlM_inv (fun s' => Upd n (formatCell n) s s') formatLow
    [0, 1, 2, 3, 4, 5] (fun s' i hi hinv => formatLow_inv hn s s' i hi hinv) s (Upd.refl _ h)
  obtain ⟨s2, h2, u2, _⟩ := setModule_upd (W := formatCell n) u1.2.1 8 7 (formatBit 6)
    (fun _ => by unfold formatCell formatCells; simp)
  obtain ⟨s3, h3, u3⟩ := markFunction_upd (W := formatCell n) u2.2.1 (y := 7) (x := 8)
    (by omega) (by omega)
  obtain ⟨s4, h4, u4, _⟩ := setModule_upd (W := formatCell n) u3.2.1 8 8 (formatBit 7)
    (fun _ => by unfold formatCell formatCells; simp)
  obtain ⟨s5, h5, u5⟩ := markFunction_upd (W := formatCell n) u4.2.1 (y := 8) (x := 8)
    (by omega) (by omega)
  obtain ⟨s6, h6, u6, _⟩ := setModule_upd (W := formatCell n) u5.2.1 7 8 (formatBit 8)
    (fun _ => by unfold formatCell formatCells; simp)
  obtain ⟨s7, h7, u7⟩ := markFunction_upd (W := formatCell n) u6.2.1 (y := 8) (x := 7)
    (by omega) (by omega)
  have u07 := (((((u1.trans u2).trans u3).trans u4).trans u5).trans u6).trans u7
  obtain ⟨s8, h8, u8⟩ := foldlM_inv (fun s' => Upd n (formatCell n) s s') formatHigh
    [9, 10, 11, 12, 13, 14] (fun s' i hi hinv => formatHigh_inv hn s s' i hi hinv) s7 u07
  have hmc : s8.moduleCount = (n : Int) := u8.2.1.1
  obtain ⟨s9, h9, u9, _⟩ := setModule_upd (W := formatCell n) u8.2.1 8 (s8.moduleCount - 8) true
    (fun _ => by rw [hmc]; unfold formatCell formatCells; simp)
  have hmc9 : s9.moduleCount = (n : Int) := u9.2.1.1
  obtain ⟨s10, h10, u10⟩ := markFunction_upd (W := formatCell n) u9.2.1
    (y := s9.moduleCount - 8) (x := 8) (by rw [hmc9]; omega) (by omega)
  have hL : addFormatInfo s = some s10 := by
    unfold addFormatInfo
    simp only [Option.bind_eq_bind, h1, Option.some_bind, h2, h3, h4, h5, h6, h7, h8, h9, h10]
  have hlow : ∀ (l : List Nat) (t : QRState), WF n t → (∀ i ∈ l, i ∈ [0, 1, 2, 3, 4, 5]) →
      l.foldlM (fun s (i : Nat) => [(⟨some i, i, 8, true⟩ : FormatWrite),
        ⟨some i, 8, (n : Int) - 1 - i, false⟩].foldlM applyFormatWrite s) t =
      l.foldlM formatLow t := by
    intro l t ht hl
    apply foldlM_congr_mem (fun s' => WF n s') _ _ l _ _ t ht
    · intro s' i _ hs'
      exact (formatLow_writes hs'.1 i).symm
    · intro s' i s'' hi hs' he
      obtain ⟨t', e', ut⟩ := formatLow_inv hn s' s' i (hl i hi) (Upd.refl _ hs')
      rw [he] at e'
      injection e' with e'
      rw [e']
      exact ut.2.1
  have hhigh : ∀ (l : List Nat) (t : QRState), WF n t →
      (∀ i ∈ l, i ∈ [9, 10, 11, 12, 13, 14]) →
      l.foldlM (fun s (i : Nat) => [(⟨some i, 8, 14 - i, true⟩ : FormatWrite),
        ⟨some i, (n : Int) - 15 + i, 8, false⟩].foldlM applyFormatWrite s) t =
      l.foldlM formatHigh t := by
    intro l t ht hl
    apply foldlM_congr_mem (fun s' => WF n s') _ _ l _ _ t ht
    · intro s' i _ hs'
      exact (formatHigh_writes hs'.1 i).symm
    · intro s' i s'' hi hs' he
      obtain ⟨t', e', ut⟩ := formatHigh_inv hn s' s' i (hl i hi) (Upd.refl _ hs')
      rw [he] at e'
      injection e' with e'
      rw [e']
      exact ut.2.1
  rw [hL]
  unfold formatWrites
  rw [List.foldlM_append, List.foldlM_append, List.foldlM_append, foldlM_flatMap,
    hlow _ s h (fun _ hi => hi), h1]
  simp only [Option.bind_eq_bind, Option.some_bind]
  have hmid : [(⟨some 6, 7, 8, true⟩ : FormatWrite), ⟨some 7, 8, 8, true⟩,
      ⟨some 8, 8, 7, true⟩].foldlM applyFormatWrite s1 = some s7 := by
    simp only [List.foldlM_cons, List.foldlM_nil, applyFormatWrite, formatValue,
      Option.bind_eq_bind, if_true, h2, Option.some_bind, h3, h4, h5, h6, h7, Option.pure_def]
  rw [hmid]
  simp only [Option.some_bind]
  rw [foldlM_flatMap, hhigh _ s7 u07.2.1 (fun _ hi => hi), h8]
  simp only [Option.some_bind]
  rw [hmc] at h9
  rw [hmc9] at h10
  simp only [List.foldlM_cons, List.foldlM_nil, applyFormatWrite, formatValue,
    Option.bind_eq_bind, if_true, h9, Option.some_bind, h10, Option.pure_def]

theorem formatWrites_range {n : Nat} (hn : 21 ≤ n) :
    ∀ w ∈ formatWrites n, (0 ≤ w.row ∧ w.row < n) ∧ 0 ≤ w.col ∧ w.col < n := by
  unfold formatWrites
  simp only [List.flatMap_cons, List.flatMap_nil, List.cons_append, List.nil_append,
    List.append_nil, List.forall_mem_cons, List.not_mem_nil, false_imp_iff, implies_true,
    and_true, Nat.cast_ofNat]
  omega

theorem formatWrites_nodup {n : Nat} (hn : 21 ≤ n) :
    ((formatWrites n).map (fun w => (w.row, w.col))).Nodup := by
  unfold formatWrites
  simp only [List.flatMap_cons, List.flatMap_nil, List.cons_append, List.nil_append,
    List.append_nil, List.map_cons, List.map_nil, List.nodup_cons, List.mem_cons,
    List.not_mem_nil, or_false, not_or, Prod.mk.injEq, List.nodup_nil, and_true,
    Nat.cast_ofNat, true_and, Nat.cast_zero, Nat.cast_one, not_false_eq_true]
  omega

theorem formatWrites_length (mc : Int) : (formatWrites mc).length = 28 := rfl

theorem formatBitCells_low (mc : Int) (i : Nat) (hi : i < 6) :
    formatBitCells mc i = [((i : Int), 8), (8, mc - 1 - i)] := by
  interval_cases i <;> rfl

theorem formatBitCells_mid (mc : Int) :
    formatBitCells mc 6 = [(7, 8)] ∧ formatBitCells mc 7 = [(8, 8)] ∧
      formatBitCells mc 8 = [(8, 7)] := ⟨rfl, rfl, rfl⟩

theorem formatBitCells_high (mc : Int) (i : Nat) (h9 : 9 ≤ i) (h14 : i ≤ 14) :
    formatBitCells mc i = [(8, 14 - (i : Int)), (mc - 15 + i, 8)] := by
  interval_cases i <;> rfl

/-- `addFormatInfo` on a grid of side `n ≥ 21` returns; each cell of the list
`formatWrites n` holds the value of its write, those of the marking writes
are marked and the others keep their mark; every other cell keeps module and
mark. -/
theorem addFormatInfo_cells {n : Nat} (hn : 21 ≤ n) {s : QRState} (h : WF n s) :
    ∃ s', addFormatInfo s = some s' ∧ s'.version = s.version ∧ WF n s' ∧
      (∀ w ∈ formatWrites n, readCell s'.modules w.row w.col = some (formatValue w.bit) ∧
        readCell s'.isFunction w.row w.col =
          if w.mark = true then some true else readCell s.isFunction w.row w.col) ∧
      (∀ y x : Int, (y, x) ∉ (formatWrites n).map (fun w => (w.row, w.col)) →
        readCell s'.modules y x = readCell s.modules y x ∧
          readCell s'.isFunction y x = readCell s.isFunction y x) := by
  rw [addFormatInfo_writes hn h]
  exact formatWrites_run (formatWrites n) (formatWrites_nodup hn) (formatWrites_range hn) s h

/-! ## The steps of one generation -/

theorem patterns_all (v : Int) (hv : v = 2 ∨ v = 3 ∨ v = 4 ∨ v = 5) :
    ∃ n : Nat, (17 + v * 4).toNat = n ∧ (17 + v * 4 = (n : Int)) ∧ n % 2 = 1 ∧ 21 ≤ n ∧
      patCheck v (patternB n v) = true := by
  rcases hv with h | h | h | h <;> subst h
  · exact ⟨25, rfl, rfl, rfl, by omega, patterns_2⟩
  · exact ⟨29, rfl, rfl, rfl, by omega, patterns_3⟩
  · exact ⟨33, rfl, rfl, rfl, by omega, patterns_4⟩
  · exact ⟨37, rfl, rfl, rfl, by omega, patterns_5⟩

theorem patternState_rel (v : Int) (hv : v = 2 ∨ v = 3 ∨ v = 4 ∨ v = 5) :
    ∃ (n : Nat) (sp : QRState), 17 + v * 4 = (n : Int) ∧ n % 2 = 1 ∧ 21 ≤ n ∧
      addPatterns (freshState v) = some sp ∧ Rel n sp (patternStateN v) ∧
      patternB n v sp = true := by
  obtain ⟨n, hn, hodd, h21⟩ := side_of_version v hv
  have hs := addPatterns_sim (fresh_rel v n hn)
  rw [addPatternsN_eq v hv] at hs
  obtain ⟨sp, hsp, hrel⟩ := ORel.of_some_right hs
  refine ⟨n, sp, hn, hodd, h21, hsp, hrel, ?_⟩
  rw [patternB_sim hrel]
  rcases hv with h | h | h | h <;> subst h
  · exact patternStateN_checks.1
  · exact patternStateN_checks.2.1
  · exact patternStateN_checks.2.2.1
  · exact patternStateN_checks.2.2.2

theorem patternB_parts {n : Nat} {v : Int} {s : QRState} (h : patternB n v s = true) :
    WF n s ∧ s.version = v ∧ finderB s = true ∧ timingB s = true := by
  unfold patternB baseB at h
  simp only [Bool.and_eq_true, beq_iff_eq] at h
  exact ⟨wfB_iff h.1.1.1.1, h.1.1.1.2, h.1.2, h.2⟩

/-- The steps of `generateQRCode` after the stream is computed, for a
version of 2 to 5 and every stream: the function patterns on the cleared
grids, the placement, the format information and the mask all return; the
grids stay square of side `17 + 4 * version`; and every cell that the
function patterns marked is still marked and holds the module that the
patterns gave it. -/
theorem symbol_spec (v : Int) (hv : v = 2 ∨ v = 3 ∨ v = 4 ∨ v = 5) (data : List Bool) :
    ∃ (n : Nat) (sp s1 s2 s3 : QRState),
      17 + v * 4 = (n : Int) ∧ n % 2 = 1 ∧ 21 ≤ n ∧
      addPatterns (freshState v) = some sp ∧ Rel n sp (patternStateN v) ∧
      patternB n v sp = true ∧
      placeModules sp data = some s1 ∧ addFormatInfo s1 = some s2 ∧ applyMask s2 = some s3 ∧
      s3.version = v ∧ WF n s1 ∧ WF n s2 ∧ WF n s3 ∧
      (∀ y x, readCell sp.isFunction y x = some true →
        readCell s3.isFunction y x = some true ∧
          readCell s3.modules y x = readCell sp.modules y x) := by
  obtain ⟨n, sp, hn, hodd, h21, hsp, hrel, hP⟩ := patternState_rel v hv
  have hP2 := hP
  unfold patternB baseB at hP2
  simp only [Bool.and_eq_true, beq_iff_eq] at hP2
  obtain ⟨⟨⟨⟨hwf, hver⟩, hfree⟩, _⟩, _⟩ := hP2
  have hwf := wfB_iff hwf
  obtain ⟨s6, h6, u6, f6⟩ := placeModules_spec hwf hodd (by omega) data
  obtain ⟨s7, h7, u7⟩ := addFormatInfo_spec h21 u6.2.1
  obtain ⟨s8, h8, u8, f8⟩ := applyMask_spec u7.2.1
  refine ⟨n, sp, s6, s7, s8, hn, hodd, h21, hsp, hrel, hP, h6, h7, h8, ?_, u6.2.1, u7.2.1,
    u8.2.1, ?_⟩
  · rw [u8.1, u7.1, u6.1, hver]
  · intro y x hf
    have hf6 : readCell s6.isFunction y x = some true := by rw [f6]; exact hf
    have hf7 : readCell s7.isFunction y x = some true := u7.2.2.2 y x hf6
    refine ⟨by rw [f8]; exact hf7, ?_⟩
    have e8 : readCell s8.modules y x = readCell s7.modules y x :=
      u8.2.2.1 y x (by unfold freeCell; rw [hf7]; simp)
    have e6 : readCell s6.modules y x = readCell sp.modules y x :=
      u6.2.2.1 y x (by unfold freeCell; rw [hf]; simp)
    have e7 : readCell s7.modules y x = readCell s6.modules y x := by
      apply u7.2.2.1 y x
      intro hc
      unfold formatFreeB at hfree
      rw [List.all_eq_true] at hfree
      have hmc : sp.moduleCount = (n : Int) := hwf.1
      have := hfree (y, x) (by rw [hmc]; exact hc)
      simp only [beq_iff_eq] at this
      rw [hf] at this
      simp at this
    rw [e8, e7, e6]

/-- `generateQRCode` for a non-empty text, from any prior state: the
combined stream, then the placement, the format information and the mask on
the state `sp` that the function patterns leave on the cleared grids. -/
theorem generateQRCode_stages (text : List Nat) (hne : text ≠ []) (s : QRState)
    {sp : QRState} (hsp : addPatterns (freshState (selectVersion text.length)) = some sp)
    (hver : sp.version = selectVersion text.length) :
    generateQRCode text s = (combinedStream text).bind (fun bits =>
      (placeModules sp bits).bind (fun s1 => (addFormatInfo s1).bind applyMask)) := by
  unfold generateQRCode combinedStream
  rw [if_neg hne]
  simp only [Option.bind_eq_bind, initRows_spec, Option.some_bind, hsp, hver]
  cases encodeData (selectVersion text.length) text with
  | none => rfl
  | some bits =>
    simp only [Option.some_bind]

/-- For a text of 47 bytes or more `generateQRCode` has no result: version 5
asks `calculateECC` for 26 codewords and `generators` has 21 rows. -/
theorem generateQRCode_undefined (text : List Nat) (h : 47 ≤ text.length) (s : QRState) :
    generateQRCode text s = none := by
  have hne : text ≠ [] := by
    intro hc
    rw [hc] at h
    simp at h
  obtain ⟨n, sp, _, _, _, hsp, _, hP⟩ := patternState_rel _ (selectVersion_cases text.length)
  rw [generateQRCode_stages text hne s hsp (patternB_parts hP).2.1,
    combinedStream_undefined text h]
  rfl

theorem generateQRCode_fits {text : List Nat} {s s' : QRState}
    (h : generateQRCode text s = some s') : text.length ≤ 46 := by
  by_contra hc
  rw [generateQRCode_undefined text (by omega) s] at h
  simp at h

/-- The steps of `generateQRCode` for a non-empty text of at most 46 bytes:
the function patterns on the cleared grids, the combined stream, the
placement, the format information and the mask all return, and the last state
is the result, whatever the prior state was. -/
theorem generateQRCode_trace (text : List Nat) (hne : text ≠ []) (hfit : text.length ≤ 46)
    (s : QRState) :
    ∃ (n : Nat) (sp : QRState) (bits : List Bool) (s1 s2 s3 : QRState),
      17 + selectVersion text.length * 4 = (n : Int) ∧ n % 2 = 1 ∧ 21 ≤ n ∧
      addPatterns (freshState (selectVersion text.length)) = some sp ∧
      Rel n sp (patternStateN (selectVersion text.length)) ∧
      combinedStream text = some bits ∧
      placeModules sp bits = some s1 ∧ addFormatInfo s1 = some s2 ∧ applyMask s2 = some s3 ∧
      generateQRCode text s = some s3 := by
  obtain ⟨tail, ecc, _, _, _, _, hb⟩ := combinedStream_defined text hfit
  obtain ⟨n, sp, s1, s2, s3, hn, hodd, h21, hsp, hrel, hP, h1, h2, h3, _⟩ :=
    symbol_spec _ (selectVersion_cases text.length)
      (headerBits text ++ tail ++ ecc.flatMap byteBits)
  refine ⟨n, sp, _, s1, s2, s3, hn, hodd, h21, hsp, hrel, hb, h1, h2, h3, ?_⟩
  rw [generateQRCode_stages text hne s hsp (patternB_parts hP).2.1, hb]
  simp only [Option.some_bind, h1, h2, h3]

/-- What `generateQRCode` does for a non-empty text of at most 46 bytes: it
returns; the version is the selected one; both grids are square of side
`17 + 4 * version`; and every cell that the function patterns marked is still
marked and holds the module that the patterns gave it. -/
theorem generateQRCode_spec (text : List Nat) (hne : text ≠ []) (hfit : text.length ≤ 46)
    (s : QRState) :
    ∃ (n : Nat) (sp s' : QRState),
      (17 + selectVersion text.length * 4 = (n : Int)) ∧ n % 2 = 1 ∧ 21 ≤ n ∧
      addPatterns (freshState (selectVersion text.length)) = some sp ∧
      patternB n (selectVersion text.length) sp = true ∧
      generateQRCode text s = some s' ∧
      s'.version = selectVersion text.length ∧ WF n s' ∧
      (∀ y x, readCell sp.isFunction y x = some true →
        readCell s'.isFunction y x = some true ∧
          readCell s'.modules y x = readCell sp.modules y x) := by
  obtain ⟨tail, ecc, _, _, _, _, hb⟩ := combinedStream_defined text hfit
  obtain ⟨n, sp, s1, s2, s3, hn, hodd, h21, hsp, hrel, hP, h1, h2, h3, hv, _, _, hwf, hk⟩ :=
    symbol_spec _ (selectVersion_cases text.length)
      (headerBits text ++ tail ++ ecc.flatMap byteBits)
  refine ⟨n, sp, s3, hn, hodd, h21, hsp, hP, ?_, hv, hwf, hk⟩
  rw [generateQRCode_stages text hne s hsp (patternB_parts hP).2.1, hb]
  simp only [Option.some_bind, h1, h2, h3]

/-- The steps of `generateQRCode` for the text `A` and their packed copies. -/
theorem trace_A (s : QRState) :
    ∃ sp s1 s2 s3 : QRState,
      addPatterns (freshState 2) = some sp ∧ placeModules sp streamA = some s1 ∧
      addFormatInfo s1 = some s2 ∧ applyMask s2 = some s3 ∧
      generateQRCode [65] s = some s3 ∧
      Rel 25 sp (patternStateN 2) ∧ Rel 25 s1 placedA ∧ Rel 25 s2 formattedA ∧
      Rel 25 s3 symbolA := by
  obtain ⟨n, sp, bits, s1, s2, s3, hn, _, _, hsp, hrel, hb, h1, h2, h3, hg⟩ :=
    generateQRCode_trace [65] (by decide) (by decide) s
  have hv : selectVersion (([65] : List Nat).length : Int) = 2 := by decide
  rw [hv] at hn hsp hrel
  have hn25 : n = 25 := by omega
  subst hn25
  rw [combinedStream_A] at hb
  injection hb with hb
  subst hb
  have r1 := placeModules_sim hrel streamA
  rw [h1, placeModulesN_A] at r1
  have r2 := addFormatInfo_sim r1
  rw [h2, addFormatInfoN_A] at r2
  have r3 := applyMask_sim r2
  rw [h3, applyMaskN_A] at r3
  exact ⟨sp, s1, s2, s3, hsp, h1, h2, h3, hg, hrel, r1, r2, r3⟩

theorem generateQRCode_returns (text : List Nat) (hne : text ≠ []) (hfit : text.length ≤ 46)
    (s : QRState) : ∃ s', generateQRCode text s = some s' := by
  obtain ⟨_, _, _, _, _, s3, _, _, _, _, _, _, _, _, _, hg⟩ :=
    generateQRCode_trace text hne hfit s
  exact ⟨s3, hg⟩

/-- Every result of `generateQRCode` for a non-empty text has the selected
version, two square grids of side `17 + 4 * version`, and every cell that the
function patterns marked still marked and with the module of the patterns. -/
theorem generateQRCode_keeps {text : List Nat} (hne : text ≠ []) {s s' : QRState}
    (h : generateQRCode text s = some s') :
    ∃ (n : Nat) (sp : QRState),
      (17 + selectVersion text.length * 4 = (n : Int)) ∧ n % 2 = 1 ∧ 21 ≤ n ∧
      addPatterns (freshState (selectVersion text.length)) = some sp ∧
      patternB n (selectVersion text.length) sp = true ∧
      s'.version = selectVersion text.length ∧ WF n s' ∧
      (∀ y x, readCell sp.isFunction y x = some true →
        readCell s'.isFunction y x = some true ∧
          readCell s'.modules y x = readCell sp.modules y x) := by
  obtain ⟨n, sp, s3, hn, hodd, h21, hsp, hP, hg, hv, hwf, hk⟩ :=
    generateQRCode_spec text hne (generateQRCode_fits h) s
  have he : s3 = s' := Option.some.inj (hg.symm.trans h)
  subst he
  exact ⟨n, sp, hn, hodd, h21, hsp, hP, hv, hwf, hk⟩

/-! ## Claims about the finished symbol -/

set_option maxRecDepth 1000000 in
/-- C8, at version 5: `addErrorCorrection` asks `calculateECC` for 26
codewords; for the one-byte stream 01000000 the feedback is not zero and the
read `generators[26][0]` is outside the 21 rows of the table, so `calculateECC`
returns no defined value. -/
theorem addErrorCorrection_version5_reads_beyond_table :
    eccCountOf 5 = 26 ∧ generators.length = 21 ∧ genCoef 26 0 = none ∧
    bitsToBytes [false, true, false, false, false, false, false, false] = [64] ∧
    calculateECC [64] 26 = none := by decide!

theorem generateN_A : generateN [65] = some symbolA := by
  rw [generateN_eq [65] (v := 2) rfl addPatternsN_2 rfl combinedStream_A,
    placeModulesN_A, Option.some_bind, addFormatInfoN_A, Option.some_bind]
  exact applyMaskN_A

set_option maxRecDepth 1000000 in
theorem checkReadBackN_A : checkReadBackN symbolA streamA = false := by decide!

/-- C3, at the text "A": the cells of the final grid that are not marked, read
in the zig-zag order of `placeModules` with mask 0 undone, do not start with
the combined data and ECC stream. -/
theorem readBack_differs_from_stream :
    roundTripB [65] ⟨2, 25, [], []⟩ = false := by
  rw [roundTripB_sim [65] (by decide), roundTripBN_eq generateN_A combinedStream_A]
  exact checkReadBackN_A

/-! ## Claims about the mask and the format cells -/

/-- C11: on two `n` by `n` grids with `moduleCount = n`, `applyMask` returns,
leaves `isFunction` (and the sizes) unchanged, and every cell of row `y` and
column `x` ends with its old value when it is marked as a function cell and
with its old value XOR `(x + y) mod 2 == 0` when it is not. -/
theorem applyMask_mask_law {n : Nat} (s : QRState) (h : WF n s) :
    ∃ s', applyMask s = some s' ∧ s'.isFunction = s.isFunction ∧ WF n s' ∧
      ∀ y x : Int, 0 ≤ y → y < n → 0 ≤ x → x < n →
        ∃ f old, readCell s.isFunction y x = some f ∧ readCell s.modules y x = some old ∧
          readCell s'.modules y x =
            some (if f then old else xor old (decide ((x + y) % 2 = 0))) := by
  obtain ⟨s', h1, _, hwf, hfun, hcells⟩ := applyMask_law h
  refine ⟨s', h1, hfun, hwf, fun y x hy0 hy hx0 hx => ?_⟩
  obtain ⟨f, hf⟩ := readCell_some h.2.2 ⟨hy0, hy⟩ ⟨hx0, hx⟩
  obtain ⟨old, hold⟩ := readCell_some h.2.1 ⟨hy0, hy⟩ ⟨hx0, hx⟩
  refine ⟨f, old, hf, hold, ?_⟩
  rw [hcells y x hy0 hy hx0 hx]
  unfold maskLaw
  rw [hf, hold]
  rfl

theorem applyMask_mask_law_witness :
    WF 2 ⟨1, 2, [[true, false], [true, false]], [[true, false], [false, false]]⟩ ∧
    ∃ s', applyMask ⟨1, 2, [[true, false], [true, false]], [[true, false], [false, false]]⟩ =
        some s' ∧
      s'.isFunction = [[true, false], [false, false]] ∧ WF 2 s' ∧
      ∀ y x : Int, 0 ≤ y → y < (2 : Nat) → 0 ≤ x → x < (2 : Nat) →
        ∃ f old, readCell [[true, false], [false, false]] y x = some f ∧
          readCell [[true, false], [true, false]] y x = some old ∧
          readCell s'.modules y x =
            some (if f then old else xor old (decide ((x + y) % 2 = 0))) :=
  ⟨wfB_iff (by decide),
    applyMask_mask_law ⟨1, 2, [[true, false], [true, false]], [[true, false], [false, false]]⟩
      (wfB_iff (by decide))⟩

/-- C12, at the text "A" (side 25): `addFormatInfo` writes bit 0 of the format
constant, a 0, into the cell of row 8 and column `moduleCount - 1 = 24`, a
cell of the copy under the top-right finder; the cell is not marked in the
final `isFunction` grid and `applyMask` flips it, so the final grid holds a
dark module there and not the format bit. -/
theorem format_copy_not_reserved :
    ∃ s1 s2 s3 : QRState, addFormatInfo s1 = some s2 ∧ applyMask s2 = some s3 ∧
      generateQRCode [65] ⟨2, 25, [], []⟩ = some s3 ∧
      s3.moduleCount = 25 ∧ formatBit 0 = false ∧
      readCell s2.modules 8 24 = some (formatBit 0) ∧
      readCell s3.isFunction 8 24 = some false ∧
      readCell s3.modules 8 24 = some true := by
  obtain ⟨_, s1, s2, s3, _, _, h2, h3, hg, _, _, r2, r3⟩ := trace_A ⟨2, 25, [], []⟩
  refine ⟨s1, s2, s3, h2, h3, hg, r3.2.2.1.1, by decide, ?_, ?_, ?_⟩
  · rw [r2.2.2.2.1]
    decide!
  · rw [r3.2.2.2.2]
    decide!
  · rw [r3.2.2.2.1]
    decide!

/-- C13, at the text "A" (side 25).  The cell of row 0 and column 8 is not
marked when `placeModules` runs, `placeModules` writes a stream bit into it
(the module turns dark), and the final `isFunction` grid marks it: a function
cell of the finished symbol that `placeModules` wrote.  The cell of row 8 and
column 22 is not marked in the final `isFunction` grid, and `addFormatInfo`
writes it after `placeModules` (the module turns dark): a data cell written by
a step other than `placeModules`. -/
theorem placeModules_writes_function_cell :
    ∃ sp s1 s2 s3 : QRState,
      addPatterns (freshState 2) = some sp ∧
      combinedStream [65] = some streamA ∧
      placeModules sp streamA = some s1 ∧
      addFormatInfo s1 = some s2 ∧ applyMask s2 = some s3 ∧
      generateQRCode [65] ⟨2, 25, [], []⟩ = some s3 ∧
      readCell sp.isFunction 0 8 = some false ∧ readCell sp.modules 0 8 = some false ∧
      readCell s1.modules 0 8 = some true ∧ readCell s3.isFunction 0 8 = some true ∧
      readCell s1.modules 8 22 = some false ∧ readCell s2.modules 8 22 = some true ∧
      readCell s3.isFunction 8 22 = some false := by
  obtain ⟨sp, s1, s2, s3, hsp, h1, h2, h3, hg, rp, r1, r2, r3⟩ := trace_A ⟨2, 25, [], []⟩
  refine ⟨sp, s1, s2, s3, hsp, combinedStream_A, h1, h2, h3, hg, ?_, ?_, ?_, ?_, ?_, ?_, ?_⟩
  · rw [rp.2.2.2.2]
    decide!
  · rw [rp.2.2.2.1]
    decide!
  · rw [r1.2.2.2.1]
    decide!
  · rw [r3.2.2.2.2]
    decide!
  · rw [r1.2.2.2.1]
    decide!
  · rw [r2.2.2.2.1]
    decide!
  · rw [r3.2.2.2.2]
    decide!

/-! ## Claims about the dependence on the input -/

/-- C16, at a text of 107 bytes (107 times the letter A): `encodeData` returns
a stream of 872 bits, more than the 864 bits of capacity of version 5. -/
theorem encodeData_exceeds_capacity_at_107_bytes :
    ∃ bits, encodeData (selectVersion (List.replicate 107 65 : List Nat).length)
        (List.replicate 107 65) = some bits ∧
      capacityOf (selectVersion (List.replicate 107 65 : List Nat).length) = 864 ∧
      bits.length = 872 ∧ ¬ bits.length ≤ 864 := by
  obtain ⟨k, hk, hl⟩ := encodeData_total (List.replicate 107 65)
  have hc : capacityOf (selectVersion (List.replicate 107 65 : List Nat).length) = 864 := by
    decide
  refine ⟨_, hk, hc, ?_, ?_⟩
  · rw [hl, hc]; rfl
  · rw [hl, hc]; decide

/-- C16, amended: for every text `encodeData` returns a stream that holds the
mode bits, the count field and the whole payload, then four zero bits, then
whole pad bytes; nothing is truncated.  The stream has exactly the capacity of
the version for a text of at most 106 bytes, and `16 + 8 n` bits, more than
the capacity 864 of version 5, for a text of `n ≥ 107` bytes. -/
theorem encodeData_never_truncates (text : List Nat) :
    ∃ bits k, encodeData (selectVersion text.length) text = some bits ∧
      bits = headerBits text ++ List.replicate 4 false ++ padSeq true k ∧
      (headerBits text).length = 12 + 8 * text.length ∧
      (text.length ≤ 106 → bits.length = capacityOf (selectVersion text.length)) ∧
      (107 ≤ text.length → k = 0 ∧ capacityOf (selectVersion text.length) = 864 ∧
        bits.length = 16 + 8 * text.length ∧ 864 < bits.length) := by
  obtain ⟨k, hk, hl⟩ := encodeData_total text
  obtain ⟨hfit, hover⟩ := capacity_fits_iff text.length
  refine ⟨_, k, hk, rfl, headerBits_length text, ?_, ?_⟩
  · intro h
    have := hfit h
    rw [hl]
    omega
  · intro h
    have hc := hover h
    refine ⟨?_, hc, by rw [hl, hc]; omega, by rw [hl, hc]; omega⟩
    simp only [List.length_append, List.length_replicate, headerBits_length, padSeq_length,
      hc] at hl
    omega

theorem encodeData_never_truncates_witness :
    ∃ bits k, encodeData (selectVersion (List.replicate 107 65 : List Nat).length)
        (List.replicate 107 65) = some bits ∧
      bits = headerBits (List.replicate 107 65) ++ List.replicate 4 false ++ padSeq true k ∧
      (headerBits (List.replicate 107 65)).length =
        12 + 8 * (List.replicate 107 65 : List Nat).length ∧
      ((List.replicate 107 65 : List Nat).length ≤ 106 →
        bits.length = capacityOf (selectVersion (List.replicate 107 65 : List Nat).length)) ∧
      (107 ≤ (List.replicate 107 65 : List Nat).length → k = 0 ∧
        capacityOf (selectVersion (List.replicate 107 65 : List Nat).length) = 864 ∧
        bits.length = 16 + 8 * (List.replicate 107 65 : List Nat).length ∧ 864 < bits.length) :=
  encodeData_never_truncates (List.replicate 107 65)

set_option maxRecDepth 1000000 in
/-- C17: the table `generators` has 21 rows.  The rows of the counts 1 to 20
other than 7, 10, 15 and 20 exist and hold 30 zeros; for each count from 21 to
29, among them the 26 of version 5, there is no row at that index, the read
`generators[k][0]` is outside the table, and `calculateECC` on the data byte
`0x40` returns no defined value. -/
theorem generators_rows_beyond_table :
    generators.length = 21 ∧ eccCountOf 5 = 26 ∧
    [1, 2, 3, 4, 5, 6, 8, 9, 11, 12, 13, 14, 16, 17, 18, 19].all
      (fun k => generators[k]? == some (List.replicate 30 0)) = true ∧
    [21, 22, 23, 24, 25, 26, 27, 28, 29].all
      (fun k => (generators[k]? == none) && (genCoef k 0 == none) &&
        (calculateECC [64] k == none)) = true := by decide!

/-! ## Claims about the placement -/

theorem firstFree_all (v : Int) (hv : v = 2 ∨ v = 3 ∨ v = 4 ∨ v = 5) (n : Nat)
    (hn : 17 + v * 4 = (n : Int)) :
    (freeCellsN n (patternStateN v).isFunction (zigzagOrder n)).take 4 =
      [((n : Int) - 1, (n : Int) - 1), ((n : Int) - 2, (n : Int) - 1),
        ((n : Int) - 1, (n : Int) - 2), ((n : Int) - 2, (n : Int) - 2)] := by
  rcases hv with h | h | h | h <;> subst h
  · obtain rfl : n = 25 := by omega
    simp only [Nat.cast_ofNat]
    rw [firstFree_2]
    rfl
  · obtain rfl : n = 29 := by omega
    simp only [Nat.cast_ofNat]
    rw [firstFree_3]
    rfl
  · obtain rfl : n = 33 := by omega
    simp only [Nat.cast_ofNat]
    rw [firstFree_4]
    rfl
  · obtain rfl : n = 37 := by omega
    simp only [Nat.cast_ofNat]
    rw [firstFree_5]
    rfl

theorem freeCount_all (v : Int) (hv : v = 2 ∨ v = 3 ∨ v = 4 ∨ v = 5) (n : Nat)
    (hn : 17 + v * 4 = (n : Int)) :
    capacityOf v + 8 * eccCountOf v <
      (freeCellsN n (patternStateN v).isFunction (zigzagOrder n)).length := by
  rcases hv with h | h | h | h <;> subst h
  · obtain rfl : n = 25 := by omega
    simp only [Nat.cast_ofNat]
    rw [freeCount_2]
    decide
  · obtain rfl : n = 29 := by omega
    simp only [Nat.cast_ofNat]
    rw [freeCount_3]
    decide
  · obtain rfl : n = 33 := by omega
    simp only [Nat.cast_ofNat]
    rw [freeCount_4]
    decide
  · obtain rfl : n = 37 := by omega
    simp only [Nat.cast_ofNat]
    rw [freeCount_5]
    decide

theorem dark_marked_all (v : Int) (hv : v = 2 ∨ v = 3 ∨ v = 4 ∨ v = 5) :
    (patternStateN v).modules &&& (patternStateN v).isFunction = (patternStateN v).modules := by
  rcases hv with h | h | h | h <;> subst h
  · exact patternStateN_dark_marked.1
  · exact patternStateN_dark_marked.2.1
  · exact patternStateN_dark_marked.2.2.1
  · exact patternStateN_dark_marked.2.2.2

/-- C19: on two `n` by `n` grids of odd side `n ≥ 9`, `placeModules` returns
and leaves `isFunction` alone; no cell of the zig-zag order is in column 6; bit
`k` of the stream is written to the `k`-th cell of the zig-zag order that is
not marked as a function cell, and such a cell keeps its module when the stream
has no bit `k`; the cells marked as function cells and the cells outside the
order, column 6 among them, keep their module.  For a version `v` of 2 to 5,
on the state `sp` of the function patterns, with `mc = moduleCount`, the first
four cells not marked are `(column, row) = (mc-1, mc-1), (mc-2, mc-1),
(mc-1, mc-2), (mc-2, mc-2)`, and after `placeModules` they hold the first four
bits of the stream, whatever the stream is; every combined stream starts with
the bits 0, 1, 0, 0, and the combined stream of a non-empty text of at most
46 bytes exists. -/
theorem placeModules_zigzag_order {n : Nat} (s : QRState) (hwf : WF n s) (hodd : n % 2 = 1)
    (h9 : 9 ≤ n) (data : List Bool) (v : Int) (hv : v = 2 ∨ v = 3 ∨ v = 4 ∨ v = 5) :
    ((∀ c ∈ zigzagOrder n, c.1 ≠ 6) ∧
      ∃ s', placeModules s data = some s' ∧ s'.isFunction = s.isFunction ∧
        (∀ (k : Nat) (c : Int × Int), (freeCells s.isFunction (zigzagOrder n))[k]? = some c →
          (∀ b, data[k]? = some b → readCell s'.modules c.2 c.1 = some b) ∧
          (data.length ≤ k → readCell s'.modules c.2 c.1 = readCell s.modules c.2 c.1)) ∧
        (∀ y x : Int, readCell s.isFunction y x = some true →
          readCell s'.modules y x = readCell s.modules y x) ∧
        (∀ y x : Int, (x, y) ∉ zigzagOrder n →
          readCell s'.modules y x = readCell s.modules y x)) ∧
    (∃ (mc : Nat) (sp : QRState),
      17 + v * 4 = (mc : Int) ∧ addPatterns (freshState v) = some sp ∧
      (freeCells sp.isFunction (zigzagOrder mc)).take 4 =
        [((mc : Int) - 1, (mc : Int) - 1), ((mc : Int) - 2, (mc : Int) - 1),
          ((mc : Int) - 1, (mc : Int) - 2), ((mc : Int) - 2, (mc : Int) - 2)] ∧
      ∀ stream : List Bool, ∃ s1, placeModules sp stream = some s1 ∧
        (∀ b, stream[0]? = some b →
          readCell s1.modules ((mc : Int) - 1) ((mc : Int) - 1) = some b) ∧
        (∀ b, stream[1]? = some b →
          readCell s1.modules ((mc : Int) - 1) ((mc : Int) - 2) = some b) ∧
        (∀ b, stream[2]? = some b →
          readCell s1.modules ((mc : Int) - 2) ((mc : Int) - 1) = some b) ∧
        (∀ b, stream[3]? = some b →
          readCell s1.modules ((mc : Int) - 2) ((mc : Int) - 2) = some b)) ∧
    (∀ (text : List Nat) (bits : List Bool), combinedStream text = some bits →
      bits.take 4 = [false, true, false, false]) ∧
    (∀ text : List Nat, text ≠ [] → text.length ≤ 46 →
      ∃ bits, combinedStream text = some bits) := by
  refine ⟨?_, ?_, ?_, ?_⟩
  · obtain ⟨_, hin⟩ := zigzagOrder_cells n hodd h9
    obtain ⟨s', h1, _, _, hf, ha, hb⟩ := placeModules_zigzag hwf hodd h9 data
    refine ⟨fun c hc => (hin c hc).2.2.1, s', h1, hf, ?_, ?_, ?_⟩
    · intro k c hk
      have h := ha k c hk
      constructor
      · intro b hb'
        rw [h, hb']
        rfl
      · intro hlen
        rw [h, List.getElem?_eq_none hlen]
        rfl
    · intro y x hm
      apply hb
      intro hmem
      have := (mem_freeCells.mp hmem).2
      rw [hm] at this
      simp at this
    · intro y x hnot
      apply hb
      intro hmem
      exact hnot (mem_freeCells.mp hmem).1
  · obtain ⟨mc, sp, hn, hodd', h21, hsp, hrel, _⟩ := patternState_rel v hv
    have hfour := firstFree_all v hv mc hn
    rw [← freeCells_sim hrel] at hfour
    refine ⟨mc, sp, hn, hsp, hfour, ?_⟩
    intro stream
    obtain ⟨s1, h1, _, _, _, ha, _⟩ := placeModules_zigzag hrel.2.2.1 hodd' (by omega) stream
    have hget : ∀ k, k < 4 → (freeCells sp.isFunction (zigzagOrder mc))[k]? =
        ([((mc : Int) - 1, (mc : Int) - 1), ((mc : Int) - 2, (mc : Int) - 1),
          ((mc : Int) - 1, (mc : Int) - 2), ((mc : Int) - 2, (mc : Int) - 2)] :
            List (Int × Int))[k]? := by
      intro k hk
      rw [← hfour, List.getElem?_take_of_lt hk]
    have c0 := ha 0 _ (hget 0 (by omega))
    have c1 := ha 1 _ (hget 1 (by omega))
    have c2 := ha 2 _ (hget 2 (by omega))
    have c3 := ha 3 _ (hget 3 (by omega))
    refine ⟨s1, h1, ?_, ?_, ?_, ?_⟩
    · intro b hb
      rw [hb] at c0
      exact c0
    · intro b hb
      rw [hb] at c1
      exact c1
    · intro b hb
      rw [hb] at c2
      exact c2
    · intro b hb
      rw [hb] at c3
      exact c3
  · intro text bits hbits
    obtain ⟨m0, m1, m2, m3⟩ := combinedStream_mode text hbits
    apply List.ext_getElem?
    intro k
    by_cases hk : k < 4
    · rw [List.getElem?_take_of_lt hk]
      interval_cases k
      · exact m0
      · exact m1
      · exact m2
      · exact m3
    · rw [List.getElem?_eq_none (by rw [List.length_take]; omega),
        List.getElem?_eq_none (by simp; omega)]
  · intro text _ hfit
    obtain ⟨tail, ecc, _, _, _, _, hb⟩ := combinedStream_defined text hfit
    exact ⟨_, hb⟩

theorem placeModules_zigzag_order_witness :
    WF 25 (freshState 2) ∧ 25 % 2 = 1 ∧ 9 ≤ 25 ∧
    ((5 : Int) = 2 ∨ (5 : Int) = 3 ∨ (5 : Int) = 4 ∨ (5 : Int) = 5) ∧
    ((∀ c ∈ zigzagOrder 25, c.1 ≠ 6) ∧
      ∃ s', placeModules (freshState 2) [true, false, true] = some s' ∧
        s'.isFunction = (freshState 2).isFunction ∧
        (∀ (k : Nat) (c : Int × Int),
          (freeCells (freshState 2).isFunction (zigzagOrder 25))[k]? = some c →
          (∀ b, [true, false, true][k]? = some b → readCell s'.modules c.2 c.1 = some b) ∧
          ([true, false, true].length ≤ k →
            readCell s'.modules c.2 c.1 = readCell (freshState 2).modules c.2 c.1)) ∧
        (∀ y x : Int, readCell (freshState 2).isFunction y x = some true →
          readCell s'.modules y x = readCell (freshState 2).modules y x) ∧
        (∀ y x : Int, (x, y) ∉ zigzagOrder 25 →
          readCell s'.modules y x = readCell (freshState 2).modules y x)) ∧
    (∃ (mc : Nat) (sp : QRState),
      17 + (5 : Int) * 4 = (mc : Int) ∧ addPatterns (freshState 5) = some sp ∧
      (freeCells sp.isFunction (zigzagOrder mc)).take 4 =
        [((mc : Int) - 1, (mc : Int) - 1), ((mc : Int) - 2, (mc : Int) - 1),
          ((mc : Int) - 1, (mc : Int) - 2), ((mc : Int) - 2, (mc : Int) - 2)] ∧
      ∀ stream : List Bool, ∃ s1, placeModules sp stream = some s1 ∧
        (∀ b, stream[0]? = some b →
          readCell s1.modules ((mc : Int) - 1) ((mc : Int) - 1) = some b) ∧
        (∀ b, stream[1]? = some b →
          readCell s1.modules ((mc : Int) - 1) ((mc : Int) - 2) = some b) ∧
        (∀ b, stream[2]? = some b →
          readCell s1.modules ((mc : Int) - 2) ((mc : Int) - 1) = some b) ∧
        (∀ b, stream[3]? = some b →
          readCell s1.modules ((mc : Int) - 2) ((mc : Int) - 2) = some b)) ∧
    (∀ (text : List Nat) (bits : List Bool), combinedStream text = some bits →
      bits.take 4 = [false, true, false, false]) ∧
    (∀ text : List Nat, text ≠ [] → text.length ≤ 46 →
      ∃ bits, combinedStream text = some bits) :=
  ⟨wfB_iff (by decide), by decide, by decide, Or.inr (Or.inr (Or.inr rfl)),
    placeModules_zigzag_order (freshState 2) (wfB_iff (by decide)) (by decide) (by decide)
      [true, false, true] 5 (Or.inr (Or.inr (Or.inr rfl)))⟩

/-- C20: for a version `v` of 2 to 5 and every stream, right after
`placeModules` placed the stream on the state `sp` of the function patterns,
the `k`-th cell of the zig-zag order that is not marked as a function cell
holds `false` for every `k` from the length of the stream on.  In
`generateQRCode` for a non-empty text of that version, `placeModules` runs on
`sp` with the combined stream; a combined stream has `capacity + 8 eccCount`
bits, fewer than the cells not marked, so there are such cells; and the
combined stream of a non-empty text of at most 46 bytes exists. -/
theorem placeModules_rest_false (v : Int) (hv : v = 2 ∨ v = 3 ∨ v = 4 ∨ v = 5)
    (data : List Bool) :
    ∃ (mc : Nat) (sp s1 : QRState),
      17 + v * 4 = (mc : Int) ∧ addPatterns (freshState v) = some sp ∧
      (∀ (text : List Nat) (t : QRState), text ≠ [] → selectVersion text.length = v →
        generateQRCode text t = (combinedStream text).bind (fun bits =>
          (placeModules sp bits).bind (fun r => (addFormatInfo r).bind applyMask))) ∧
      placeModules sp data = some s1 ∧
      (∀ (k : Nat) (c : Int × Int), data.length ≤ k →
        (freeCells sp.isFunction (zigzagOrder mc))[k]? = some c →
        readCell s1.modules c.2 c.1 = some false) ∧
      capacityOf v + 8 * eccCountOf v < (freeCells sp.isFunction (zigzagOrder mc)).length ∧
      (∀ (text : List Nat) (bits : List Bool), selectVersion text.length = v →
        combinedStream text = some bits →
        bits.length = capacityOf v + 8 * eccCountOf v) ∧
      (∀ text : List Nat, text ≠ [] → text.length ≤ 46 →
        ∃ bits, combinedStream text = some bits) := by
  obtain ⟨mc, sp, hn, hodd, h21, hsp, hrel, hP⟩ := patternState_rel v hv
  obtain ⟨s1, h1, _, _, _, ha, _⟩ := placeModules_zigzag hrel.2.2.1 hodd (by omega) data
  refine ⟨mc, sp, s1, hn, hsp, ?_, h1, ?_, ?_, ?_, ?_⟩
  · intro text t hne hsel
    subst hsel
    exact generateQRCode_stages text hne t hsp (patternB_parts hP).2.1
  · intro k c hk hc
    rw [ha k c hc, List.getElem?_eq_none hk]
    have hfree := (mem_freeCells.mp (List.getElem?_mem hc)).2
    rw [readFunction_sim hrel] at hfree
    show readCell sp.modules c.2 c.1 = some false
    rw [readModules_sim hrel]
    exact readCellN_blank (dark_marked_all _ hv) hfree
  · rw [freeCells_sim hrel]
    exact freeCount_all _ hv mc hn
  · intro text bits hsel hbits
    subst hsel
    exact combinedStream_length text hbits
  · intro text _ hfit
    obtain ⟨tail, ecc, _, _, _, _, hb⟩ := combinedStream_defined text hfit
    exact ⟨_, hb⟩

theorem placeModules_rest_false_witness :
    ((2 : Int) = 2 ∨ (2 : Int) = 3 ∨ (2 : Int) = 4 ∨ (2 : Int) = 5) ∧
    ∃ (mc : Nat) (sp s1 : QRState),
      17 + (2 : Int) * 4 = (mc : Int) ∧ addPatterns (freshState 2) = some sp ∧
      (∀ (text : List Nat) (t : QRState), text ≠ [] → selectVersion text.length = 2 →
        generateQRCode text t = (combinedStream text).bind (fun bits =>
          (placeModules sp bits).bind (fun r => (addFormatInfo r).bind applyMask))) ∧
      placeModules sp [true, false, true] = some s1 ∧
      (∀ (k : Nat) (c : Int × Int), [true, false, true].length ≤ k →
        (freeCells sp.isFunction (zigzagOrder mc))[k]? = some c →
        readCell s1.modules c.2 c.1 = some false) ∧
      capacityOf 2 + 8 * eccCountOf 2 < (freeCells sp.isFunction (zigzagOrder mc)).length ∧
      (∀ (text : List Nat) (bits : List Bool), selectVersion text.length = 2 →
        combinedStream text = some bits →
        bits.length = capacityOf 2 + 8 * eccCountOf 2) ∧
      (∀ text : List Nat, text ≠ [] → text.length ≤ 46 →
        ∃ bits, combinedStream text = some bits) :=
  ⟨Or.inl rfl, placeModules_rest_false 2 (Or.inl rfl) [true, false, true]⟩

/-! ## Claims about the tables and the field multiplication -/

theorem shiftLeft_one_xor (u v : Nat) : (u ^^^ v) <<< 1 = (u <<< 1) ^^^ (v <<< 1) := by
  apply Nat.eq_of_testBit_eq
  intro i
  simp only [Nat.testBit_shiftLeft, Nat.testBit_xor]
  cases decide (i ≥ 1) <;> simp

theorem shiftLeft_one_eq_xtime {r : Nat} (hr : r < 256) :
    r <<< 1 = xtime r ^^^ (if r.testBit 7 then 0x11D else 0) := by
  rw [xtime_eq r hr, Nat.xor_assoc, Nat.xor_self, Nat.xor_zero]

theorem clBit_xor_left (a b c i : Nat) :
    clBit (a ^^^ b) c i = clBit a c i ^^^ clBit b c i := by
  unfold clBit
  rw [Nat.testBit_xor]
  cases a.testBit i <;> cases b.testBit i <;> simp

theorem clmul_xor_left (a b c : Nat) : clmul (a ^^^ b) c = clmul a c ^^^ clmul b c := by
  unfold clmul
  simp only [clBit_xor_left]
  ac_rfl

theorem clmul_zero_left (c : Nat) : clmul 0 c = 0 := by
  simp [clmul, clBit]

theorem clmul_one_left (c : Nat) : clmul 1 c = c := by
  simp [clmul, clBit, Nat.testBit]

theorem clBit_double_zero (q c : Nat) : clBit (q <<< 1) c 0 = 0 := by
  unfold clBit
  rw [Nat.testBit_shiftLeft]
  simp

theorem clBit_double_succ (q c j : Nat) : clBit (q <<< 1) c (j + 1) = (clBit q c j) <<< 1 := by
  unfold clBit
  rw [Nat.testBit_shiftLeft]
  simp only [ge_iff_le, Nat.le_add_left, decide_True, Nat.add_sub_cancel, Bool.true_and]
  split
  · rw [Nat.shiftLeft_add]
  · rfl

theorem clBit_high {q : Nat} (hq : q < 128) (c : Nat) : clBit q c 7 = 0 := by
  unfold clBit
  rw [Nat.testBit_lt_two_pow (show q < 2 ^ 7 from hq)]
  rfl

/-- Multiplication by `x` of a carry-less product. -/
theorem clmul_double {q : Nat} (hq : q < 128) (c : Nat) :
    clmul (q <<< 1) c = (clmul q c) <<< 1 := by
  unfold clmul
  rw [clBit_double_zero, clBit_double_succ, clBit_double_succ, clBit_double_succ,
    clBit_double_succ, clBit_double_succ, clBit_double_succ, clBit_double_succ,
    clBit_high hq, Nat.xor_zero, Nat.zero_xor]
  simp only [shiftLeft_one_xor]

/-- The polynomial `b * x^i` is `xtime^[i] b` up to a multiple of 0x11D. -/
theorem shiftLeft_eq_xtimeIter {b : Nat} (hb : b < 256) :
    ∀ i, i ≤ 7 → ∃ q, q < 2 ^ i ∧ b <<< i = clmul q 0x11D ^^^ xtime^[i] b := by
  intro i
  induction i with
  | zero =>
    intro _
    exact ⟨0, by decide, by rw [clmul_zero_left]; simp⟩
  | succ i ih =>
    intro hi
    obtain ⟨q, hq, h⟩ := ih (by omega)
    have hr : xtime^[i] b < 256 := xtimeIter_lt i hb
    have hq128 : q < 128 := by
      have : 2 ^ i ≤ 2 ^ 6 := Nat.pow_le_pow_right (by decide) (by omega)
      omega
    refine ⟨(q <<< 1) ^^^ (if (xtime^[i] b).testBit 7 then 1 else 0), ?_, ?_⟩
    · have h1 : q <<< 1 < 2 ^ (i + 1) := by
        rw [Nat.shiftLeft_eq, Nat.pow_succ]
        omega
      apply Nat.xor_lt_two_pow h1
      have : 1 < 2 ^ (i + 1) := Nat.one_lt_two_pow (by omega)
      split <;> omega
    · rw [Nat.shiftLeft_add, h, shiftLeft_one_xor, shiftLeft_one_eq_xtime hr, clmul_xor_left,
        clmul_double hq128, Function.iterate_succ_apply']
      have hc : clmul (if (xtime^[i] b).testBit 7 then 1 else 0) 0x11D =
          (if (xtime^[i] b).testBit 7 then 0x11D else 0) := by
        split
        · exact clmul_one_left _
        · exact clmul_zero_left _
      rw [hc]
      ac_rfl

theorem clBit_eq_gfBit (a : Nat) {b : Nat} (hb : b < 256) (i : Nat) (hi : i ≤ 7) :
    ∃ q, clBit a b i = clmul q 0x11D ^^^ gfBit a b i := by
  unfold clBit gfBit
  by_cases h : a.testBit i
  · rw [if_pos h, if_pos h]
    obtain ⟨q, _, hq⟩ := shiftLeft_eq_xtimeIter hb i hi
    exact ⟨q, hq⟩
  · rw [if_neg h, if_neg h]
    exact ⟨0, by rw [clmul_zero_left, Nat.zero_xor]⟩

/-- The reference product is the carry-less product up to a multiple of
0x11D: it is the remainder of the division of the carry-less product by
`x^8 + x^4 + x^3 + x^2 + 1`. -/
theorem clmul_eq_gfMulRef (a : Nat) {b : Nat} (hb : b < 256) :
    ∃ q, clmul a b = clmul q 0x11D ^^^ gfMulRef a b := by
  obtain ⟨q0, h0⟩ := clBit_eq_gfBit a hb 0 (by omega)
  obtain ⟨q1, h1⟩ := clBit_eq_gfBit a hb 1 (by omega)
  obtain ⟨q2, h2⟩ := clBit_eq_gfBit a hb 2 (by omega)
  obtain ⟨q3, h3⟩ := clBit_eq_gfBit a hb 3 (by omega)
  obtain ⟨q4, h4⟩ := clBit_eq_gfBit a hb 4 (by omega)
  obtain ⟨q5, h5⟩ := clBit_eq_gfBit a hb 5 (by omega)
  obtain ⟨q6, h6⟩ := clBit_eq_gfBit a hb 6 (by omega)
  obtain ⟨q7, h7⟩ := clBit_eq_gfBit a hb 7 (by omega)
  refine ⟨q0 ^^^ q1 ^^^ q2 ^^^ q3 ^^^ q4 ^^^ q5 ^^^ q6 ^^^ q7, ?_⟩
  simp only [clmul_xor_left]
  generalize clmul q0 0x11D = c0 at h0 ⊢
  generalize clmul q1 0x11D = c1 at h1 ⊢
  generalize clmul q2 0x11D = c2 at h2 ⊢
  generalize clmul q3 0x11D = c3 at h3 ⊢
  generalize clmul q4 0x11D = c4 at h4 ⊢
  generalize clmul q5 0x11D = c5 at h5 ⊢
  generalize clmul q6 0x11D = c6 at h6 ⊢
  generalize clmul q7 0x11D = c7 at h7 ⊢
  unfold clmul gfMulRef
  rw [h0, h1, h2, h3, h4, h5, h6, h7]
  ac_rfl

set_option maxRecDepth 1000000 in
theorem expTableOK_true : expTableOK = true := by decide!

set_option maxRecDepth 1000000 in
theorem GF_LOG_length : GF_LOG.length = 256 := by decide!

set_option maxRecDepth 1000000 in
theorem GF_EXP_length : GF_EXP.length = 512 := by decide!

set_option maxRecDepth 1000000 in
theorem GF_EXP_ends : GF_EXP[511]? = some 0 ∧ GF_EXP[511 % 255]? = some 2 := by decide!

theorem zip_iterate_mem (f : Nat → Nat) (a n i : Nat) (hi : i < n) :
    (f^[i] a, i) ∈ (List.iterate f a n).zip (List.range n) := by
  rw [List.mem_iff_getElem?]
  exact ⟨i, List.getElem?_zip_eq_some.mpr
    ⟨List.getElem?_iterate _ _ _ _ hi, List.getElem?_range hi⟩⟩

theorem log_pw {i : Nat} (hi : i < 255) : readInt GF_LOG (pw i) = some (i : Int) := by
  have h := expTableOK_true
  unfold expTableOK at h
  rw [List.all_eq_true] at h
  have hp := h _ (zip_iterate_mem xtime 1 255 i hi)
  simp only [beq_iff_eq] at hp
  have hlt : pw i < GF_LOG.length := by
    rw [GF_LOG_length]
    exact pw_lt i
  rw [readInt_natCast, getElem?_some_getD GF_LOG (pw i) (-2) hlt]
  rw [List.getD_eq_getElem?_getD] at hp
  show some ((GF_LOG[xtime^[i] 1]?).getD (-2)) = some (i : Int)
  rw [hp]

/-- C28: for bytes `a`, `b` (0..255), `gfMultiply a b` is 0 when `a = 0` or
`b = 0`; otherwise the index `GF_LOG[a] + GF_LOG[b]` is in 0..508, inside the
512 entries of `GF_EXP`, and the entry read is the remainder `r < 256` of the
carry-less product of `a` and `b` modulo `x^8 + x^4 + x^3 + x^2 + 1` (0x11D):
the carry-less product is `r` plus a multiple `q * 0x11D`; `r` is also the
value of the shift-and-add product `gfMulRef`. -/
theorem gfMultiply_is_field_product (a b : Nat) (ha : a ≤ 255) (hb : b ≤ 255) :
    ((a = 0 ∨ b = 0) → gfMultiply a b = some 0) ∧
    (a ≠ 0 → b ≠ 0 →
      ∃ la lb r q : Nat,
        readInt GF_LOG a = some (la : Int) ∧ readInt GF_LOG b = some (lb : Int) ∧
        la + lb ≤ 508 ∧ la + lb < GF_EXP.length ∧
        gfMultiply a b = GF_EXP[la + lb]? ∧ gfMultiply a b = some r ∧ r < 256 ∧
        r = gfMulRef a b ∧ clmul a b = clmul q 0x11D ^^^ r) := by
  constructor
  · intro h
    unfold gfMultiply
    rw [if_pos (by omega)]
  · intro ha0 hb0
    obtain ⟨la1, la2, la3⟩ := logOf_spec (f := a) (by omega) ha0
    obtain ⟨lb1, lb2, lb3⟩ := logOf_spec (f := b) (by omega) hb0
    obtain ⟨q, hq⟩ := clmul_eq_gfMulRef a (show b < 256 by omega)
    have hval : pw (logOf a + logOf b) = gfMulRef a b := by
      rw [Nat.add_comm, pw_add, la3, ← gfMulRef_pw (show a < 256 by omega), lb3]
    have hmul : gfMultiply a b = GF_EXP[logOf a + logOf b]? := by
      unfold gfMultiply
      rw [if_neg (by omega), la1, lb1]
      simp only [Option.bind_eq_bind, Option.some_bind]
      rw [← Nat.cast_add, readNat_natCast]
    refine ⟨logOf a, logOf b, gfMulRef a b, q, la1, lb1, by omega, ?_, hmul, ?_,
      gfMulRef_lt a (by omega), rfl, hq⟩
    · rw [GF_EXP_length]; omega
    · rw [hmul, GF_EXP_get _ (by omega), hval]

theorem gfMultiply_is_field_product_witness :
    (3 : Nat) ≤ 255 ∧ (7 : Nat) ≤ 255 ∧
    ((((3 : Nat) = 0 ∨ (7 : Nat) = 0) → gfMultiply (3 : Nat) (7 : Nat) = some 0) ∧
    ((3 : Nat) ≠ 0 → (7 : Nat) ≠ 0 →
      ∃ la lb r q : Nat,
        readInt GF_LOG (3 : Nat) = some (la : Int) ∧ readInt GF_LOG (7 : Nat) = some (lb : Int) ∧
        la + lb ≤ 508 ∧ la + lb < GF_EXP.length ∧
        gfMultiply (3 : Nat) (7 : Nat) = GF_EXP[la + lb]? ∧
        gfMultiply (3 : Nat) (7 : Nat) = some r ∧ r < 256 ∧
        r = gfMulRef 3 7 ∧ clmul 3 7 = clmul q 0x11D ^^^ r)) :=
  ⟨by decide, by decide, gfMultiply_is_field_product 3 7 (by decide) (by decide)⟩

/-- C29: the 511 listed entries of `GF_EXP` are the powers `2^0, ..., 2^510`
of the generator, but the table has 512 entries and the last one, index 511,
is the zero of the zero-initialisation, while `2^511 = 2` in GF(256) and
`GF_EXP[511 mod 255] = GF_EXP[1] = 2`. -/
theorem GF_EXP_last_entry_is_zero :
    GF_EXP.length = 512 ∧ GF_EXP.take 511 = List.iterate xtime 1 511 ∧
    GF_EXP[511]? = some 0 ∧ gfPow 2 511 = 2 ∧ 511 % 255 = 1 ∧
    GF_EXP[511 % 255]? = some 2 := by
  refine ⟨GF_EXP_length, GF_EXP_iterate, GF_EXP_ends.1, ?_, by decide, GF_EXP_ends.2⟩
  rw [gfPow_two, ← pw_mod]
  decide

/-- C30: for a byte `a` from 1 to 255, `GF_LOG[a]` is in 0..254 and
`GF_EXP[GF_LOG[a]] = a`; for `i` from 0 to 254, `GF_LOG[GF_EXP[i]] = i`. -/
theorem log_exp_tables_inverse (a : Nat) (ha : 1 ≤ a ∧ a ≤ 255) (i : Nat) (hi : i ≤ 254) :
    (∃ l : Nat, readInt GF_LOG a = some (l : Int) ∧ l ≤ 254 ∧ GF_EXP[l]? = some a) ∧
    (∃ e : Nat, GF_EXP[i]? = some e ∧ readInt GF_LOG e = some (i : Int)) := by
  constructor
  · obtain ⟨h1, h2, h3⟩ := logOf_spec (f := a) (by omega) (by omega)
    exact ⟨logOf a, h1, by omega, by rw [GF_EXP_get _ (by omega), h3]⟩
  · exact ⟨pw i, GF_EXP_get i (by omega), log_pw (by omega)⟩

theorem log_exp_tables_inverse_witness :
    (1 ≤ 29 ∧ 29 ≤ 255) ∧ 8 ≤ 254 ∧
    (∃ l : Nat, readInt GF_LOG (29 : Nat) = some (l : Int) ∧ l ≤ 254 ∧
      GF_EXP[l]? = some 29) ∧
    (∃ e : Nat, GF_EXP[8]? = some e ∧ readInt GF_LOG e = some ((8 : Nat) : Int)) :=
  ⟨by decide, by decide, log_exp_tables_inverse 29 (by decide) 8 (by decide)⟩

/-- C24: the constant 0x77C4 of `addFormatInfo`, binary 111011111000100, is
the format word of level L (01) and mask 0 (000): the five data bits 01000,
followed by the ten bits 1111010110 of the remainder of `01000 * x^10` modulo
the generator 0x537 of the BCH(15,5) code (the quotient is 01010), the whole
XORed with 0x5412; and every bit that `addFormatInfo` takes is a bit of this
word. -/
theorem format_constant_is_level_L_mask_0 :
    formatWord 1 0 = 0x77C4 ∧ (0x77C4 : Nat) = 0b111011111000100 ∧
    ((1 <<< 3) ||| 0 : Nat) = 0b01000 ∧
    bchRemainder (0b01000 <<< 10) = 0b1111010110 ∧ bchRemainder (0b01000 <<< 10) < 2 ^ 10 ∧
    (0b01000 <<< 10 : Nat) = clmul 0b01010 0x537 ^^^ bchRemainder (0b01000 <<< 10) ∧
    ((0b01000 <<< 10) ||| 0b1111010110 : Nat) ^^^ 0x5412 = 0x77C4 ∧
    ∀ i, formatBit i = (formatWord 1 0).testBit i := by
  refine ⟨by decide, by decide, by decide, by decide, by decide, by decide, by decide, ?_⟩
  intro i
  have h : formatWord 1 0 = 0x77C4 := by decide
  rw [h]
  unfold formatBit
  simp [Nat.testBit, Nat.and_comm]

/-! ## The alignment pattern -/

theorem mem_alignOffsets {d : Int} : d ∈ alignOffsets ↔ -2 ≤ d ∧ d ≤ 2 := by
  unfold alignOffsets
  simp only [List.mem_cons, List.mem_singleton, List.not_mem_nil, or_false]
  omega

/-- The calls of the loop body of `addAlignmentPatterns` for the row
`6, p` of the table, `p = moduleCount - 7`: the centres `(6, 6)`, `(6, p)`
and `(p, 6)` are skipped, and the function is the drawing at `(p, p)`. -/
theorem alignment_calls {n : Nat} {s : QRState} (hmc : s.moduleCount = (n : Int))
    (h25 : 25 ≤ n) (hver : 2 ≤ s.version ∧ s.version ≤ 6) (pos : List Int)
    (hrow : positions[(s.version - 2).toNat]? = some pos)
    (hpos : pos = [6, (n : Int) - 7, 0, 0, 0, 0, 0]) :
    alignAt pos 0 s 0 = some s ∧ alignAt pos 0 s 1 = some s ∧ alignAt pos 1 s 0 = some s ∧
      alignAt pos 1 s 1 = alignOffsets.foldlM
        (fun s dy => alignOffsets.foldlM (alignCell ((n : Int) - 7) ((n : Int) - 7) dy) s) s ∧
      addAlignmentPatterns s = alignAt pos 1 s 1 := by
  have h00 : alignAt pos 0 s 0 = some s := by
    subst hpos
    unfold alignAt
    simp only [List.getElem?_cons_zero, Option.bind_eq_bind, Option.some_bind]
    rw [if_pos (Or.inl ⟨by omega, by omega⟩)]
  have h01 : alignAt pos 0 s 1 = some s := by
    subst hpos
    unfold alignAt
    simp only [List.getElem?_cons_zero, List.getElem?_cons_succ, Option.bind_eq_bind,
      Option.some_bind]
    rw [if_pos (Or.inr (Or.inl ⟨by omega, by omega⟩))]
  have h10 : alignAt pos 1 s 0 = some s := by
    subst hpos
    unfold alignAt
    simp only [List.getElem?_cons_zero, List.getElem?_cons_succ, Option.bind_eq_bind,
      Option.some_bind]
    rw [if_pos (Or.inr (Or.inr ⟨by omega, by omega⟩))]
  refine ⟨h00, h01, h10, ?_, ?_⟩
  · subst hpos
    unfold alignAt
    simp only [List.getElem?_cons_zero, List.getElem?_cons_succ, Option.bind_eq_bind,
      Option.some_bind]
    rw [if_neg (by omega)]
  · unfold addAlignmentPatterns
    rw [if_neg (by omega), hrow]
    have hr : List.range 2 = [0, 1] := rfl
    simp only [Option.bind_eq_bind, Option.some_bind, hr, List.foldlM_cons, List.foldlM_nil,
      h00, h01, h10, Option.pure_def, Option.bind_some]

/-- The two loops that draw an alignment pattern at a centre at least two
cells inside the grid return, and leave every cell outside the 5 by 5
footprint as it was, module and mark. -/
theorem drawAlignment_frame {n : Nat} {s : QRState} (h : WF n s) (cx cy : Int)
    (hx : 2 ≤ cx ∧ cx + 2 < n) (hy : 2 ≤ cy ∧ cy + 2 < n) :
    ∃ s', alignOffsets.foldlM (fun s dy => alignOffsets.foldlM (alignCell cx cy dy) s) s =
        some s' ∧ s'.version = s.version ∧ WF n s' ∧
      ∀ y x : Int, ¬ (cy - 2 ≤ y ∧ y ≤ cy + 2 ∧ cx - 2 ≤ x ∧ x ≤ cx + 2) →
        readCell s'.modules y x = readCell s.modules y x ∧
          readCell s'.isFunction y x = readCell s.isFunction y x := by
  apply foldlM_inv (fun s' => s'.version = s.version ∧ WF n s' ∧
      ∀ y x : Int, ¬ (cy - 2 ≤ y ∧ y ≤ cy + 2 ∧ cx - 2 ≤ x ∧ x ≤ cx + 2) →
        readCell s'.modules y x = readCell s.modules y x ∧
          readCell s'.isFunction y x = readCell s.isFunction y x) _ _ _ s
    ⟨rfl, h, fun _ _ _ => ⟨rfl, rfl⟩⟩
  intro s1 dy hdy hi1
  rw [mem_alignOffsets] at hdy
  apply foldlM_inv (fun s' => s'.version = s.version ∧ WF n s' ∧
      ∀ y x : Int, ¬ (cy - 2 ≤ y ∧ y ≤ cy + 2 ∧ cx - 2 ≤ x ∧ x ≤ cx + 2) →
        readCell s'.modules y x = readCell s.modules y x ∧
          readCell s'.isFunction y x = readCell s.isFunction y x) _ _ _ s1 hi1
  intro s2 dx hdx ⟨hv2, hwf2, hf2⟩
  rw [mem_alignOffsets] at hdx
  obtain ⟨s3, e3, v3, wf3, f3, m3⟩ := setModule_spec hwf2 (cx + dx) (cy + dy)
    (decide (max dx.natAbs dy.natAbs ≠ 1))
  obtain ⟨s4, e4, v4, wf4, m4, f4⟩ := markFunction_spec wf3 (y := cy + dy) (x := cx + dx)
    (by omega) (by omega)
  refine ⟨s4, ?_, by rw [v4, v3, hv2], wf4, ?_⟩
  · unfold alignCell
    simp only [Option.bind_eq_bind, e3, Option.some_bind, e4]
  · intro y x hout
    rw [m4, m3 y x, f4 y x, f3, if_neg (by omega), if_neg (by omega)]
    exact hf2 y x hout

set_option maxRecDepth 1000000 in
theorem patternStateN_alignment :
    alignmentBN 18 18 (patternStateN 2) = true ∧ alignmentBN 22 22 (patternStateN 3) = true ∧
      alignmentBN 26 26 (patternStateN 4) = true ∧ alignmentBN 30 30 (patternStateN 5) = true := by
  decide!

theorem alignmentBN_cells {n : Nat} {s : QRState} {a : NState} (h : Rel n s a) {cx cy : Int}
    (hb : alignmentBN cx cy a = true) (dy dx : Int) (hdy : -2 ≤ dy ∧ dy ≤ 2)
    (hdx : -2 ≤ dx ∧ dx ≤ 2) :
    readCell s.modules (cy + dy) (cx + dx) = some (decide (max dx.natAbs dy.natAbs ≠ 1)) ∧
      readCell s.isFunction (cy + dy) (cx + dx) = some true := by
  unfold alignmentBN at hb
  simp only [List.all_eq_true, Bool.and_eq_true, beq_iff_eq] at hb
  have := hb dy (mem_alignOffsets.2 hdy) dx (mem_alignOffsets.2 hdx)
  rw [readModules_sim h, readFunction_sim h]
  exact this

theorem alignment_all (v : Int) (hv : v = 2 ∨ v = 3 ∨ v = 4 ∨ v = 5) (n : Nat)
    (hn : 17 + v * 4 = (n : Int)) :
    alignmentBN ((n : Int) - 7) ((n : Int) - 7) (patternStateN v) = true ∧
      positions[(v - 2).toNat]? = some [6, (n : Int) - 7, 0, 0, 0, 0, 0] := by
  rcases hv with h | h | h | h <;> subst h
  · obtain rfl : n = 25 := by omega
    exact ⟨patternStateN_alignment.1, rfl⟩
  · obtain rfl : n = 29 := by omega
    exact ⟨patternStateN_alignment.2.1, rfl⟩
  · obtain rfl : n = 33 := by omega
    exact ⟨patternStateN_alignment.2.2.1, rfl⟩
  · obtain rfl : n = 37 := by omega
    exact ⟨patternStateN_alignment.2.2.2, rfl⟩

/-- C21: for a version `v` of 2 to 5, of side `n = 17 + 4 v`, the row of the
table of `addAlignmentPatterns` is `6, n - 7`; on the state that the finder
and timing patterns leave, the calls for the centres `(6, 6)`, `(6, n - 7)`
and `(n - 7, 6)` change nothing and the function is the one drawing at
`(n - 7, n - 7)`; it returns and leaves every cell outside the 5 by 5
footprint as it was; each of the 25 cells of the footprint is dark unless its
Chebyshev distance from the centre is 1, and is marked.  For every stream the
placement, the format information and the mask then return, and the 25 cells
hold the same modules and are marked in the last state; so they do in every
grid that `generateQRCode` returns for a non-empty text of that version, and
`generateQRCode` returns for every non-empty text of at most 46 bytes. -/
theorem alignment_pattern_final (v : Int) (hv : v = 2 ∨ v = 3 ∨ v = 4 ∨ v = 5)
    (data : List Bool) :
    ∃ (n : Nat) (sf st sp s1 s2 s3 : QRState) (pos : List Int),
      17 + v * 4 = (n : Int) ∧
      addFinderPatterns (freshState v) = some sf ∧
      addTimingPatterns sf = some st ∧
      positions[(st.version - 2).toNat]? = some pos ∧
      pos = [6, (n : Int) - 7, 0, 0, 0, 0, 0] ∧
      alignAt pos 0 st 0 = some st ∧ alignAt pos 0 st 1 = some st ∧
      alignAt pos 1 st 0 = some st ∧ addAlignmentPatterns st = alignAt pos 1 st 1 ∧
      addAlignmentPatterns st = some sp ∧
      (∀ y x : Int, ¬ ((n : Int) - 9 ≤ y ∧ y ≤ (n : Int) - 5 ∧ (n : Int) - 9 ≤ x ∧
          x ≤ (n : Int) - 5) →
        readCell sp.modules y x = readCell st.modules y x ∧
          readCell sp.isFunction y x = readCell st.isFunction y x) ∧
      placeModules sp data = some s1 ∧ addFormatInfo s1 = some s2 ∧ applyMask s2 = some s3 ∧
      (∀ dy dx : Int, -2 ≤ dy ∧ dy ≤ 2 → -2 ≤ dx ∧ dx ≤ 2 →
        readCell sp.modules ((n : Int) - 7 + dy) ((n : Int) - 7 + dx) =
            some (decide (max dx.natAbs dy.natAbs ≠ 1)) ∧
          readCell sp.isFunction ((n : Int) - 7 + dy) ((n : Int) - 7 + dx) = some true ∧
          readCell s3.modules ((n : Int) - 7 + dy) ((n : Int) - 7 + dx) =
            some (decide (max dx.natAbs dy.natAbs ≠ 1)) ∧
          readCell s3.isFunction ((n : Int) - 7 + dy) ((n : Int) - 7 + dx) = some true) ∧
      (∀ (text : List Nat) (t s' : QRState), text ≠ [] → selectVersion text.length = v →
        generateQRCode text t = some s' →
        ∀ dy dx : Int, -2 ≤ dy ∧ dy ≤ 2 → -2 ≤ dx ∧ dx ≤ 2 →
          readCell s'.modules ((n : Int) - 7 + dy) ((n : Int) - 7 + dx) =
            some (decide (max dx.natAbs dy.natAbs ≠ 1)) ∧
          readCell s'.isFunction ((n : Int) - 7 + dy) ((n : Int) - 7 + dx) = some true) ∧
      (∀ (text : List Nat) (t : QRState), text ≠ [] → text.length ≤ 46 →
        ∃ s', generateQRCode text t = some s') := by
  obtain ⟨n, sf, st, sp, hn, _, _, hsf, _, hst, rt, hsp, rp, hpat⟩ := patternStages v hv
  obtain ⟨n2, sp2, s1, s2, s3, hn2, _, _, hsp2, _, _, h1, h2, h3, _, _, _, _, hkeep⟩ :=
    symbol_spec v hv data
  obtain rfl : n = n2 := by omega
  have hsp12 : sp2 = sp := Option.some.inj (hsp2.symm.trans hpat)
  subst hsp12
  obtain ⟨hal, hrow⟩ := alignment_all v hv n hn
  have hver : st.version = v := by
    rw [rt.1]
    rcases hv with h | h | h | h <;> rw [h] <;> rfl
  have h25 : 25 ≤ n := by omega
  have hvr : 2 ≤ st.version ∧ st.version ≤ 6 := by rw [hver]; omega
  rw [← hver] at hrow
  obtain ⟨c00, c01, c10, c11, call⟩ := alignment_calls rt.mcS h25 hvr _ hrow rfl
  obtain ⟨sd, hd, _, _, hframe⟩ := drawAlignment_frame rt.2.2.1 ((n : Int) - 7) ((n : Int) - 7)
    (by omega) (by omega)
  have hsd : sd = sp2 := by
    rw [call, c11, hd] at hsp
    exact Option.some.inj hsp
  subst hsd
  refine ⟨n, sf, st, sd, s1, s2, s3, _, hn, hsf, hst, hrow, rfl, c00, c01, c10, call, hsp,
    ?_, h1, h2, h3, ?_, ?_, ?_⟩
  · intro y x hout
    exact hframe y x (by omega)
  · intro dy dx hdy hdx
    obtain ⟨a1, a2⟩ := alignmentBN_cells rp hal dy dx hdy hdx
    obtain ⟨k1, k2⟩ := hkeep _ _ a2
    exact ⟨a1, a2, by rw [k2]; exact a1, k1⟩
  · intro text t s' hne hsel hg dy dx hdy hdx
    obtain ⟨n3, sp3, hn3, _, _, hsp3, _, _, _, hk3⟩ := generateQRCode_keeps hne hg
    rw [hsel] at hsp3
    have he : sp3 = sd := Option.some.inj (hsp3.symm.trans hpat)
    rw [he] at hk3
    obtain ⟨a1, a2⟩ := alignmentBN_cells rp hal dy dx hdy hdx
    obtain ⟨k1, k2⟩ := hk3 _ _ a2
    exact ⟨by rw [k2]; exact a1, k1⟩
  · intro text t hne hfit
    exact generateQRCode_returns text hne hfit t

theorem alignment_pattern_final_witness :
    ((5 : Int) = 2 ∨ (5 : Int) = 3 ∨ (5 : Int) = 4 ∨ (5 : Int) = 5) ∧
    ∃ (n : Nat) (sf st sp s1 s2 s3 : QRState) (pos : List Int),
      17 + (5 : Int) * 4 = (n : Int) ∧
      addFinderPatterns (freshState 5) = some sf ∧
      addTimingPatterns sf = some st ∧
      positions[(st.version - 2).toNat]? = some pos ∧
      pos = [6, (n : Int) - 7, 0, 0, 0, 0, 0] ∧
      alignAt pos 0 st 0 = some st ∧ alignAt pos 0 st 1 = some st ∧
      alignAt pos 1 st 0 = some st ∧ addAlignmentPatterns st = alignAt pos 1 st 1 ∧
      addAlignmentPatterns st = some sp ∧
      (∀ y x : Int, ¬ ((n : Int) - 9 ≤ y ∧ y ≤ (n : Int) - 5 ∧ (n : Int) - 9 ≤ x ∧
          x ≤ (n : Int) - 5) →
        readCell sp.modules y x = readCell st.modules y x ∧
          readCell sp.isFunction y x = readCell st.isFunction y x) ∧
      placeModules sp [true, false, true] = some s1 ∧ addFormatInfo s1 = some s2 ∧
      applyMask s2 = some s3 ∧
      (∀ dy dx : Int, -2 ≤ dy ∧ dy ≤ 2 → -2 ≤ dx ∧ dx ≤ 2 →
        readCell sp.modules ((n : Int) - 7 + dy) ((n : Int) - 7 + dx) =
            some (decide (max dx.natAbs dy.natAbs ≠ 1)) ∧
          readCell sp.isFunction ((n : Int) - 7 + dy) ((n : Int) - 7 + dx) = some true ∧
          readCell s3.modules ((n : Int) - 7 + dy) ((n : Int) - 7 + dx) =
            some (decide (max dx.natAbs dy.natAbs ≠ 1)) ∧
          readCell s3.isFunction ((n : Int) - 7 + dy) ((n : Int) - 7 + dx) = some true) ∧
      (∀ (text : List Nat) (t s' : QRState), text ≠ [] → selectVersion text.length = 5 →
        generateQRCode text t = some s' →
        ∀ dy dx : Int, -2 ≤ dy ∧ dy ≤ 2 → -2 ≤ dx ∧ dx ≤ 2 →
          readCell s'.modules ((n : Int) - 7 + dy) ((n : Int) - 7 + dx) =
            some (decide (max dx.natAbs dy.natAbs ≠ 1)) ∧
          readCell s'.isFunction ((n : Int) - 7 + dy) ((n : Int) - 7 + dx) = some true) ∧
      (∀ (text : List Nat) (t : QRState), text ≠ [] → text.length ≤ 46 →
        ∃ s', generateQRCode text t = some s') :=
  ⟨Or.inr (Or.inr (Or.inr rfl)),
    alignment_pattern_final 5 (Or.inr (Or.inr (Or.inr rfl))) [true, false, true]⟩

/-- C22, for the text "A" (version 2, side 25): `addFormatInfo` on the grid
that `placeModules` leaves is the run of the 28 writes of `formatWrites 25`,
at 28 distinct cells. Each bit `i` of 0 to 5 and of 9 to 14 of the format
constant goes to two cells, but each of the bits 6, 7 and 8 goes to one cell
only, `(7, 8)`, `(8, 8)` and `(8, 7)` as (row, column): there is no second
cell for them, and every cell that is not among the 28 keeps the module and
the mark it had. -/
theorem format_bits_6_7_8_written_once :
    ∃ sp s1 s2 : QRState,
      addPatterns (freshState 2) = some sp ∧ placeModules sp streamA = some s1 ∧
      addFormatInfo s1 = some s2 ∧
      addFormatInfo s1 = (formatWrites 25).foldlM applyFormatWrite s1 ∧
      ((formatWrites 25).map (fun w => (w.row, w.col))).Nodup ∧
      (formatWrites 25).length = 28 ∧
      (∀ i : Nat, i < 6 → formatBitCells 25 i = [((i : Int), 8), (8, 25 - 1 - (i : Int))]) ∧
      formatBitCells 25 6 = [(7, 8)] ∧ formatBitCells 25 7 = [(8, 8)] ∧
      formatBitCells 25 8 = [(8, 7)] ∧
      (∀ i : Nat, 9 ≤ i → i ≤ 14 →
        formatBitCells 25 i = [(8, 14 - (i : Int)), (25 - 15 + (i : Int), 8)]) ∧
      (∀ w ∈ formatWrites 25, readCell s2.modules w.row w.col = some (formatValue w.bit)) ∧
      (∀ y x : Int, (y, x) ∉ (formatWrites 25).map (fun w => (w.row, w.col)) →
        readCell s2.modules y x = readCell s1.modules y x ∧
          readCell s2.isFunction y x = readCell s1.isFunction y x) := by
  obtain ⟨sp, s1, s2, _, hsp, h1, h2, _, _, _, r1, _, _⟩ := trace_A ⟨2, 25, [], []⟩
  have hwf : WF 25 s1 := r1.2.2.1
  have h21 : 21 ≤ 25 := by omega
  obtain ⟨s2', e2, _, _, hin, hout⟩ := addFormatInfo_cells h21 hwf
  have hw := addFormatInfo_writes h21 hwf
  have hnd := formatWrites_nodup h21
  have he : s2' = s2 := Option.some.inj (e2.symm.trans h2)
  subst he
  simp only [Nat.cast_ofNat] at hin hout hw hnd
  refine ⟨sp, s1, s2', hsp, h1, h2, ?_, ?_, ?_, ?_, ?_, ?_, ?_, ?_, ?_, ?_⟩
  · exact hw
  · exact hnd
  · exact formatWrites_length 25
  · exact fun i hi => formatBitCells_low 25 i hi
  · exact (formatBitCells_mid 25).1
  · exact (formatBitCells_mid 25).2.1
  · exact (formatBitCells_mid 25).2.2
  · exact fun i h9 h14 => formatBitCells_high 25 i h9 h14
  · exact fun w hw => (hin w hw).1
  · exact hout

set_option maxRecDepth 1000000 in
theorem stageStatesN_column6 :
    (column6FinderBN (finderStateN 2) = true ∧ column6FinderBN (finderStateN 3) = true ∧
      column6FinderBN (finderStateN 4) = true ∧ column6FinderBN (finderStateN 5) = true) ∧
    (column6BN (timingStateN 2) = true ∧ column6BN (timingStateN 3) = true ∧
      column6BN (timingStateN 4) = true ∧ column6BN (timingStateN 5) = true) := by
  decide!

theorem stage_column6_all (v : Int) (hv : v = 2 ∨ v = 3 ∨ v = 4 ∨ v = 5) :
    column6FinderBN (finderStateN v) = true ∧ column6BN (timingStateN v) = true := by
  rcases hv with h | h | h | h <;> subst h
  · exact ⟨stageStatesN_column6.1.1, stageStatesN_column6.2.1⟩
  · exact ⟨stageStatesN_column6.1.2.1, stageStatesN_column6.2.2.1⟩
  · exact ⟨stageStatesN_column6.1.2.2.1, stageStatesN_column6.2.2.2.1⟩
  · exact ⟨stageStatesN_column6.1.2.2.2, stageStatesN_column6.2.2.2.2⟩

theorem column6_finder {n : Nat} {s : QRState} {a : NState} (h : Rel n s a)
    (hb : column6FinderBN a = true) (y : Int) (h0 : 0 ≤ y) (hn : y < n) :
    readCell s.isFunction y 6 = some (decide (y ≤ 7 ∨ (n : Int) - 8 ≤ y)) := by
  unfold column6FinderBN at hb
  simp only [List.all_eq_true, beq_iff_eq] at hb
  rw [readFunction_sim h, ← h.mcN]
  apply hb
  unfold intRange
  rw [List.mem_map, h.mcN]
  exact ⟨y.toNat, by rw [List.mem_range]; omega, by omega⟩

theorem readCell_in_range {n : Nat} {g : Grid} (hg : Sized n g) {y x : Int} {b : Bool}
    (h : readCell g y x = some b) : 0 ≤ y ∧ y < n ∧ 0 ≤ x ∧ x < n := by
  by_contra hc
  rw [readCell_none hg (by omega)] at h
  simp at h

theorem writeCell_none {n : Nat} {g : Grid} (hg : Sized n g) {y x : Int}
    (h : y < 0 ∨ x < 0 ∨ y ≥ n ∨ x ≥ n) (v : Bool) : writeCell g y x v = none := by
  unfold writeCell
  by_cases hneg : y < 0 ∨ x < 0
  · rw [if_pos hneg]
  · rw [if_neg hneg]
    by_cases hy : y ≥ n
    · rw [List.getElem?_eq_none (by rw [hg.1]; omega)]
    · have h1 : y.toNat < g.length := by rw [hg.1]; omega
      rw [List.getElem?_eq_getElem h1]
      have h2 : (g[y.toNat]).length = n := hg.2 _ (List.getElem_mem _)
      simp only
      rw [if_neg (by rw [h2]; omega)]

theorem freeCount_eq (v : Int) (hv : v = 2 ∨ v = 3 ∨ v = 4 ∨ v = 5) (n : Nat)
    (hn : 17 + v * 4 = (n : Int)) :
    (freeCellsN n (patternStateN v).isFunction (zigzagOrder n)).length =
      if v = 2 then 390 else if v = 3 then 598 else if v = 4 then 838 else 1110 := by
  rcases hv with h | h | h | h <;> subst h
  · obtain rfl : n = 25 := by omega
    simp only [Nat.cast_ofNat]
    rw [freeCount_2]
    rfl
  · obtain rfl : n = 29 := by omega
    simp only [Nat.cast_ofNat]
    rw [freeCount_3]
    rfl
  · obtain rfl : n = 33 := by omega
    simp only [Nat.cast_ofNat]
    rw [freeCount_4]
    rfl
  · obtain rfl : n = 37 := by omega
    simp only [Nat.cast_ofNat]
    rw [freeCount_5]
    rfl

theorem streamLength_eq (v : Int) (hv : v = 2 ∨ v = 3 ∨ v = 4 ∨ v = 5) :
    capacityOf v + 8 * eccCountOf v =
      if v = 2 then 352 else if v = 3 then 560 else if v = 4 then 800 else 1072 := by
  rcases hv with h | h | h | h <;> subst h <;> rfl

/-- C25: for a version `v` of 2 to 5, of side `n = 17 + 4 v`, on the state
`sp` that the function patterns leave, on which `placeModules` runs: column 6
is marked in the rows 0 to 7 and in the last eight rows after the finder
patterns (finder and separator) and in every row after the timing patterns,
and every cell of column 6 is marked in `sp`; `placeModules` is the loop over
the cells of the zig-zag order, a list without repetition that holds every
cell outside column 6 and no cell of column 6 or outside the grid; so every
cell that is not marked is visited exactly once. -/
theorem zigzag_visits_each_data_cell_once (v : Int) (hv : v = 2 ∨ v = 3 ∨ v = 4 ∨ v = 5) :
    ∃ (n : Nat) (sf st sp : QRState), 17 + v * 4 = (n : Int) ∧
      addFinderPatterns (freshState v) = some sf ∧ addTimingPatterns sf = some st ∧
      addAlignmentPatterns st = some sp ∧ addPatterns (freshState v) = some sp ∧
      (∀ y : Int, 0 ≤ y → y < n →
        readCell sf.isFunction y 6 = some (decide (y ≤ 7 ∨ (n : Int) - 8 ≤ y)) ∧
          readCell st.isFunction y 6 = some true ∧ readCell sp.isFunction y 6 = some true) ∧
      (∀ data : List Bool, placeModules sp data =
        ((zigzagOrder n).foldlM (placeAt data) (sp, 0)).map (fun r => r.1)) ∧
      (zigzagOrder n).Nodup ∧
      (∀ x y : Int, 0 ≤ x → x < n → x ≠ 6 → 0 ≤ y → y < n → (x, y) ∈ zigzagOrder n) ∧
      (∀ c ∈ zigzagOrder n, 0 ≤ c.1 ∧ c.1 < n ∧ c.1 ≠ 6 ∧ 0 ≤ c.2 ∧ c.2 < n) ∧
      (∀ y x : Int, readCell sp.isFunction y x = some false → (x, y) ∈ zigzagOrder n) := by
  obtain ⟨n, sf, st, sp, hn, hodd, h21, hsf, rf, hst, rt, hsp, rp, hpat⟩ := patternStages v hv
  obtain ⟨hnd, hin⟩ := zigzagOrder_cells n hodd (by omega)
  have hcount : ∀ x y : Int, 0 ≤ x → x < n → x ≠ 6 → 0 ≤ y → y < n →
      (x, y) ∈ zigzagOrder n := by
    intro x y h1 h2 h3 h4 h5
    exact (mem_zigzagOrder_iff hodd (by omega) x y).2 ⟨h1, h2, h3, h4, h5⟩
  have h6 : ∀ y : Int, 0 ≤ y → y < n → readCell sp.isFunction y 6 = some true :=
    column6_marked rp (column6_all v hv)
  refine ⟨n, sf, st, sp, hn, hsf, hst, hsp, hpat, ?_, ?_, hnd, hcount, hin, ?_⟩
  · intro y h0 hy
    exact ⟨column6_finder rf (stage_column6_all v hv).1 y h0 hy,
      column6_marked rt (stage_column6_all v hv).2 y h0 hy, h6 y h0 hy⟩
  · intro data
    exact placeModules_eq_order rp.mcS hodd (by omega) data
  · intro y x hf
    obtain ⟨hy0, hy1, hx0, hx1⟩ := readCell_in_range rp.2.2.1.2.2 hf
    refine hcount x y hx0 hx1 ?_ hy0 hy1
    rintro rfl
    rw [h6 y hy0 hy1] at hf
    simp at hf

theorem zigzag_visits_each_data_cell_once_witness :
    ((2 : Int) = 2 ∨ (2 : Int) = 3 ∨ (2 : Int) = 4 ∨ (2 : Int) = 5) ∧
    ∃ (n : Nat) (sf st sp : QRState), 17 + (2 : Int) * 4 = (n : Int) ∧
      addFinderPatterns (freshState 2) = some sf ∧ addTimingPatterns sf = some st ∧
      addAlignmentPatterns st = some sp ∧ addPatterns (freshState 2) = some sp ∧
      (∀ y : Int, 0 ≤ y → y < n →
        readCell sf.isFunction y 6 = some (decide (y ≤ 7 ∨ (n : Int) - 8 ≤ y)) ∧
          readCell st.isFunction y 6 = some true ∧ readCell sp.isFunction y 6 = some true) ∧
      (∀ data : List Bool, placeModules sp data =
        ((zigzagOrder n).foldlM (placeAt data) (sp, 0)).map (fun r => r.1)) ∧
      (zigzagOrder n).Nodup ∧
      (∀ x y : Int, 0 ≤ x → x < n → x ≠ 6 → 0 ≤ y → y < n → (x, y) ∈ zigzagOrder n) ∧
      (∀ c ∈ zigzagOrder n, 0 ≤ c.1 ∧ c.1 < n ∧ c.1 ≠ 6 ∧ 0 ≤ c.2 ∧ c.2 < n) ∧
      (∀ y x : Int, readCell sp.isFunction y x = some false → (x, y) ∈ zigzagOrder n) :=
  ⟨Or.inl rfl, zigzag_visits_each_data_cell_once 2 (Or.inl rfl)⟩

/-- C26: for a version `v` of 2 to 5, of side `n`, on the state `sp` on
which `placeModules` runs: the cells of the grid that are not marked are 390,
598, 838, 1110 for the versions 2, 3, 4, 5, as many as in the zig-zag order;
`capacity + 8 eccCount` is 352, 560, 800, 1072, no more than the cells; for
every stream that is no longer than the cells, each bit `k` of the stream is
the module, after `placeModules`, of the `k`-th cell of the zig-zag order
that is not marked.  In `generateQRCode` for a non-empty text of that
version, `placeModules` runs on `sp` with the combined stream; a combined
stream has `capacity + 8 eccCount` bits; and the combined stream of a
non-empty text of at most 46 bytes exists. -/
theorem placement_drops_no_bit (v : Int) (hv : v = 2 ∨ v = 3 ∨ v = 4 ∨ v = 5) :
    ∃ (n : Nat) (sp : QRState),
      17 + v * 4 = (n : Int) ∧ addPatterns (freshState v) = some sp ∧
      (freeCells sp.isFunction (gridCells n)).length =
        (if v = 2 then 390 else if v = 3 then 598 else if v = 4 then 838 else 1110) ∧
      (freeCells sp.isFunction (zigzagOrder n)).length =
        (freeCells sp.isFunction (gridCells n)).length ∧
      capacityOf v + 8 * eccCountOf v =
        (if v = 2 then 352 else if v = 3 then 560 else if v = 4 then 800 else 1072) ∧
      capacityOf v + 8 * eccCountOf v ≤ (freeCells sp.isFunction (gridCells n)).length ∧
      (∀ stream : List Bool,
        stream.length ≤ (freeCells sp.isFunction (gridCells n)).length →
        ∃ s1, placeModules sp stream = some s1 ∧
          ∀ k : Nat, k < stream.length →
            ∃ c : Int × Int, (freeCells sp.isFunction (zigzagOrder n))[k]? = some c ∧
              readCell s1.modules c.2 c.1 = stream[k]?) ∧
      (∀ (text : List Nat) (t : QRState), text ≠ [] → selectVersion text.length = v →
        generateQRCode text t = (combinedStream text).bind (fun bits =>
          (placeModules sp bits).bind (fun r => (addFormatInfo r).bind applyMask))) ∧
      (∀ (text : List Nat) (bits : List Bool), selectVersion text.length = v →
        combinedStream text = some bits →
        bits.length = capacityOf v + 8 * eccCountOf v) ∧
      (∀ text : List Nat, text ≠ [] → text.length ≤ 46 →
        ∃ bits, combinedStream text = some bits) := by
  obtain ⟨n, sp, hn, hodd, h21, hsp, hrel, hP⟩ := patternState_rel v hv
  have h9 : 9 ≤ n := by omega
  have h6 : ∀ y : Int, 0 ≤ y → y < n → readCell sp.isFunction y 6 = some true :=
    column6_marked hrel (column6_all _ hv)
  have hgrid := freeCells_grid_length hodd h9 sp.isFunction h6
  have hfree := freeCount_eq _ hv n hn
  rw [← freeCells_sim hrel] at hfree
  have hlen := streamLength_eq v hv
  have hle : capacityOf v + 8 * eccCountOf v ≤
      (freeCells sp.isFunction (zigzagOrder n)).length := by
    rw [hlen, hfree]
    rcases hv with h | h | h | h <;> rw [h] <;> decide
  refine ⟨n, sp, hn, hsp, by rw [hgrid]; exact hfree, hgrid.symm, hlen,
    by rw [hgrid]; exact hle, ?_, ?_, ?_, ?_⟩
  · intro stream hs
    rw [hgrid] at hs
    obtain ⟨s1, e1, _, _, _, hbit, _⟩ := placeModules_zigzag hrel.2.2.1 hodd h9 stream
    refine ⟨s1, e1, ?_⟩
    intro k hk
    have hk2 : k < (freeCells sp.isFunction (zigzagOrder n)).length := by omega
    refine ⟨(freeCells sp.isFunction (zigzagOrder n))[k], List.getElem?_eq_getElem hk2, ?_⟩
    rw [hbit k _ (List.getElem?_eq_getElem hk2), List.getElem?_eq_getElem hk]
    rfl
  · intro text t hne hsel
    subst hsel
    exact generateQRCode_stages text hne t hsp (patternB_parts hP).2.1
  · intro text bits hsel hbits
    subst hsel
    exact combinedStream_length text hbits
  · intro text _ hfit
    obtain ⟨tail, ecc, _, _, _, _, hb⟩ := combinedStream_defined text hfit
    exact ⟨_, hb⟩

theorem placement_drops_no_bit_witness :
    ((5 : Int) = 2 ∨ (5 : Int) = 3 ∨ (5 : Int) = 4 ∨ (5 : Int) = 5) ∧
    ∃ (n : Nat) (sp : QRState),
      17 + (5 : Int) * 4 = (n : Int) ∧ addPatterns (freshState 5) = some sp ∧
      (freeCells sp.isFunction (gridCells n)).length =
        (if (5 : Int) = 2 then 390 else if (5 : Int) = 3 then 598
          else if (5 : Int) = 4 then 838 else 1110) ∧
      (freeCells sp.isFunction (zigzagOrder n)).length =
        (freeCells sp.isFunction (gridCells n)).length ∧
      capacityOf 5 + 8 * eccCountOf 5 =
        (if (5 : Int) = 2 then 352 else if (5 : Int) = 3 then 560
          else if (5 : Int) = 4 then 800 else 1072) ∧
      capacityOf 5 + 8 * eccCountOf 5 ≤ (freeCells sp.isFunction (gridCells n)).length ∧
      (∀ stream : List Bool,
        stream.length ≤ (freeCells sp.isFunction (gridCells n)).length →
        ∃ s1, placeModules sp stream = some s1 ∧
          ∀ k : Nat, k < stream.length →
            ∃ c : Int × Int, (freeCells sp.isFunction (zigzagOrder n))[k]? = some c ∧
              readCell s1.modules c.2 c.1 = stream[k]?) ∧
      (∀ (text : List Nat) (t : QRState), text ≠ [] → selectVersion text.length = 5 →
        generateQRCode text t = (combinedStream text).bind (fun bits =>
          (placeModules sp bits).bind (fun r => (addFormatInfo r).bind applyMask))) ∧
      (∀ (text : List Nat) (bits : List Bool), selectVersion text.length = 5 →
        combinedStream text = some bits →
        bits.length = capacityOf 5 + 8 * eccCountOf 5) ∧
      (∀ text : List Nat, text ≠ [] → text.length ≤ 46 →
        ∃ bits, combinedStream text = some bits) :=
  ⟨Or.inr (Or.inr (Or.inr rfl)), placement_drops_no_bit 5 (Or.inr (Or.inr (Or.inr rfl)))⟩

/-- C27: an unchecked read or write of a grid of side `n` outside
`[0, n)` has no result in the model, and a function that performs one has
none; for a version `v` of 2 to 5, of side `n = 17 + 4 v`,
`addFinderPatterns`, `addTimingPatterns` and `addAlignmentPatterns` return
on the cleared grids, and on their result `placeModules` returns for every
stream, then `addFormatInfo` and `applyMask` return: no access is out of
bounds. `placeModules` is the loop over the cells of the zig-zag order, whose
columns `col - c` and rows are in `[0, n)`. -/
theorem grid_accesses_in_bounds (v : Int) (hv : v = 2 ∨ v = 3 ∨ v = 4 ∨ v = 5) :
    ∃ (n : Nat) (sf st sp : QRState), 17 + v * 4 = (n : Int) ∧
      (∀ (g : Grid) (y x : Int) (b : Bool), Sized n g → (y < 0 ∨ x < 0 ∨ y ≥ n ∨ x ≥ n) →
        readCell g y x = none ∧ writeCell g y x b = none) ∧
      addFinderPatterns (freshState v) = some sf ∧ addTimingPatterns sf = some st ∧
      addAlignmentPatterns st = some sp ∧
      (∀ data : List Bool, ∃ s1 s2 s3 : QRState,
        placeModules sp data = some s1 ∧ addFormatInfo s1 = some s2 ∧
          applyMask s2 = some s3 ∧
          placeModules sp data =
            ((zigzagOrder n).foldlM (placeAt data) (sp, 0)).map (fun r => r.1)) ∧
      (∀ c ∈ zigzagOrder n, 0 ≤ c.1 ∧ c.1 < n ∧ 0 ≤ c.2 ∧ c.2 < n) := by
  obtain ⟨n, sf, st, sp, hn, hodd, h21, hsf, rf, hst, rt, hsp, rp, hpat⟩ := patternStages v hv
  have h9 : 9 ≤ n := by omega
  refine ⟨n, sf, st, sp, hn, ?_, hsf, hst, hsp, ?_, ?_⟩
  · intro g y x b hg hout
    exact ⟨readCell_none hg hout, writeCell_none hg hout b⟩
  · intro data
    obtain ⟨s1, e1, _, wf1, _, _, _⟩ := placeModules_zigzag rp.2.2.1 hodd h9 data
    obtain ⟨s2, e2, u2⟩ := addFormatInfo_spec h21 wf1
    obtain ⟨s3, e3, _, _⟩ := applyMask_spec u2.2.1
    exact ⟨s1, s2, s3, e1, e2, e3, placeModules_eq_order rp.mcS hodd h9 data⟩
  · intro c hc
    have := (zigzagOrder_cells n hodd h9).2 c hc
    omega

theorem grid_accesses_in_bounds_witness :
    ((2 : Int) = 2 ∨ (2 : Int) = 3 ∨ (2 : Int) = 4 ∨ (2 : Int) = 5) ∧
    ∃ (n : Nat) (sf st sp : QRState), 17 + (2 : Int) * 4 = (n : Int) ∧
      (∀ (g : Grid) (y x : Int) (b : Bool), Sized n g → (y < 0 ∨ x < 0 ∨ y ≥ n ∨ x ≥ n) →
        readCell g y x = none ∧ writeCell g y x b = none) ∧
      addFinderPatterns (freshState 2) = some sf ∧ addTimingPatterns sf = some st ∧
      addAlignmentPatterns st = some sp ∧
      (∀ data : List Bool, ∃ s1 s2 s3 : QRState,
        placeModules sp data = some s1 ∧ addFormatInfo s1 = some s2 ∧
          applyMask s2 = some s3 ∧
          placeModules sp data =
            ((zigzagOrder n).foldlM (placeAt data) (sp, 0)).map (fun r => r.1)) ∧
      (∀ c ∈ zigzagOrder n, 0 ≤ c.1 ∧ c.1 < n ∧ 0 ≤ c.2 ∧ c.2 < n) :=
  ⟨Or.inl rfl, grid_accesses_in_bounds 2 (Or.inl rfl)⟩

end QRCodeWidget
